import Mathlib

/-! Threat management (`src/server/game/Combat/ThreatManager.cpp`)

A shallow embedding of the threat subsystem: the per-target `HostileReference`,
the ordered `ThreatContainer` with its victim-selection policy, and the per-owner
`ThreatManager` with its event handler.

Conventions of the embedding.

* A `Unit*` is an `Option Guid`: live units are identified by their GUID and the
  null pointer is `none`.  Everything the code asks of a unit object (type, flags,
  geometry relative to the owner, auras) is read from a `World` record, which is
  an input of every operation.
* A `HostileReference*` is a `RefId`, an address into the manager's store `refs`;
  pointer comparisons of references are comparisons of addresses.
* `float` threat values are exact rationals and `float` arithmetic is exact: the
  rounding of binary32 sums and products (`iThreat += modThreat`, `1.1f * threat`,
  `CalculatePct`) is not modelled.  The statements below are about which operations
  run and in which order, not about rounded values.
* An `ASSERT` is a precondition of the code; the embedding does not model the abort.
* Operations that mutate the manager return the new manager; the opcodes sent to
  the owner and the owner's combat set are recorded in the manager state.
-/

namespace Neltharion

/-- Stable identity of a unit (64-bit GUID). -/
abbrev Guid := Nat

/-- Address of a `HostileReference` object. -/
abbrev RefId := Nat

/-- Static spell data read by `ThreatCalcHelper`. -/
structure SpellEffectInfo where
  isEnergizeEffect : Bool
  isPeriodicEnergizeAura : Bool
deriving DecidableEq

/-- Number of effect slots of a spell. -/
def MAX_SPELL_EFFECTS : Nat := 3

/-- The part of `SpellInfo` the threat code reads. -/
structure SpellInfo where
  Id : Nat
  attrNoThreat : Bool
  Effects : Fin MAX_SPELL_EFFECTS → SpellEffectInfo

/-- What the threat code reads from its collaborators (units, map, spell registry).
Predicates with one GUID are taken relative to the owner of the manager. -/
structure World where
  /-- `ObjectAccessor::GetUnit`: the unit with this GUID can be resolved. -/
  getUnit : Guid → Bool
  /-- `ToPlayer()` is non-null, i.e. `GetTypeId() == TYPEID_PLAYER`. -/
  isPlayer : Guid → Bool
  /-- `ToCreature()` is non-null, i.e. `GetTypeId() == TYPEID_UNIT`. -/
  isCreature : Guid → Bool
  isGameMaster : Guid → Bool
  isAlive : Guid → Bool
  /-- `HasUnitState(UNIT_STATE_IN_FLIGHT)`. -/
  inFlight : Guid → Bool
  IsInMap : Guid → Guid → Bool
  InSamePhase : Guid → Guid → Bool
  isInAccessiblePlaceFor : Guid → Bool
  IsWithinCombatRange : Guid → Bool
  /-- `target->IsImmunedToDamage(attacker->GetMeleeDamageSchoolMask())`. -/
  IsImmunedToDamage : Guid → Bool
  /-- `target->HasNegativeAuraWithInterruptFlag(AURA_INTERRUPT_FLAG_TAKE_DAMAGE)`. -/
  HasNegativeAuraWithInterruptFlag : Guid → Bool
  canCreatureAttack : Guid → Bool
  IsWithinMeleeRange : Guid → Bool
  GetRedirectThreatPercent : Guid → Nat
  GetRedirectThreatTarget : Guid → Option Guid
  /-- `sSpellMgr->GetSpellThreatEntry(id)->pctMod`, when there is an entry. -/
  GetSpellThreatEntry : Nat → Option ℚ
  GetSpellModOwner : Guid → Option Guid
  /-- `modOwner->ApplySpellMod(spellId, SPELLMOD_THREAT, threat)`. -/
  ApplySpellMod : Guid → Nat → ℚ → ℚ
  /-- `hatedUnit->ApplyTotalThreatModifier(threat, schoolMask)`. -/
  ApplyTotalThreatModifier : Guid → ℚ → Nat → ℚ
  /-- The configured client-update interval, in milliseconds. -/
  THREAT_UPDATE_INTERVAL : Nat

/-- One edge of the threat graph (`HostileReference`). -/
structure HostileReference where
  iUnitGuid : Guid
  iThreat : ℚ
  iTempThreatModifier : ℚ
  iOnline : Bool
  iAccessible : Bool
  /-- The link to the live target object is set (`isValid()`). -/
  iRefTo : Bool
  /-- The link to the owning manager is set (`getSource()` is non-null). -/
  iRefFrom : Bool
deriving DecidableEq

/-- Modelled from the spec: `HostileReference::getThreat` (declared in the header,
not in the source file) reads the accumulated threat attribute. -/
def HostileReference.getThreat (r : HostileReference) : ℚ := r.iThreat

/-- Modelled from the spec: `HostileReference::getTempThreatModifier` (header). -/
def HostileReference.getTempThreatModifier (r : HostileReference) : ℚ :=
  r.iTempThreatModifier

/-- Modelled from the spec: the effective threat used for ordering (glossary:
`tempThreatModifier` if non-zero, else `threat`); the header is not in the source. -/
def HostileReference.effectiveThreat (r : HostileReference) : ℚ :=
  if r.iTempThreatModifier ≠ 0 then r.iTempThreatModifier else r.iThreat

/-- Modelled from the spec: `Reference::getTarget` (header): the linked target, or
null when the link is cut. -/
def HostileReference.getTarget (r : HostileReference) : Option Guid :=
  if r.iRefTo then some r.iUnitGuid else none

/-- The constructor `HostileReference(refUnit, threatManager, threat)`. -/
def HostileReference.new (refUnit : Guid) (threat : ℚ) : HostileReference :=
  { iUnitGuid := refUnit, iThreat := threat, iTempThreatModifier := 0,
    iOnline := true, iAccessible := true, iRefTo := true, iRefFrom := true }

/-- An ordered sequence of references plus the dirty flag (`ThreatContainer`). -/
structure ThreatContainer where
  iThreatList : List RefId
  iDirty : Bool
deriving DecidableEq

/-- Opcodes the manager sends to its owner. -/
inductive Opcode where
  | changeCurrentVictim (ref : RefId)
  | removeFromThreatList (ref : RefId)
deriving DecidableEq

/-- The per-owner facade (`ThreatManager`), together with the store of reference
objects and the owner-side effects of its operations. -/
structure ThreatManager where
  /-- The reference objects, by address. -/
  refs : RefId → HostileReference
  /-- The address the next `new HostileReference` returns. -/
  nextRef : RefId
  iThreatContainer : ThreatContainer
  iThreatOfflineContainer : ThreatContainer
  iCurrentVictim : Option RefId
  iOwner : Option Guid
  iUpdateTimer : Nat
  /-- The owner's combat set (`IsInCombatWith` / `SetInCombatWith`). -/
  inCombatWith : List Guid
  /-- Opcodes sent to the owner so far, oldest first. -/
  sent : List Opcode

/-! ## ThreatContainer -/

/-- Modelled from the spec: `Trinity::ThreatOrderPred` (not in the source file):
`a` is ordered before `b` by effective threat, descending. -/
def ThreatOrderPred (refs : RefId → HostileReference) (a b : RefId) : Prop :=
  (refs a).effectiveThreat ≥ (refs b).effectiveThreat

instance (refs : RefId → HostileReference) : DecidableRel (ThreatOrderPred refs) :=
  fun a b => inferInstanceAs (Decidable ((refs a).effectiveThreat ≥ (refs b).effectiveThreat))

/-- `ThreatContainer::update`: a stable sort when dirty and longer than one; the
dirty flag is cleared. -/
def ThreatContainer.update (refs : RefId → HostileReference) (c : ThreatContainer) :
    ThreatContainer :=
  { iThreatList :=
      if c.iDirty = true ∧ c.iThreatList.length > 1 then
        c.iThreatList.insertionSort (ThreatOrderPred refs)
      else c.iThreatList,
    iDirty := false }

/-- Modelled from the spec: `ThreatContainer::addReference` (header): append and
mark dirty. -/
def ThreatContainer.addReference (c : ThreatContainer) (r : RefId) : ThreatContainer :=
  { iThreatList := c.iThreatList ++ [r], iDirty := true }

/-- Modelled from the spec: `ThreatContainer::remove` (header): unlink the
reference from the sequence. -/
def ThreatContainer.remove (c : ThreatContainer) (r : RefId) : ThreatContainer :=
  { c with iThreatList := c.iThreatList.filter (fun x => x ≠ r) }

/-- `ThreatContainer::getReferenceByTarget`: linear scan for the victim's GUID. -/
def ThreatContainer.getReferenceByTarget (refs : RefId → HostileReference)
    (c : ThreatContainer) (victim : Option Guid) : Option RefId :=
  match victim with
  | none => none
  | some guid => c.iThreatList.find? (fun i => (refs i).iUnitGuid = guid)

/-- The test of lines 339-340: the reference is a second-choice (low-priority)
target. -/
def isSecondChoice (w : World) (refs : RefId → HostileReference) (r : RefId) : Bool :=
  w.IsImmunedToDamage (refs r).iUnitGuid || w.HasNegativeAuraWithInterruptFlag (refs r).iUnitGuid

/-- Lines 361-386 of `selectNextVictim`, for a candidate that passed
`canCreatureAttack`: `some x` when the loop breaks with `found` and `currentRef = x`,
`none` when the loop advances (`++iter`). -/
def compareWithVictim (w : World) (refs : RefId → HostileReference) (currentRef : RefId)
    (currentVictim : Option RefId) : Option RefId :=
  match currentVictim with
  | some v =>
    if v = currentRef ∨ (refs currentRef).getThreat ≤ 1.1 * (refs v).getThreat then
      if v ≠ currentRef ∧ w.canCreatureAttack (refs v).iUnitGuid = true then some v
      else some currentRef
    else if (refs currentRef).getThreat > 1.3 * (refs v).getThreat + 1 ∨
        ((refs currentRef).getThreat > 1.1 * (refs v).getThreat + 1 ∧
          w.IsWithinMeleeRange (refs currentRef).iUnitGuid = true) then
      some currentRef
    else none
  | none => some currentRef

/-- The loop of `selectNextVictim` once `noPriorityTargetFound` is set: the
second-choice test is skipped, so the loop is a plain scan from `iter`. -/
def scanNoPriority (w : World) (refs : RefId → HostileReference)
    (currentVictim : Option RefId) : List RefId → Option RefId
  | [] => none
  | currentRef :: rest =>
    if w.canCreatureAttack (refs currentRef).iUnitGuid = true then
      match compareWithVictim w refs currentRef currentVictim with
      | some x => some x
      | none => scanNoPriority w refs currentVictim rest
    else scanNoPriority w refs currentVictim rest

/-- The loop of `selectNextVictim` while `noPriorityTargetFound` is false. The
list argument is what is left from `iter` on, `all` is the whole list;
`iter != lastRef` is `rest ≠ []`. At the last element a second-choice reference
sets the flag and restarts from `begin()`. -/
def scanPriority (w : World) (refs : RefId → HostileReference) (all : List RefId) :
    Option RefId → List RefId → Option RefId
  | _, [] => none
  | currentVictim, currentRef :: rest =>
    if isSecondChoice w refs currentRef = true then
      if rest ≠ [] then
        scanPriority w refs all (if some currentRef = currentVictim then none else currentVictim) rest
      else scanNoPriority w refs currentVictim all
    else if w.canCreatureAttack (refs currentRef).iUnitGuid = true then
      match compareWithVictim w refs currentRef currentVictim with
      | some x => some x
      | none => scanPriority w refs all currentVictim rest
    else scanPriority w refs all currentVictim rest

/-- `ThreatContainer::selectNextVictim(attacker, currentVictim)`; the attacker is
the owner, whose predicates are in `w`. `ASSERT(target)` is a precondition on the
references of the list (their target link is set); the target is addressed by the
reference's GUID. -/
def ThreatContainer.selectNextVictim (w : World) (refs : RefId → HostileReference)
    (c : ThreatContainer) (currentVictim : Option RefId) : Option RefId :=
  scanPriority w refs c.iThreatList currentVictim c.iThreatList

/-! ## ThreatManager: selection -/

/-- Modelled from the spec: `ThreatManager::getCurrentVictim` (header). -/
def ThreatManager.getCurrentVictim (m : ThreatManager) : Option RefId := m.iCurrentVictim

/-- Modelled from the spec: `ThreatManager::setDirty` (header) sets the dirty flag
of the online container. -/
def ThreatManager.setDirty (m : ThreatManager) (isDirty : Bool) : ThreatManager :=
  { m with iThreatContainer := { m.iThreatContainer with iDirty := isDirty } }

/-- `ThreatManager::setCurrentVictim`. -/
def ThreatManager.setCurrentVictim (m : ThreatManager) (pHostileReference : Option RefId) :
    ThreatManager :=
  let m1 :=
    match pHostileReference with
    | some r =>
      if some r ≠ m.iCurrentVictim then { m with sent := m.sent ++ [Opcode.changeCurrentVictim r] }
      else m
    | none => m
  { m1 with iCurrentVictim := pHostileReference }

/-- The online container after `iThreatContainer.update()`. -/
def ThreatManager.updateContainer (m : ThreatManager) : ThreatManager :=
  { m with iThreatContainer := m.iThreatContainer.update m.refs }

/-- `ThreatManager::getHostilTarget`: the returned `Unit*` and the manager
afterwards. -/
def ThreatManager.getHostilTarget (w : World) (m : ThreatManager) :
    Option Guid × ThreatManager :=
  let m1 := m.updateContainer
  let v := m1.getCurrentVictim
  let m2 :=
    match m1.iOwner with
    | some o =>
      if w.isCreature o = true then
        match m1.iThreatContainer.selectNextVictim w m1.refs v with
        | some nextVictim => m1.setCurrentVictim (some nextVictim)
        | none => m1
      else m1
    | none => m1
  (match v with
   | some r => (m2.refs r).getTarget
   | none => none, m2)

/-! ## Events -/

/-- The event types of `UnitEvents.h` that references emit. -/
inductive UnitEventType where
  | UEV_THREAT_REF_THREAT_CHANGE
  | UEV_THREAT_REF_ONLINE_STATUS
  | UEV_THREAT_REF_ASSECCIBLE_STATUS
  | UEV_THREAT_REF_REMOVE_FROM_LIST
deriving DecidableEq

/-- A reference-status transition (`ThreatRefStatusChangeEvent`). -/
structure ThreatRefStatusChangeEvent where
  eventType : UnitEventType
  reference : Option RefId
  fValue : ℚ
deriving DecidableEq

/-- `iOwner->SendRemoveFromThreatListOpcode(ref)`. -/
def ThreatManager.SendRemoveFromThreatListOpcode (m : ThreatManager) (r : RefId) :
    ThreatManager :=
  { m with sent := m.sent ++ [Opcode.removeFromThreatList r] }

/-- The `switch` of `processThreatEvent` (lines 557-600). -/
def ThreatManager.handleEvent (m : ThreatManager) (ev : ThreatRefStatusChangeEvent) :
    ThreatManager :=
  match ev.reference with
  | none => m
  | some hostilRef =>
    match ev.eventType with
    | .UEV_THREAT_REF_THREAT_CHANGE =>
      if (m.getCurrentVictim = some hostilRef ∧ ev.fValue ≤ 0) ∨
          (m.getCurrentVictim ≠ some hostilRef ∧ ev.fValue > 0) then
        m.setDirty true
      else m
    | .UEV_THREAT_REF_ONLINE_STATUS =>
      if (m.refs hostilRef).iOnline = false then
        let m1 :=
          if some hostilRef = m.getCurrentVictim then (m.setCurrentVictim none).setDirty true
          else m
        let m2 := m1.SendRemoveFromThreatListOpcode hostilRef
        { m2 with
          iThreatContainer := m2.iThreatContainer.remove hostilRef,
          iThreatOfflineContainer := m2.iThreatOfflineContainer.addReference hostilRef }
      else
        let m1 :=
          match m.getCurrentVictim with
          | some v =>
            if (m.refs hostilRef).getThreat > 1.1 * (m.refs v).getThreat then m.setDirty true
            else m
          | none => m
        { m1 with
          iThreatContainer := m1.iThreatContainer.addReference hostilRef,
          iThreatOfflineContainer := m1.iThreatOfflineContainer.remove hostilRef }
    | .UEV_THREAT_REF_REMOVE_FROM_LIST =>
      let m1 :=
        if some hostilRef = m.getCurrentVictim then (m.setCurrentVictim none).setDirty true
        else m
      let m2 := m1.SendRemoveFromThreatListOpcode hostilRef
      if (m2.refs hostilRef).iOnline = true then
        { m2 with iThreatContainer := m2.iThreatContainer.remove hostilRef }
      else
        { m2 with iThreatOfflineContainer := m2.iThreatOfflineContainer.remove hostilRef }
    | .UEV_THREAT_REF_ASSECCIBLE_STATUS => m

/-- The end of `processThreatEvent` (lines 604-609). -/
def ThreatManager.afterEvent (w : World) (m : ThreatManager) : ThreatManager :=
  let old_v := m.iCurrentVictim
  let m1 := m.updateContainer
  match m1.getCurrentVictim with
  | some v =>
    match old_v with
    | none => (m1.getHostilTarget w).2
    | some o =>
      if (m1.refs o).iUnitGuid ≠ (m1.refs v).iUnitGuid then (m1.getHostilTarget w).2
      else m1
  | none => m1

/-- `ThreatManager::processThreatEvent`. -/
def ThreatManager.processThreatEvent (w : World) (m : ThreatManager)
    (ev : ThreatRefStatusChangeEvent) : ThreatManager :=
  (m.handleEvent ev).afterEvent w

/-! ## HostileReference

The methods of a reference run on the manager state: the reference is addressed by
`self`, its fields live in `refs`, and its events are delivered synchronously. -/

/-- Write the fields of the reference at `self`. -/
def ThreatManager.setRef (m : ThreatManager) (self : RefId) (r : HostileReference) :
    ThreatManager :=
  { m with refs := Function.update m.refs self r }

/-- `HostileReference::fireStatusChanged`. -/
def HostileReference.fireStatusChanged (w : World) (m : ThreatManager) (self : RefId)
    (ev : ThreatRefStatusChangeEvent) : ThreatManager :=
  if (m.refs self).iRefFrom = true then m.processThreatEvent w ev else m

/-- `HostileReference::setAccessibleState`. -/
def HostileReference.setAccessibleState (w : World) (m : ThreatManager) (self : RefId)
    (isAccessible : Bool) : ThreatManager :=
  if (m.refs self).iAccessible ≠ isAccessible then
    let m1 := m.setRef self { m.refs self with iAccessible := isAccessible }
    HostileReference.fireStatusChanged w m1 self
      ⟨.UEV_THREAT_REF_ASSECCIBLE_STATUS, some self, 0⟩
  else m

/-- `HostileReference::setOnlineOfflineState`. -/
def HostileReference.setOnlineOfflineState (w : World) (m : ThreatManager) (self : RefId)
    (isOnline : Bool) : ThreatManager :=
  if (m.refs self).iOnline ≠ isOnline then
    let m1 := m.setRef self { m.refs self with iOnline := isOnline }
    let m2 :=
      if (m1.refs self).iOnline = false then HostileReference.setAccessibleState w m1 self false
      else m1
    HostileReference.fireStatusChanged w m2 self ⟨.UEV_THREAT_REF_ONLINE_STATUS, some self, 0⟩
  else m

/-- `HostileReference::getSourceUnit`. -/
def HostileReference.getSourceUnit (m : ThreatManager) (self : RefId) : Option Guid :=
  if (m.refs self).iRefFrom = true then m.iOwner else none

/-- The `(online, accessible)` pair computed by lines 170-197 of
`updateOnlineStatus`, for a reference whose link has been refreshed. With no source
unit `IsInMap` and `InSamePhase` are false. -/
def HostileReference.computeStatus (w : World) (m : ThreatManager) (self : RefId) :
    Bool × Bool :=
  let g := (m.refs self).iUnitGuid
  let sameMapAndPhase : Bool :=
    match HostileReference.getSourceUnit m self with
    | some o => w.IsInMap g o && w.InSamePhase g o
    | none => false
  if (m.refs self).iRefTo = true
      ∧ (w.isPlayer g = false ∨ w.isGameMaster g = false)
      ∧ w.inFlight g = false
      ∧ sameMapAndPhase = true then
    if w.isInAccessiblePlaceFor g = true then (true, true)
    else if w.IsWithinCombatRange g = true then (true, false)
    else (false, false)
  else (false, false)

/-- `HostileReference::updateOnlineStatus`. -/
def HostileReference.updateOnlineStatus (w : World) (m : ThreatManager) (self : RefId) :
    ThreatManager :=
  let m1 :=
    if (m.refs self).iRefTo = false ∧ w.getUnit (m.refs self).iUnitGuid = true then
      m.setRef self { m.refs self with iRefTo := true }
    else m
  let st := HostileReference.computeStatus w m1 self
  let m2 := HostileReference.setAccessibleState w m1 self st.2
  HostileReference.setOnlineOfflineState w m2 self st.1

/-- `HostileReference::addThreat`: the lowest level of adding threat. -/
def HostileReference.addThreat (w : World) (m : ThreatManager) (self : RefId)
    (modThreat : ℚ) : ThreatManager :=
  let m1 := m.setRef self { m.refs self with iThreat := (m.refs self).iThreat + modThreat }
  let m2 := if (m1.refs self).iOnline = false then HostileReference.updateOnlineStatus w m1 self else m1
  if modThreat ≠ 0 then
    HostileReference.fireStatusChanged w m2 self
      ⟨.UEV_THREAT_REF_THREAT_CHANGE, some self, modThreat⟩
  else m2

/-- Modelled from the spec: `CalculatePct(base, pct)` (utility header, not in the
source): `pct` percent of `base`. -/
def CalculatePct (base : ℚ) (pct : ℤ) : ℚ := base * pct / 100

/-- Modelled from the spec: `AddPct(base, pct)` (utility header): `base` raised by
`pct` percent. -/
def AddPct (base : ℚ) (pct : ℤ) : ℚ := base + CalculatePct base pct

/-- `HostileReference::addThreatPercent`. -/
def HostileReference.addThreatPercent (w : World) (m : ThreatManager) (self : RefId)
    (percent : ℤ) : ThreatManager :=
  let tmpThreat := AddPct (m.refs self).iThreat percent
  HostileReference.addThreat w m self (tmpThreat - (m.refs self).iThreat)

/-- Modelled from the spec: `Reference::invalidate` (header): the link to the
target is cut, the link to the source remains. -/
def HostileReference.invalidate (m : ThreatManager) (self : RefId) : ThreatManager :=
  m.setRef self { m.refs self with iRefTo := false }

/-- `HostileReference::removeReference`. -/
def HostileReference.removeReference (w : World) (m : ThreatManager) (self : RefId) :
    ThreatManager :=
  HostileReference.fireStatusChanged w (HostileReference.invalidate m self) self
    ⟨.UEV_THREAT_REF_REMOVE_FROM_LIST, some self, 0⟩

/-- `HostileReference::sourceObjectDestroyLink`. -/
def HostileReference.sourceObjectDestroyLink (w : World) (m : ThreatManager) (self : RefId) :
    ThreatManager :=
  HostileReference.setOnlineOfflineState w m self false

/-! ## ThreatCalcHelper -/

/-- `ThreatCalcHelper::calcThreat`; the unused `hatingUnit` is dropped. -/
def ThreatCalcHelper.calcThreat (w : World) (hatedUnit : Option Guid) (threat : ℚ)
    (schoolMask : Nat) (threatSpell : Option SpellInfo) : ℚ :=
  match hatedUnit with
  | none => 0
  | some hated =>
    match threatSpell with
    | some spell =>
      let threat1 :=
        match w.GetSpellThreatEntry spell.Id with
        | some pctMod => if pctMod ≠ 1 then threat * pctMod else threat
        | none => threat
      if ∃ i : Fin MAX_SPELL_EFFECTS,
          (spell.Effects i).isEnergizeEffect = true ∨
            (spell.Effects i).isPeriodicEnergizeAura = true then
        threat1
      else
        let threat2 :=
          match w.GetSpellModOwner hated with
          | some modOwner => w.ApplySpellMod modOwner spell.Id threat1
          | none => threat1
        w.ApplyTotalThreatModifier hated threat2 schoolMask
    | none => w.ApplyTotalThreatModifier hated threat schoolMask

/-- `ThreatCalcHelper::isValidProcess`. The closing `ASSERT` on the type of
`hatingUnit` is a precondition of the `true` result. -/
def ThreatCalcHelper.isValidProcess (w : World) (hatedUnit hatingUnit : Option Guid)
    (threatSpell : Option SpellInfo) : Bool :=
  match hatedUnit, hatingUnit with
  | some hated, some hating =>
    if hated = hating then false
    else if w.isPlayer hated = true ∧ w.isGameMaster hated = true then false
    else if w.isAlive hated = false ∨ w.isAlive hating = false then false
    else if w.IsInMap hated hating = false ∨ w.InSamePhase hated hating = false then false
    else if (match threatSpell with
             | some spell => spell.attrNoThreat
             | none => false) = true then false
    else true
  | _, _ => false

/-! ## ThreatManager: operations -/

/-- The constructor `ThreatManager(owner)`: both containers empty and clean. -/
def ThreatManager.new (w : World) (owner : Option Guid) : ThreatManager :=
  { refs := fun _ => HostileReference.new 0 0, nextRef := 0,
    iThreatContainer := ⟨[], false⟩, iThreatOfflineContainer := ⟨[], false⟩,
    iCurrentVictim := none, iOwner := owner, iUpdateTimer := w.THREAT_UPDATE_INTERVAL,
    inCombatWith := [], sent := [] }

/-- Modelled from the spec: `ThreatManager::getOwner` (header). -/
def ThreatManager.getOwner (m : ThreatManager) : Option Guid := m.iOwner

/-- The online (`false`) or the offline (`true`) container of the manager. -/
def ThreatManager.container (m : ThreatManager) (offline : Bool) : ThreatContainer :=
  if offline = true then m.iThreatOfflineContainer else m.iThreatContainer

/-- `ThreatContainer::addThreat(victim, threat)` on one of the manager's
containers: the reference found, and the manager afterwards. -/
def ThreatContainer.addThreat (w : World) (m : ThreatManager) (offline : Bool)
    (victim : Option Guid) (threat : ℚ) : Option RefId × ThreatManager :=
  match (m.container offline).getReferenceByTarget m.refs victim with
  | some ref => (some ref, HostileReference.addThreat w m ref threat)
  | none => (none, m)

/-- `ThreatContainer::modifyThreatPercent(victim, percent)` on one of the manager's
containers. -/
def ThreatContainer.modifyThreatPercent (w : World) (m : ThreatManager) (offline : Bool)
    (victim : Option Guid) (percent : ℤ) : ThreatManager :=
  match (m.container offline).getReferenceByTarget m.refs victim with
  | some ref => HostileReference.addThreatPercent w m ref percent
  | none => m

/-- Lines 459-460 of `_addThreat`: `new HostileReference(victim, this, 0)` is
allocated at address `nextRef` and appended to the online container. -/
def ThreatManager.newReference (m : ThreatManager) (victim : Guid) : ThreatManager :=
  { refs := Function.update m.refs m.nextRef (HostileReference.new victim 0),
    nextRef := m.nextRef + 1,
    iThreatContainer := m.iThreatContainer.addReference m.nextRef,
    iThreatOfflineContainer := m.iThreatOfflineContainer,
    iCurrentVictim := m.iCurrentVictim, iOwner := m.iOwner, iUpdateTimer := m.iUpdateTimer,
    inCombatWith := m.inCombatWith, sent := m.sent }

/-- `ThreatManager::_addThreat`. -/
def ThreatManager._addThreat (w : World) (m : ThreatManager) (victim : Option Guid)
    (threat : ℚ) : ThreatManager :=
  match victim with
  | none => m
  | some g =>
    let r1 := ThreatContainer.addThreat w m false victim threat
    let r2 :=
      match r1.1 with
      | some ref => (some ref, r1.2)
      | none => ThreatContainer.addThreat w r1.2 true victim threat
    match r2.1 with
    | some _ => r2.2
    | none =>
      let hostileRef := r2.2.nextRef
      let m5 := (ThreatContainer.addThreat w (r2.2.newReference g) false victim threat).2
      if w.isPlayer g = true ∧ w.isGameMaster g = true then
        HostileReference.setOnlineOfflineState w m5 hostileRef false
      else m5

/-- `ThreatManager::doAddThreat`; the victim is dereferenced, so it is not null. -/
def ThreatManager.doAddThreat (w : World) (m : ThreatManager) (victim : Guid) (threat : ℚ) :
    ThreatManager :=
  if threat > 0 ∧ w.GetRedirectThreatPercent victim ≠ 0 then
    match w.GetRedirectThreatTarget victim with
    | some redirectTarget =>
      let m1 :=
        if redirectTarget ∉ m.inCombatWith then
          { m with inCombatWith := redirectTarget :: m.inCombatWith }
        else m
      let redirectThreat := CalculatePct threat (w.GetRedirectThreatPercent victim)
      (m1._addThreat w (some redirectTarget) redirectThreat)._addThreat w (some victim)
        (threat - redirectThreat)
    | none => m._addThreat w (some victim) threat
  else m._addThreat w (some victim) threat

/-- `ThreatManager::addThreat`. -/
def ThreatManager.addThreat (w : World) (m : ThreatManager) (victim : Option Guid)
    (threat : ℚ) (schoolMask : Nat) (threatSpell : Option SpellInfo) : ThreatManager :=
  if ThreatCalcHelper.isValidProcess w victim m.getOwner threatSpell = false then m
  else
    match victim with
    | some v =>
      m.doAddThreat w v (ThreatCalcHelper.calcThreat w victim threat schoolMask threatSpell)
    | none => m

/-- `ThreatManager::modifyThreatPercent`. -/
def ThreatManager.modifyThreatPercent (w : World) (m : ThreatManager) (victim : Option Guid)
    (percent : ℤ) : ThreatManager :=
  ThreatContainer.modifyThreatPercent w m false victim percent

/-- `ThreatManager::getThreat`. -/
def ThreatManager.getThreat (m : ThreatManager) (victim : Option Guid)
    (alsoSearchOfflineList : Bool) : ℚ :=
  match victim with
  | none => 0
  | some _ =>
    match m.iThreatContainer.getReferenceByTarget m.refs victim with
    | some ref => (m.refs ref).getThreat
    | none =>
      if alsoSearchOfflineList = true then
        match m.iThreatOfflineContainer.getReferenceByTarget m.refs victim with
        | some ref => (m.refs ref).getThreat
        | none => 0
      else 0

/-- Modelled from the spec: `HostileReference::setTempThreat` (header) writes
`tempThreatModifier`. -/
def HostileReference.setTempThreat (r : HostileReference) (threat : ℚ) : HostileReference :=
  { r with iTempThreatModifier := threat }

/-- Modelled from the spec: `HostileReference::resetTempThreat` (header) clears
`tempThreatModifier`. -/
def HostileReference.resetTempThreat (r : HostileReference) : HostileReference :=
  { r with iTempThreatModifier := 0 }

/-- Modelled from the spec: `HostileReference::setThreat` (header) writes the
threat attribute. -/
def HostileReference.setThreat (r : HostileReference) (threat : ℚ) : HostileReference :=
  { r with iThreat := threat }

/-- `ThreatManager::tauntApply`. -/
def ThreatManager.tauntApply (m : ThreatManager) (taunter : Option Guid) : ThreatManager :=
  match m.iThreatContainer.getReferenceByTarget m.refs taunter with
  | some ref =>
    match m.getCurrentVictim with
    | some v =>
      if (m.refs ref).getThreat < (m.refs v).getThreat then
        if (m.refs ref).getTempThreatModifier = 0 then
          m.setRef ref ((m.refs ref).setTempThreat (m.refs v).getThreat)
        else m
      else m
    | none => m
  | none => m

/-- `ThreatManager::tauntFadeOut`. -/
def ThreatManager.tauntFadeOut (m : ThreatManager) (taunter : Option Guid) : ThreatManager :=
  match m.iThreatContainer.getReferenceByTarget m.refs taunter with
  | some ref => m.setRef ref (m.refs ref).resetTempThreat
  | none => m

/-- `ThreatManager::resetAllAggro`. -/
def ThreatManager.resetAllAggro (m : ThreatManager) : ThreatManager :=
  if m.iThreatContainer.iThreatList = [] then m
  else
    (m.iThreatContainer.iThreatList.foldl
      (fun acc itr => acc.setRef itr ((acc.refs itr).setThreat 0)) m).setDirty true

/-- Modelled from the spec: `Reference::unlink` (header): both links are cut. -/
def HostileReference.unlink (r : HostileReference) : HostileReference :=
  { r with iRefTo := false, iRefFrom := false }

/-- `ThreatContainer::clearReferences` on the store: every reference of the list is
unlinked (and then deleted). -/
def ThreatContainer.clearReferences (refs : RefId → HostileReference) (c : ThreatContainer) :
    (RefId → HostileReference) × ThreatContainer :=
  (c.iThreatList.foldl (fun acc i => Function.update acc i (acc i).unlink) refs,
   { c with iThreatList := [] })

/-- `ThreatManager::clearReferences`. -/
def ThreatManager.clearReferences (w : World) (m : ThreatManager) : ThreatManager :=
  let c1 := m.iThreatContainer.clearReferences m.refs
  let c2 := m.iThreatOfflineContainer.clearReferences c1.1
  { m with
    refs := c2.1, iThreatContainer := c1.2, iThreatOfflineContainer := c2.2,
    iCurrentVictim := none, iUpdateTimer := w.THREAT_UPDATE_INTERVAL }

/-! ## Fixtures for concrete evaluation -/

/-- A world in which every unit is an attackable, reachable creature in melee range
of the owner, with no auras, no redirect and no spell modifiers. -/
def plainWorld : World :=
  { getUnit := fun _ => true, isPlayer := fun _ => false, isCreature := fun _ => true,
    isGameMaster := fun _ => false, isAlive := fun _ => true, inFlight := fun _ => false,
    IsInMap := fun _ _ => true, InSamePhase := fun _ _ => true,
    isInAccessiblePlaceFor := fun _ => true, IsWithinCombatRange := fun _ => true,
    IsImmunedToDamage := fun _ => false, HasNegativeAuraWithInterruptFlag := fun _ => false,
    canCreatureAttack := fun _ => true, IsWithinMeleeRange := fun _ => true,
    GetRedirectThreatPercent := fun _ => 0, GetRedirectThreatTarget := fun _ => none,
    GetSpellThreatEntry := fun _ => none, GetSpellModOwner := fun _ => none,
    ApplySpellMod := fun _ _ t => t, ApplyTotalThreatModifier := fun _ t _ => t,
    THREAT_UPDATE_INTERVAL := 1000 }

/-- A store in which the reference at address `r` has GUID `r + 10`; address 0
holds threat `t0`, every other address threat `t1`. All references are online,
accessible and linked. -/
def twoRefs (t0 t1 : ℚ) : RefId → HostileReference :=
  fun r => HostileReference.new (r + 10) (if r = 0 then t0 else t1)

/-- A manager of owner 1 over the store `twoRefs t0 t1` whose online container is
`online` (clean) and whose offline container is empty. -/
def managerOf (t0 t1 : ℚ) (online : List RefId) (victim : Option RefId) : ThreatManager :=
  { refs := twoRefs t0 t1, nextRef := 2,
    iThreatContainer := ⟨online, false⟩, iThreatOfflineContainer := ⟨[], false⟩,
    iCurrentVictim := victim, iOwner := some 1, iUpdateTimer := 1000,
    inCombatWith := [], sent := [] }

/-- The plain world, except that the unit with GUID 11 is immune to the owner's
melee damage school. -/
def immuneWorld : World :=
  { plainWorld with IsImmunedToDamage := fun g => decide (g = 11) }

/-- The plain world, except that the owner cannot attack anybody. -/
def pacifiedWorld : World :=
  { plainWorld with canCreatureAttack := fun _ => false }

/-! ## Invariants and reachable states -/

/-- The references held by the manager: the online list followed by the offline
list. -/
def ThreatManager.held (m : ThreatManager) : List RefId :=
  m.iThreatContainer.iThreatList ++ m.iThreatOfflineContainer.iThreatList

/-- Consistency of the two containers with respect to an online flag per reference.
`flag` is the flag the containers were last synchronised with; it is the `iOnline`
field except between a flag write and the delivery of its event. -/
structure ThreatManager.ConsistentWith (flag : RefId → Bool) (m : ThreatManager) : Prop where
  /-- Held references were allocated before `nextRef`. -/
  fresh : ∀ r, r ∈ m.held → r < m.nextRef
  nodupOnline : m.iThreatContainer.iThreatList.Nodup
  nodupOffline : m.iThreatOfflineContainer.iThreatList.Nodup
  /-- No target GUID belongs to two held references. -/
  guidInj : ∀ r1 r2, r1 ∈ m.held → r2 ∈ m.held →
    (m.refs r1).iUnitGuid = (m.refs r2).iUnitGuid → r1 = r2
  onlineFlag : ∀ r, r ∈ m.iThreatContainer.iThreatList → flag r = true
  offlineFlag : ∀ r, r ∈ m.iThreatOfflineContainer.iThreatList → flag r = false
  /-- Held references deliver their events to this manager. -/
  linked : ∀ r, r ∈ m.held → (m.refs r).iRefFrom = true
  /-- The current victim, if any, is in the online container. -/
  victim : ∀ v, m.iCurrentVictim = some v → v ∈ m.iThreatContainer.iThreatList

/-- The data-model invariant of a manager: containers, online flags, GUIDs and the
current victim agree. -/
def ThreatManager.Consistent (m : ThreatManager) : Prop :=
  m.ConsistentWith (fun r => (m.refs r).iOnline)

/-- The non-reference part of two managers agrees up to the order of the online
list. -/
structure Shuffle (m m' : ThreatManager) : Prop where
  refs : m'.refs = m.refs
  nextRef : m'.nextRef = m.nextRef
  owner : m'.iOwner = m.iOwner
  combat : m'.inCombatWith = m.inCombatWith
  online : m'.iThreatContainer.iThreatList.Perm m.iThreatContainer.iThreatList
  offline : m'.iThreatOfflineContainer.iThreatList = m.iThreatOfflineContainer.iThreatList
  victim : m'.iCurrentVictim = m.iCurrentVictim

/-- What an operation on held references leaves alone: allocation, owner, combat
set, the set of held references, and GUID, source link, threat and taunt modifier
of every reference. -/
structure Frame (m m' : ThreatManager) : Prop where
  nextRef : m'.nextRef = m.nextRef
  owner : m'.iOwner = m.iOwner
  combat : m'.inCombatWith = m.inCombatWith
  held : ∀ x, x ∈ m'.held ↔ x ∈ m.held
  guid : ∀ x, (m'.refs x).iUnitGuid = (m.refs x).iUnitGuid
  refFrom : ∀ x, (m'.refs x).iRefFrom = (m.refs x).iRefFrom
  threat : ∀ x, (m'.refs x).iThreat = (m.refs x).iThreat
  temp : ∀ x, (m'.refs x).iTempThreatModifier = (m.refs x).iTempThreatModifier

/-- An invocation of one of the operations of the manager or of a held
reference. -/
inductive Op where
  | addThreat (victim : Option Guid) (threat : ℚ) (schoolMask : Nat)
      (threatSpell : Option SpellInfo)
  | addThreatDirect (victim : Option Guid) (threat : ℚ)
  | modifyThreatPercent (victim : Option Guid) (percent : ℤ)
  | updateOnlineStatus (ref : RefId)
  | setOnlineOfflineState (ref : RefId) (isOnline : Bool)
  | tauntApply (taunter : Option Guid)
  | tauntFadeOut (taunter : Option Guid)
  | resetAllAggro
  | getHostilTarget
  | removeReference (ref : RefId)
  | clearReferences

/-- The operation destroys references. -/
def Op.removes : Op → Bool
  | .removeReference _ => true
  | .clearReferences => true
  | _ => false

/-- The operation can be invoked: operations of a reference need the reference to
be held by the manager. -/
def Op.enabled (m : ThreatManager) : Op → Bool
  | .updateOnlineStatus r => decide (r ∈ m.held)
  | .setOnlineOfflineState r _ => decide (r ∈ m.held)
  | .removeReference r => decide (r ∈ m.held)
  | _ => true

/-- The manager after an operation (`addThreatDirect` is `_addThreat`). -/
def ThreatManager.apply (w : World) (m : ThreatManager) : Op → ThreatManager
  | .addThreat victim threat schoolMask threatSpell =>
    m.addThreat w victim threat schoolMask threatSpell
  | .addThreatDirect victim threat => m._addThreat w victim threat
  | .modifyThreatPercent victim percent => m.modifyThreatPercent w victim percent
  | .updateOnlineStatus r => HostileReference.updateOnlineStatus w m r
  | .setOnlineOfflineState r isOnline => HostileReference.setOnlineOfflineState w m r isOnline
  | .tauntApply taunter => m.tauntApply taunter
  | .tauntFadeOut taunter => m.tauntFadeOut taunter
  | .resetAllAggro => m.resetAllAggro
  | .getHostilTarget => (m.getHostilTarget w).2
  | .removeReference r => HostileReference.removeReference w m r
  | .clearReferences => m.clearReferences w

/-- The states reachable from a freshly constructed manager through enabled
operations, the world changing freely between operations. With
`allowRemoval = false` no reference is ever destroyed. -/
inductive Reachable (allowRemoval : Bool) : ThreatManager → Prop where
  | new (w : World) (owner : Option Guid) : Reachable allowRemoval (ThreatManager.new w owner)
  | step (w : World) (op : Op) {m : ThreatManager} :
      Reachable allowRemoval m → op.enabled m = true →
      (op.removes = true → allowRemoval = true) → Reachable allowRemoval (m.apply w op)


/-- The reference `getThreat(victim, true)` reads: the first held reference with
the victim's GUID, online list first. -/
def ThreatManager.findRef (m : ThreatManager) (g : Guid) : Option RefId :=
  m.held.find? (fun i => decide ((m.refs i).iUnitGuid = g))

/-- What `_addThreat(victim, a)` does to a consistent manager `m`, giving `m'`. -/
structure AddOutcome (g : Guid) (a : ℚ) (m m' : ThreatManager) : Prop where
  consistent : m'.Consistent
  owner : m'.iOwner = m.iOwner
  combat : m'.inCombatWith = m.inCombatWith
  /-- No reference leaves the manager. -/
  heldMono : ∀ x, x ∈ m.held → x ∈ m'.held
  /-- References held before keep their GUID; the victim's gains `a`. -/
  old : ∀ x, x ∈ m.held →
    (m'.refs x).iUnitGuid = (m.refs x).iUnitGuid ∧
    (m'.refs x).iThreat = (m.refs x).iThreat + (if (m.refs x).iUnitGuid = g then a else 0)
  /-- A reference held only afterwards is the victim's new reference, at threat `a`. -/
  added : ∀ x, x ∈ m'.held → x ∉ m.held →
    (m'.refs x).iUnitGuid = g ∧ (m'.refs x).iThreat = a ∧
    ∀ y, y ∈ m.held → (m.refs y).iUnitGuid ≠ g
  found : ∃ x, x ∈ m'.held ∧ (m'.refs x).iUnitGuid = g
  alloc : m.nextRef ≤ m'.nextRef ∧ ∀ x, x < m'.nextRef → x < m.nextRef ∨ x ∈ m'.held

/-- No reference leaves the manager from `m` to `m'`, and every reference allocated
in between is held in `m'`. -/
structure Grows (m m' : ThreatManager) : Prop where
  heldMono : ∀ x, x ∈ m.held → x ∈ m'.held
  alloc : ∀ x, x < m'.nextRef → x < m.nextRef ∨ x ∈ m'.held

/-- Every reference allocated so far is held by the manager. -/
def ThreatManager.AllHeld (m : ThreatManager) : Prop := ∀ x, x < m.nextRef → x ∈ m.held

/-- A freshly constructed manager of owner 1 in the plain world. -/
def freshManager : ThreatManager := ThreatManager.new plainWorld (some 1)

/-- The fresh manager after `_addThreat(unit 10, 100)`. -/
def oneTargetManager : ThreatManager :=
  freshManager.apply plainWorld (.addThreatDirect (some 10) 100)

/-- Scenario 1 of the spec: on a fresh manager, `addThreat(A, 100)` then
`addThreat(B, 90)`, with A unit 10 and B unit 11. -/
def scenarioOne : ThreatManager :=
  (freshManager.addThreat plainWorld (some 10) 100 0 none).addThreat plainWorld (some 11) 90 0 none

/-- The plain world, except that unit 10 redirects 30 percent of its threat to
unit 11. -/
def redirectWorld : World :=
  { plainWorld with
    GetRedirectThreatPercent := fun g => if g = 10 then 30 else 0,
    GetRedirectThreatTarget := fun g => if g = 10 then some 11 else none }

/-! ## Client update pacing -/

/-- Modelled from the spec: `ThreatManager::isThreatListEmpty` (header): the online
list is empty. -/
def ThreatManager.isThreatListEmpty (m : ThreatManager) : Bool :=
  m.iThreatContainer.iThreatList.isEmpty

/-- Modelled from the spec: `ThreatContainer::isDirty` (header). -/
def ThreatContainer.isDirty (c : ThreatContainer) : Bool := c.iDirty

/-- `ThreatManager::isNeedUpdateToClient(time)`: the returned flag and the manager
afterwards. `time` and `iUpdateTimer` are `uint32`; the subtraction wraps modulo
`2 ^ 32`. -/
def ThreatManager.isNeedUpdateToClient (w : World) (m : ThreatManager) (time : Nat) :
    Bool × ThreatManager :=
  if m.isThreatListEmpty = true ∧ m.iThreatContainer.isDirty = false then (false, m)
  else if time ≥ m.iUpdateTimer then
    (true, { m with iUpdateTimer := w.THREAT_UPDATE_INTERVAL })
  else (false, { m with iUpdateTimer := (m.iUpdateTimer + 2 ^ 32 - time) % 2 ^ 32 })

/-! ## Further fixtures -/

/-- On a fresh manager: `addThreat(A, 100)`, `addThreat(B, 90)`, then
`addThreat(A, -50)`, with A unit 10 and B unit 11 and no current victim. -/
def threatDropScenario : ThreatManager :=
  scenarioOne.addThreat plainWorld (some 10) (-50) 0 none

/-- The invariant `accessible ⇒ online` of one reference. -/
def HostileReference.flagsOk (r : HostileReference) : Prop :=
  r.iAccessible = true → r.iOnline = true

/-- The state-machine table of the spec for `updateOnlineStatus`, as a function of
its six inputs: the `(online, accessible)` pair the reference must end with. -/
def statusTable (resolvable gameMasterPlayer inFlight sameMapAndPhase accessiblePlace
    inCombatRange : Bool) : Bool × Bool :=
  if resolvable = false ∨ gameMasterPlayer = true ∨ inFlight = true ∨ sameMapAndPhase = false then
    (false, false)
  else if accessiblePlace = true then (true, true)
  else if inCombatRange = true then (true, false)
  else (false, false)

/-- The plain world, except that every unit is immune to the owner's melee damage
school. -/
def allImmuneWorld : World :=
  { plainWorld with IsImmunedToDamage := fun _ => true }

/-- The one-target manager after its reference (address 0, unit 10) was set
offline: the reference is held by the offline container. -/
def offlineScenario : ThreatManager :=
  HostileReference.setOnlineOfflineState plainWorld oneTargetManager 0 false

/-- The plain world, except that unit 10 is in flight. -/
def flightWorld : World :=
  { plainWorld with inFlight := fun g => decide (g = 10) }

/-- Scenario 1 after the first `getHostilTarget`: the online list is `[A, B]` and A
is the current victim. -/
def victimScenario : ThreatManager := scenarioOne.apply plainWorld .getHostilTarget

/-- Scenario 1, then A (unit 10) enters flight and `updateOnlineStatus` runs on its
reference, then `_addThreat(C, 50)` for a third unit 12: A is held offline, B and C
are online. -/
def mixedScenario : ThreatManager :=
  (scenarioOne.apply flightWorld (.updateOnlineStatus 0)).apply plainWorld
    (.addThreatDirect (some 12) 50)

/-- The plain world, except that no unit is in a place accessible to the owner
(all stay within its combat range). -/
def walledWorld : World :=
  { plainWorld with isInAccessiblePlaceFor := fun _ => false }

/-- The plain world, except that no unit shares the owner's map. -/
def otherMapWorld : World :=
  { plainWorld with IsInMap := fun _ _ => false }

/-! ## The scan loop of `selectNextVictim`, step by step

`scanPriority` and `scanNoPriority` follow the two passes of the loop by recursion
on the list. The definitions below follow the `for` statement itself: one call of
`loopBody` per iteration, on the local variables of the function. Iterators are
positions in the list (`begin()` is 0, `end()` is the length, `lastRef` is the
length minus one). Two fields that the source does not have record the run:
`examined` lists the positions whose body ran, latest first, and `restarts` counts
the assignments `iter = iThreatList.begin()` of line 353. -/

/-- The local variables of `selectNextVictim` (lines 324-330), with the record of
the run. -/
structure ScanState where
  iter : Nat
  currentRef : Option RefId
  currentVictim : Option RefId
  found : Bool
  noPriorityTargetFound : Bool
  examined : List Nat
  restarts : Nat
deriving DecidableEq

/-- The variables at the first test of the loop condition (lines 324-330). -/
def ScanState.start (currentVictim : Option RefId) : ScanState :=
  { iter := 0, currentRef := none, currentVictim := currentVictim, found := false,
    noPriorityTargetFound := false, examined := [], restarts := 0 }

/-- The loop condition of line 330: `iter != iThreatList.end() && !found`. -/
def loopCondition (l : List RefId) (s : ScanState) : Bool :=
  decide (s.iter ≠ l.length) && !s.found

/-- One iteration of the loop (lines 332-388). Every `break` of the source follows
`found = true`, after which the loop condition fails: it is modelled by setting
`found` and leaving `iter`. Without an element at `iter` (excluded by the loop
condition) the state is returned as it is. -/
def loopBody (w : World) (refs : RefId → HostileReference) (l : List RefId) (s : ScanState) :
    ScanState :=
  match l[s.iter]? with
  | none => s
  | some r =>
    let s1 := { s with currentRef := some r, examined := s.iter :: s.examined }
    if s1.noPriorityTargetFound = false ∧ isSecondChoice w refs r = true then
      if s1.iter ≠ l.length - 1 then
        { s1 with
          currentVictim := if some r = s1.currentVictim then none else s1.currentVictim,
          iter := s1.iter + 1 }
      else
        { s1 with noPriorityTargetFound := true, iter := 0, restarts := s1.restarts + 1 }
    else if w.canCreatureAttack (refs r).iUnitGuid = true then
      match compareWithVictim w refs r s1.currentVictim with
      | some x => { s1 with currentRef := some x, found := true }
      | none => { s1 with iter := s1.iter + 1 }
    else { s1 with iter := s1.iter + 1 }

/-- The loop run for at most `fuel` iterations: the variables when the loop
condition fails, or `none` when the iterations are used up before that. -/
def runLoop (w : World) (refs : RefId → HostileReference) (l : List RefId) :
    Nat → ScanState → Option ScanState
  | 0, s => if loopCondition l s = true then none else some s
  | fuel + 1, s =>
    if loopCondition l s = true then runLoop w refs l fuel (loopBody w refs l s) else some s

/-- Lines 390-393: `if (!found) currentRef = NULL; return currentRef;`. -/
def ScanState.result (s : ScanState) : Option RefId :=
  if s.found = false then none else s.currentRef

/-! ## Selection: `getHostilTarget` and `selectNextVictim` -/

/-- C1 (evaluation at the failing input): after `addThreat(A, 100)` and
`addThreat(B, 90)` on a fresh manager there is no current victim and the online list
is `[A, B]`. The first `getHostilTarget` makes A the current victim, whose target is
unit 10, but returns null: the value returned is the target of the victim read
before the selection. -/
theorem getHostilTarget_returns_stale_victim :
    scenarioOne.getCurrentVictim = none ∧
    scenarioOne.iThreatContainer.iThreatList = [0, 1] ∧
    scenarioOne.getThreat (some 10) false = 100 ∧
    scenarioOne.getThreat (some 11) false = 90 ∧
    (scenarioOne.getHostilTarget plainWorld).1 = none ∧
    (scenarioOne.getHostilTarget plainWorld).2.getCurrentVictim = some 0 ∧
    ((scenarioOne.getHostilTarget plainWorld).2.refs 0).getTarget = some 10 := by
  norm_num [scenarioOne, freshManager, ThreatManager.new, ThreatManager.addThreat,
    ThreatCalcHelper.isValidProcess, ThreatManager.getOwner, plainWorld,
    ThreatCalcHelper.calcThreat, ThreatManager.doAddThreat, ThreatManager._addThreat,
    ThreatContainer.addThreat, ThreatManager.container, ThreatContainer.getReferenceByTarget,
    ThreatManager.newReference, ThreatContainer.addReference, HostileReference.addThreat,
    ThreatManager.setRef, HostileReference.new, HostileReference.fireStatusChanged,
    ThreatManager.processThreatEvent, ThreatManager.handleEvent, ThreatManager.afterEvent,
    ThreatManager.updateContainer, ThreatContainer.update, ThreatManager.getCurrentVictim,
    ThreatManager.setDirty, Function.update, List.insertionSort, List.orderedInsert,
    ThreatOrderPred, HostileReference.effectiveThreat, ThreatManager.getThreat,
    HostileReference.getThreat, ThreatManager.getHostilTarget, ThreatContainer.selectNextVictim,
    scanPriority, isSecondChoice, compareWithVictim, ThreatManager.setCurrentVictim,
    HostileReference.getTarget]
  simp [Function.update]

/-- C3 (evaluation at the failing input): the list is `[C, V]`, V is the current
victim at threat 100 and is immune to the owner's melee school, C is an attackable
first-choice reference. With C at threat 105 the comparison against V hands back V;
with C at threat 110.5 the scan restarts in no-priority mode although C is
first-choice, and again returns V. Both times `selectNextVictim` returns the
second-choice reference V. -/
theorem selectNextVictim_keeps_second_choice_victim :
    isSecondChoice immuneWorld (twoRefs 105 100) 1 = true ∧
    isSecondChoice immuneWorld (twoRefs 105 100) 0 = false ∧
    immuneWorld.canCreatureAttack (twoRefs 105 100 0).iUnitGuid = true ∧
    ThreatContainer.selectNextVictim immuneWorld (twoRefs 105 100) ⟨[0, 1], false⟩ (some 1)
      = some 1 ∧
    ThreatContainer.selectNextVictim immuneWorld (twoRefs 110.5 100) ⟨[0, 1], false⟩ (some 1)
      = some 1 := by
  refine ⟨by decide, by decide, by decide, ?_, ?_⟩ <;>
  norm_num [ThreatContainer.selectNextVictim, scanPriority, scanNoPriority, compareWithVictim,
    isSecondChoice, immuneWorld, plainWorld, twoRefs, HostileReference.new,
    HostileReference.getThreat]

/-- C4 (counterexample): the online list holds only the current victim, which the
owner cannot attack. `selectNextVictim` on the updated container returns none, yet
the current victim after `getHostilTarget` is still that reference. -/
theorem getHostilTarget_keeps_victim_on_none :
    (managerOf 100 90 [0] (some 0)).updateContainer.iThreatContainer.selectNextVictim pacifiedWorld
        (managerOf 100 90 [0] (some 0)).updateContainer.refs
        (managerOf 100 90 [0] (some 0)).iCurrentVictim = none ∧
    ((managerOf 100 90 [0] (some 0)).getHostilTarget pacifiedWorld).2.getCurrentVictim
      ≠ none := by
  decide

/-- C4 (amended): after `getHostilTarget` the current victim is the result of
`selectNextVictim(owner, previous victim)` on the updated online container when the
owner is a creature and that result is a reference; when the result is none, or the
owner is missing or not a creature, the current victim is unchanged. -/
theorem getHostilTarget_currentVictim (w : World) (m : ThreatManager) :
    (m.getHostilTarget w).2.getCurrentVictim =
      if (match m.getOwner with
          | some o => w.isCreature o
          | none => false) = true then
        match m.updateContainer.iThreatContainer.selectNextVictim w m.updateContainer.refs
            m.getCurrentVictim with
        | some nextVictim => some nextVictim
        | none => m.getCurrentVictim
      else m.getCurrentVictim := by
  unfold ThreatManager.getHostilTarget ThreatManager.getOwner
  cases ho : m.iOwner with
  | none => simp [ThreatManager.updateContainer, ThreatManager.getCurrentVictim, ho]
  | some o =>
    by_cases hc : w.isCreature o = true
    · simp only [ThreatManager.updateContainer, ThreatManager.getCurrentVictim, ho, hc, if_true]
      cases hs : ThreatContainer.selectNextVictim w m.refs (m.iThreatContainer.update m.refs)
          m.iCurrentVictim with
      | none => simp
      | some nv => simp [ThreatManager.setCurrentVictim]
    · simp [ThreatManager.updateContainer, ThreatManager.getCurrentVictim, ho, hc]

/-! ## `addThreat` validation -/

/-- C5: `isValidProcess` is false exactly in the listed cases (victim or owner
missing, victim is the owner, victim is a game-master player, either is dead,
different map or phase, spell flagged no-threat), and then `ThreatManager::addThreat`
returns the manager unchanged: containers, references, current victim, dirty flag,
timer and sent opcodes are all as before. -/
theorem addThreat_invalid_is_noop (w : World) (m : ThreatManager) (victim : Option Guid)
    (threat : ℚ) (schoolMask : Nat) (threatSpell : Option SpellInfo) :
    (ThreatCalcHelper.isValidProcess w victim m.getOwner threatSpell = false ↔
      (victim = none ∨ m.getOwner = none ∨ victim = m.getOwner ∨
        (∃ v o, victim = some v ∧ m.getOwner = some o ∧
          ((w.isPlayer v = true ∧ w.isGameMaster v = true) ∨
            w.isAlive v = false ∨ w.isAlive o = false ∨
            w.IsInMap v o = false ∨ w.InSamePhase v o = false)) ∨
        (∃ spell, threatSpell = some spell ∧ spell.attrNoThreat = true))) ∧
    (ThreatCalcHelper.isValidProcess w victim m.getOwner threatSpell = false →
      m.addThreat w victim threat schoolMask threatSpell = m) := by
  constructor
  · unfold ThreatCalcHelper.isValidProcess
    cases victim with
    | none => simp
    | some v =>
      cases ho : m.getOwner with
      | none => simp
      | some o =>
        cases threatSpell with
        | none =>
          by_cases h1 : v = o <;> by_cases h2 : w.isPlayer v = true ∧ w.isGameMaster v = true <;>
            by_cases h3 : w.isAlive v = false ∨ w.isAlive o = false <;>
            by_cases h4 : w.IsInMap v o = false ∨ w.InSamePhase v o = false <;>
            simp [h1, h2, h3, h4]
        | some spell =>
          by_cases h1 : v = o <;> by_cases h2 : w.isPlayer v = true ∧ w.isGameMaster v = true <;>
            by_cases h3 : w.isAlive v = false ∨ w.isAlive o = false <;>
            by_cases h4 : w.IsInMap v o = false ∨ w.InSamePhase v o = false <;>
            by_cases h5 : spell.attrNoThreat = true <;>
            simp [h1, h2, h3, h4, h5]
  · intro h
    simp [ThreatManager.addThreat, h]

/-! ## Basic facts about the containers -/

theorem Shuffle.shuffleRefl (m : ThreatManager) : Shuffle m m :=
  ⟨rfl, rfl, rfl, rfl, List.Perm.refl _, rfl, rfl⟩

theorem Shuffle.shuffleTrans {m1 m2 m3 : ThreatManager} (h1 : Shuffle m1 m2) (h2 : Shuffle m2 m3) :
    Shuffle m1 m3 :=
  ⟨h2.refs.trans h1.refs, h2.nextRef.trans h1.nextRef, h2.owner.trans h1.owner,
    h2.combat.trans h1.combat, h2.online.trans h1.online, h2.offline.trans h1.offline,
    h2.victim.trans h1.victim⟩

theorem Frame.frameRefl (m : ThreatManager) : Frame m m :=
  ⟨rfl, rfl, rfl, fun _ => Iff.rfl, fun _ => rfl, fun _ => rfl, fun _ => rfl, fun _ => rfl⟩

theorem Frame.frameTrans {m1 m2 m3 : ThreatManager} (h1 : Frame m1 m2) (h2 : Frame m2 m3) :
    Frame m1 m3 :=
  ⟨h2.nextRef.trans h1.nextRef, h2.owner.trans h1.owner, h2.combat.trans h1.combat,
    fun x => (h2.held x).trans (h1.held x), fun x => (h2.guid x).trans (h1.guid x),
    fun x => (h2.refFrom x).trans (h1.refFrom x), fun x => (h2.threat x).trans (h1.threat x),
    fun x => (h2.temp x).trans (h1.temp x)⟩

theorem mem_held {m : ThreatManager} {x : RefId} :
    x ∈ m.held ↔ x ∈ m.iThreatContainer.iThreatList ∨ x ∈ m.iThreatOfflineContainer.iThreatList := by
  simp [ThreatManager.held]

theorem Shuffle.heldIff {m m' : ThreatManager} (h : Shuffle m m') (x : RefId) :
    x ∈ m'.held ↔ x ∈ m.held := by
  simp only [Neltharion.mem_held, h.offline, h.online.mem_iff]

theorem Shuffle.toFrame {m m' : ThreatManager} (h : Shuffle m m') : Frame m m' :=
  ⟨h.nextRef, h.owner, h.combat, h.heldIff, fun x => by rw [h.refs], fun x => by rw [h.refs],
    fun x => by rw [h.refs], fun x => by rw [h.refs]⟩

/-- Consistency only reads the flag function pointwise. -/
theorem ThreatManager.ConsistentWith.congr {f g : RefId → Bool} {m : ThreatManager}
    (h : m.ConsistentWith f) (hfg : ∀ r, g r = f r) : m.ConsistentWith g :=
  ⟨h.fresh, h.nodupOnline, h.nodupOffline, h.guidInj,
    fun r hr => (hfg r).trans (h.onlineFlag r hr),
    fun r hr => (hfg r).trans (h.offlineFlag r hr), h.linked, h.victim⟩

/-- Consistency is carried along a shuffle that keeps GUIDs and source links. -/
theorem ThreatManager.ConsistentWith.shuffle {f : RefId → Bool} {m m' : ThreatManager}
    (h : m.ConsistentWith f) (hnext : m'.nextRef = m.nextRef)
    (hon : m'.iThreatContainer.iThreatList.Perm m.iThreatContainer.iThreatList)
    (hoff : m'.iThreatOfflineContainer.iThreatList = m.iThreatOfflineContainer.iThreatList)
    (hv : m'.iCurrentVictim = m.iCurrentVictim)
    (hguid : ∀ x, (m'.refs x).iUnitGuid = (m.refs x).iUnitGuid)
    (hfrom : ∀ x, (m'.refs x).iRefFrom = (m.refs x).iRefFrom) : m'.ConsistentWith f := by
  have hheld : ∀ x, x ∈ m'.held ↔ x ∈ m.held := by
    intro x; simp only [mem_held, hoff, hon.mem_iff]
  refine ⟨?_, ?_, ?_, ?_, ?_, ?_, ?_, ?_⟩
  · intro r hr; rw [hnext]; exact h.fresh r ((hheld r).1 hr)
  · exact hon.nodup_iff.2 h.nodupOnline
  · rw [hoff]; exact h.nodupOffline
  · intro r1 r2 h1 h2 hg
    rw [hguid, hguid] at hg
    exact h.guidInj r1 r2 ((hheld r1).1 h1) ((hheld r2).1 h2) hg
  · intro r hr; exact h.onlineFlag r (hon.mem_iff.1 hr)
  · intro r hr; rw [hoff] at hr; exact h.offlineFlag r hr
  · intro r hr; rw [hfrom]; exact h.linked r ((hheld r).1 hr)
  · intro v hv'; rw [hv] at hv'; exact hon.mem_iff.2 (h.victim v hv')

theorem ThreatManager.ConsistentWith.ofShuffle {f : RefId → Bool} {m m' : ThreatManager}
    (h : m.ConsistentWith f) (hs : Shuffle m m') : m'.ConsistentWith f :=
  h.shuffle hs.nextRef hs.online hs.offline hs.victim (fun x => by rw [hs.refs])
    (fun x => by rw [hs.refs])

theorem ThreatManager.Consistent.shuffled {m m' : ThreatManager}
    (h : m.Consistent) (hs : Shuffle m m') : m'.Consistent :=
  (ThreatManager.ConsistentWith.ofShuffle h hs).congr (fun r => by rw [hs.refs])

/-! ## The event handler -/

theorem shuffle_setDirty (m : ThreatManager) (b : Bool) : Shuffle m (m.setDirty b) :=
  ⟨rfl, rfl, rfl, rfl, List.Perm.refl _, rfl, rfl⟩

theorem update_perm (refs : RefId → HostileReference) (c : ThreatContainer) :
    (c.update refs).iThreatList.Perm c.iThreatList := by
  unfold ThreatContainer.update
  by_cases h : c.iDirty = true ∧ c.iThreatList.length > 1
  · simp only [h, and_self, if_true]
    exact List.perm_insertionSort _ _
  · simp only [h, if_false]
    exact List.Perm.refl _

theorem shuffle_updateContainer (m : ThreatManager) : Shuffle m m.updateContainer :=
  ⟨rfl, rfl, rfl, rfl, update_perm _ _, rfl, rfl⟩

/-- The end of `processThreatEvent` never reaches `getHostilTarget`: `old_v` is read
right before the victim it is compared with. -/
theorem afterEvent_eq (w : World) (m : ThreatManager) : m.afterEvent w = m.updateContainer := by
  unfold ThreatManager.afterEvent
  cases h : m.iCurrentVictim with
  | none => simp [ThreatManager.updateContainer, ThreatManager.getCurrentVictim, h]
  | some v => simp [ThreatManager.updateContainer, ThreatManager.getCurrentVictim, h]

theorem processThreatEvent_eq (w : World) (m : ThreatManager) (ev : ThreatRefStatusChangeEvent) :
    m.processThreatEvent w ev = (m.handleEvent ev).updateContainer := by
  unfold ThreatManager.processThreatEvent
  exact afterEvent_eq w _

theorem handleEvent_refs (m : ThreatManager) (ev : ThreatRefStatusChangeEvent) :
    (m.handleEvent ev).refs = m.refs := by
  unfold ThreatManager.handleEvent
  cases ev.reference with
  | none => rfl
  | some r =>
    cases ev.eventType <;> simp only <;>
      (try split) <;> (try split) <;> (try split) <;>
      simp [ThreatManager.setDirty, ThreatManager.setCurrentVictim,
        ThreatManager.SendRemoveFromThreatListOpcode]

theorem processThreatEvent_refs (w : World) (m : ThreatManager) (ev : ThreatRefStatusChangeEvent) :
    (m.processThreatEvent w ev).refs = m.refs := by
  rw [processThreatEvent_eq]
  exact handleEvent_refs m ev

theorem shuffle_processThreatEvent_threatChange (w : World) (m : ThreatManager)
    (r : Option RefId) (d : ℚ) :
    Shuffle m (m.processThreatEvent w ⟨.UEV_THREAT_REF_THREAT_CHANGE, r, d⟩) := by
  rw [processThreatEvent_eq]
  refine Shuffle.shuffleTrans ?_ (shuffle_updateContainer _)
  unfold ThreatManager.handleEvent
  cases r with
  | none => exact Shuffle.shuffleRefl m
  | some r =>
    simp only
    split
    · exact shuffle_setDirty m true
    · exact Shuffle.shuffleRefl m

theorem shuffle_processThreatEvent_accessible (w : World) (m : ThreatManager)
    (r : Option RefId) (d : ℚ) :
    Shuffle m (m.processThreatEvent w ⟨.UEV_THREAT_REF_ASSECCIBLE_STATUS, r, d⟩) := by
  rw [processThreatEvent_eq]
  refine Shuffle.shuffleTrans ?_ (shuffle_updateContainer _)
  unfold ThreatManager.handleEvent
  cases r with
  | none => exact Shuffle.shuffleRefl m
  | some r => exact Shuffle.shuffleRefl m

/-- The manager after the `switch` on an online-status event of a reference that is
now offline. -/
theorem handleEvent_offline (m : ThreatManager) (r : RefId) (d : ℚ)
    (hflag : (m.refs r).iOnline = false) :
    let m' := m.handleEvent ⟨.UEV_THREAT_REF_ONLINE_STATUS, some r, d⟩
    m'.refs = m.refs ∧ m'.nextRef = m.nextRef ∧ m'.iOwner = m.iOwner ∧
    m'.inCombatWith = m.inCombatWith ∧
    m'.iThreatContainer.iThreatList = m.iThreatContainer.iThreatList.filter (fun x => x ≠ r) ∧
    m'.iThreatOfflineContainer.iThreatList = m.iThreatOfflineContainer.iThreatList ++ [r] ∧
    m'.iCurrentVictim = (if m.iCurrentVictim = some r then none else m.iCurrentVictim) := by
  simp only [ThreatManager.handleEvent, hflag, if_true, ThreatManager.getCurrentVictim]
  by_cases hv : m.iCurrentVictim = some r
  · simp [hv, ThreatManager.setDirty, ThreatManager.setCurrentVictim,
      ThreatManager.SendRemoveFromThreatListOpcode, ThreatContainer.remove,
      ThreatContainer.addReference]
  · have hv' : ¬ (some r = m.iCurrentVictim) := fun h => hv h.symm
    simp [hv, hv', ThreatManager.SendRemoveFromThreatListOpcode, ThreatContainer.remove,
      ThreatContainer.addReference]

/-- The manager after the `switch` on an online-status event of a reference that is
now online. -/
theorem handleEvent_online (m : ThreatManager) (r : RefId) (d : ℚ)
    (hflag : (m.refs r).iOnline = true) :
    let m' := m.handleEvent ⟨.UEV_THREAT_REF_ONLINE_STATUS, some r, d⟩
    m'.refs = m.refs ∧ m'.nextRef = m.nextRef ∧ m'.iOwner = m.iOwner ∧
    m'.inCombatWith = m.inCombatWith ∧
    m'.iThreatContainer.iThreatList = m.iThreatContainer.iThreatList ++ [r] ∧
    m'.iThreatOfflineContainer.iThreatList =
      m.iThreatOfflineContainer.iThreatList.filter (fun x => x ≠ r) ∧
    m'.iCurrentVictim = m.iCurrentVictim := by
  simp only [ThreatManager.handleEvent, hflag, ThreatManager.getCurrentVictim,
    Bool.true_eq_false, if_false]
  split
  · split <;> simp [ThreatManager.setDirty, ThreatContainer.remove, ThreatContainer.addReference]
  · simp [ThreatContainer.remove, ThreatContainer.addReference]

/-- The manager after the `switch` on a remove-from-list event. -/
theorem handleEvent_remove (m : ThreatManager) (r : RefId) (d : ℚ) :
    let m' := m.handleEvent ⟨.UEV_THREAT_REF_REMOVE_FROM_LIST, some r, d⟩
    m'.refs = m.refs ∧ m'.nextRef = m.nextRef ∧ m'.iOwner = m.iOwner ∧
    m'.inCombatWith = m.inCombatWith ∧
    m'.iThreatContainer.iThreatList =
      (if (m.refs r).iOnline = true then m.iThreatContainer.iThreatList.filter (fun x => x ≠ r)
       else m.iThreatContainer.iThreatList) ∧
    m'.iThreatOfflineContainer.iThreatList =
      (if (m.refs r).iOnline = true then m.iThreatOfflineContainer.iThreatList
       else m.iThreatOfflineContainer.iThreatList.filter (fun x => x ≠ r)) ∧
    m'.iCurrentVictim = (if m.iCurrentVictim = some r then none else m.iCurrentVictim) := by
  simp only [ThreatManager.handleEvent, ThreatManager.getCurrentVictim]
  by_cases hv : m.iCurrentVictim = some r <;> by_cases hflag : (m.refs r).iOnline = true
  · simp [hv, hflag, ThreatManager.setDirty, ThreatManager.setCurrentVictim,
      ThreatManager.SendRemoveFromThreatListOpcode, ThreatContainer.remove]
  · simp [hv, hflag, ThreatManager.setDirty, ThreatManager.setCurrentVictim,
      ThreatManager.SendRemoveFromThreatListOpcode, ThreatContainer.remove]
  · have hv' : ¬ (some r = m.iCurrentVictim) := fun h => hv h.symm
    simp [hv, hv', hflag, ThreatManager.SendRemoveFromThreatListOpcode, ThreatContainer.remove]
  · have hv' : ¬ (some r = m.iCurrentVictim) := fun h => hv h.symm
    simp [hv, hv', hflag, ThreatManager.SendRemoveFromThreatListOpcode, ThreatContainer.remove]

theorem consistentWith_goOffline {f : RefId → Bool} {m : ThreatManager} (w : World) (r : RefId)
    (d : ℚ) (h : m.ConsistentWith f) (hr : r ∈ m.held) (hf : f r = true)
    (hflag : (m.refs r).iOnline = false) :
    (m.processThreatEvent w ⟨.UEV_THREAT_REF_ONLINE_STATUS, some r, d⟩).ConsistentWith
        (Function.update f r false) ∧
      Frame m (m.processThreatEvent w ⟨.UEV_THREAT_REF_ONLINE_STATUS, some r, d⟩) := by
  rw [processThreatEvent_eq]
  obtain ⟨hrefs, hnext, hown, hcom, hon, hoff, hv⟩ := handleEvent_offline m r d hflag
  generalize m.handleEvent ⟨.UEV_THREAT_REF_ONLINE_STATUS, some r, d⟩ = m1 at *
  have hron : r ∈ m.iThreatContainer.iThreatList := by
    rcases mem_held.1 hr with h1 | h1
    · exact h1
    · have := h.offlineFlag r h1; rw [hf] at this; cases this
  have hroff : r ∉ m.iThreatOfflineContainer.iThreatList := by
    intro h1; have := h.offlineFlag r h1; rw [hf] at this; cases this
  have hheld : ∀ x, x ∈ m1.held ↔ x ∈ m.held := by
    intro x
    simp only [mem_held, hon, hoff, List.mem_filter, List.mem_append, List.mem_singleton,
      decide_eq_true_eq, ne_eq]
    by_cases hx : x = r
    · subst hx; simp [hron]
    · simp [hx]
  have hc1 : m1.ConsistentWith (Function.update f r false) := by
    refine ⟨?_, ?_, ?_, ?_, ?_, ?_, ?_, ?_⟩
    · intro x hx; rw [hnext]; exact h.fresh x ((hheld x).1 hx)
    · rw [hon]; exact h.nodupOnline.filter _
    · rw [hoff]
      exact List.Nodup.append h.nodupOffline (List.nodup_singleton r)
        (by intro a ha hb; rw [List.mem_singleton] at hb; subst hb; exact hroff ha)
    · intro r1 r2 h1 h2 hg
      rw [hrefs] at hg
      exact h.guidInj r1 r2 ((hheld r1).1 h1) ((hheld r2).1 h2) hg
    · intro x hx
      rw [hon] at hx
      simp only [List.mem_filter, decide_eq_true_eq, ne_eq] at hx
      rw [Function.update_noteq hx.2]
      exact h.onlineFlag x hx.1
    · intro x hx
      rw [hoff] at hx
      simp only [List.mem_append, List.mem_singleton] at hx
      by_cases hxr : x = r
      · subst hxr; simp
      · rw [Function.update_noteq hxr]
        rcases hx with hx | hx
        · exact h.offlineFlag x hx
        · exact absurd hx hxr
    · intro x hx; rw [hrefs]; exact h.linked x ((hheld x).1 hx)
    · intro v hv1
      rw [hv] at hv1
      by_cases hcv : m.iCurrentVictim = some r
      · simp [hcv] at hv1
      · simp only [hcv, if_false] at hv1
        rw [hon]
        simp only [List.mem_filter, decide_eq_true_eq, ne_eq]
        refine ⟨h.victim v hv1, ?_⟩
        intro hvr; subst hvr; exact hcv hv1
  have hf1 : Frame m m1 :=
    ⟨hnext, hown, hcom, hheld, fun x => by rw [hrefs], fun x => by rw [hrefs],
      fun x => by rw [hrefs], fun x => by rw [hrefs]⟩
  exact ⟨hc1.ofShuffle (shuffle_updateContainer m1),
    hf1.frameTrans (shuffle_updateContainer m1).toFrame⟩

theorem consistentWith_goOnline {f : RefId → Bool} {m : ThreatManager} (w : World) (r : RefId)
    (d : ℚ) (h : m.ConsistentWith f) (hr : r ∈ m.held) (hf : f r = false)
    (hflag : (m.refs r).iOnline = true) :
    (m.processThreatEvent w ⟨.UEV_THREAT_REF_ONLINE_STATUS, some r, d⟩).ConsistentWith
        (Function.update f r true) ∧
      Frame m (m.processThreatEvent w ⟨.UEV_THREAT_REF_ONLINE_STATUS, some r, d⟩) := by
  rw [processThreatEvent_eq]
  obtain ⟨hrefs, hnext, hown, hcom, hon, hoff, hv⟩ := handleEvent_online m r d hflag
  generalize m.handleEvent ⟨.UEV_THREAT_REF_ONLINE_STATUS, some r, d⟩ = m1 at *
  have hroff : r ∈ m.iThreatOfflineContainer.iThreatList := by
    rcases mem_held.1 hr with h1 | h1
    · have := h.onlineFlag r h1; rw [hf] at this; cases this
    · exact h1
  have hron : r ∉ m.iThreatContainer.iThreatList := by
    intro h1; have := h.onlineFlag r h1; rw [hf] at this; cases this
  have hheld : ∀ x, x ∈ m1.held ↔ x ∈ m.held := by
    intro x
    simp only [mem_held, hon, hoff, List.mem_filter, List.mem_append, List.mem_singleton,
      decide_eq_true_eq, ne_eq]
    by_cases hx : x = r
    · subst hx; simp [hroff]
    · simp [hx]
  have hc1 : m1.ConsistentWith (Function.update f r true) := by
    refine ⟨?_, ?_, ?_, ?_, ?_, ?_, ?_, ?_⟩
    · intro x hx; rw [hnext]; exact h.fresh x ((hheld x).1 hx)
    · rw [hon]
      exact List.Nodup.append h.nodupOnline (List.nodup_singleton r)
        (by intro a ha hb; rw [List.mem_singleton] at hb; subst hb; exact hron ha)
    · rw [hoff]; exact h.nodupOffline.filter _
    · intro r1 r2 h1 h2 hg
      rw [hrefs] at hg
      exact h.guidInj r1 r2 ((hheld r1).1 h1) ((hheld r2).1 h2) hg
    · intro x hx
      rw [hon] at hx
      simp only [List.mem_append, List.mem_singleton] at hx
      by_cases hxr : x = r
      · subst hxr; simp
      · rw [Function.update_noteq hxr]
        rcases hx with hx | hx
        · exact h.onlineFlag x hx
        · exact absurd hx hxr
    · intro x hx
      rw [hoff] at hx
      simp only [List.mem_filter, decide_eq_true_eq, ne_eq] at hx
      rw [Function.update_noteq hx.2]
      exact h.offlineFlag x hx.1
    · intro x hx; rw [hrefs]; exact h.linked x ((hheld x).1 hx)
    · intro v hv1
      rw [hv] at hv1
      rw [hon]
      exact List.mem_append_left _ (h.victim v hv1)
  have hf1 : Frame m m1 :=
    ⟨hnext, hown, hcom, hheld, fun x => by rw [hrefs], fun x => by rw [hrefs],
      fun x => by rw [hrefs], fun x => by rw [hrefs]⟩
  exact ⟨hc1.ofShuffle (shuffle_updateContainer m1),
    hf1.frameTrans (shuffle_updateContainer m1).toFrame⟩

/-! ## Operations of a held reference -/

theorem ThreatManager.ConsistentWith.withRef {f : RefId → Bool} {m : ThreatManager}
    (h : m.ConsistentWith f) (r : RefId) (x : HostileReference)
    (hguid : x.iUnitGuid = (m.refs r).iUnitGuid) (hfrom : x.iRefFrom = (m.refs r).iRefFrom) :
    (m.setRef r x).ConsistentWith f := by
  refine h.shuffle rfl (List.Perm.refl _) rfl rfl ?_ ?_
  · intro y
    by_cases hy : y = r
    · subst hy; simp [ThreatManager.setRef, hguid]
    · simp [ThreatManager.setRef, Function.update_noteq hy]
  · intro y
    by_cases hy : y = r
    · subst hy; simp [ThreatManager.setRef, hfrom]
    · simp [ThreatManager.setRef, Function.update_noteq hy]

theorem ThreatManager.Consistent.writeRef {m : ThreatManager} (h : m.Consistent) (r : RefId)
    (x : HostileReference) (hguid : x.iUnitGuid = (m.refs r).iUnitGuid)
    (hfrom : x.iRefFrom = (m.refs r).iRefFrom) (hon : x.iOnline = (m.refs r).iOnline) :
    (m.setRef r x).Consistent := by
  refine (ThreatManager.ConsistentWith.withRef h r x hguid hfrom).congr ?_
  intro y
  by_cases hy : y = r
  · subst hy; simp [ThreatManager.setRef, hon]
  · simp [ThreatManager.setRef, Function.update_noteq hy]

theorem frame_setRef (m : ThreatManager) (r : RefId) (x : HostileReference)
    (hguid : x.iUnitGuid = (m.refs r).iUnitGuid) (hfrom : x.iRefFrom = (m.refs r).iRefFrom)
    (hthreat : x.iThreat = (m.refs r).iThreat)
    (htemp : x.iTempThreatModifier = (m.refs r).iTempThreatModifier) :
    Frame m (m.setRef r x) := by
  refine ⟨rfl, rfl, rfl, fun _ => Iff.rfl, ?_, ?_, ?_, ?_⟩ <;>
  · intro y
    by_cases hy : y = r
    · subst hy; simp [ThreatManager.setRef, *]
    · simp [ThreatManager.setRef, Function.update_noteq hy]

theorem setRef_self (m : ThreatManager) (r : RefId) : m.setRef r (m.refs r) = m := by
  simp [ThreatManager.setRef]

/-- `setAccessibleState` writes the flag and, through its event, at most reorders
the online list. -/
theorem setAccessibleState_shuffle (w : World) (m : ThreatManager) (r : RefId) (b : Bool) :
    Shuffle (m.setRef r { m.refs r with iAccessible := b })
      (HostileReference.setAccessibleState w m r b) := by
  unfold HostileReference.setAccessibleState
  by_cases hb : (m.refs r).iAccessible = b
  · have : ({ m.refs r with iAccessible := b } : HostileReference) = m.refs r := by
      rw [← hb]
    rw [this, setRef_self]
    simp only [ne_eq, hb, not_true_eq_false, if_false]
    exact Shuffle.shuffleRefl m
  · simp only [ne_eq, hb, not_false_eq_true, if_true, HostileReference.fireStatusChanged]
    split
    · exact shuffle_processThreatEvent_accessible w _ _ _
    · exact Shuffle.shuffleRefl _

theorem setAccessibleState_refs (w : World) (m : ThreatManager) (r : RefId) (b : Bool) :
    (HostileReference.setAccessibleState w m r b).refs =
      Function.update m.refs r { m.refs r with iAccessible := b } :=
  (setAccessibleState_shuffle w m r b).refs

theorem setAccessibleState_consistentWith {f : RefId → Bool} (w : World) {m : ThreatManager}
    (r : RefId) (b : Bool) (h : m.ConsistentWith f) :
    (HostileReference.setAccessibleState w m r b).ConsistentWith f :=
  (ThreatManager.ConsistentWith.withRef h r { m.refs r with iAccessible := b } rfl rfl).ofShuffle
    (setAccessibleState_shuffle w m r b)

theorem setAccessibleState_frame (w : World) (m : ThreatManager) (r : RefId) (b : Bool) :
    Frame m (HostileReference.setAccessibleState w m r b) :=
  (frame_setRef m r { m.refs r with iAccessible := b } rfl rfl rfl rfl).frameTrans
    (setAccessibleState_shuffle w m r b).toFrame

theorem setAccessibleState_consistent (w : World) {m : ThreatManager} (r : RefId) (b : Bool)
    (h : m.Consistent) : (HostileReference.setAccessibleState w m r b).Consistent := by
  refine (setAccessibleState_consistentWith w r b h).congr ?_
  intro y
  rw [setAccessibleState_refs]
  by_cases hy : y = r
  · subst hy; simp
  · simp [Function.update_noteq hy]

/-- `setOnlineOfflineState` on a held reference keeps the manager consistent: the
reference changes container together with its flag. -/
theorem setOnlineOfflineState_spec (w : World) {m : ThreatManager} (r : RefId) (b : Bool)
    (h : m.Consistent) (hr : r ∈ m.held) :
    (HostileReference.setOnlineOfflineState w m r b).Consistent ∧
      Frame m (HostileReference.setOnlineOfflineState w m r b) := by
  unfold HostileReference.setOnlineOfflineState
  by_cases hb : (m.refs r).iOnline = b
  · simp only [ne_eq, hb, not_true_eq_false, if_false]
    exact ⟨h, Frame.frameRefl m⟩
  · simp only [ne_eq, hb, not_false_eq_true, if_true]
    have hc1 : (m.setRef r { m.refs r with iOnline := b }).ConsistentWith
        (fun x => (m.refs x).iOnline) :=
      ThreatManager.ConsistentWith.withRef h r { m.refs r with iOnline := b } rfl rfl
    have hf1 : Frame m (m.setRef r { m.refs r with iOnline := b }) :=
      frame_setRef m r { m.refs r with iOnline := b } rfl rfl rfl rfl
    generalize hm1 : m.setRef r { m.refs r with iOnline := b } = m1 at *
    have hm1refs : m1.refs = Function.update m.refs r { m.refs r with iOnline := b } := by
      rw [← hm1]; rfl
    have hm1r : (m1.refs r).iOnline = b := by rw [hm1refs]; simp
    cases b with
    | false =>
      simp only [hm1r, if_true]
      have hc2 := setAccessibleState_consistentWith w r false hc1
      have hf2 := setAccessibleState_frame w m1 r false
      have hrefs2 := setAccessibleState_refs w m1 r false
      generalize HostileReference.setAccessibleState w m1 r false = m2 at *
      have hr2 : r ∈ m2.held := (hf2.held r).2 ((hf1.held r).2 hr)
      have hlinked : (m2.refs r).iRefFrom = true := hc2.linked r hr2
      have hflag2 : (m2.refs r).iOnline = false := by
        rw [hrefs2]; simp [hm1r]
      have hold : (m.refs r).iOnline = true := by
        cases hx : (m.refs r).iOnline with
        | true => rfl
        | false => exact absurd hx hb
      simp only [HostileReference.fireStatusChanged, hlinked, if_true]
      obtain ⟨hc3, hf3⟩ := consistentWith_goOffline w r 0 hc2 hr2 hold hflag2
      refine ⟨hc3.congr ?_, (hf1.frameTrans hf2).frameTrans hf3⟩
      intro y
      rw [processThreatEvent_refs, hrefs2, hm1refs]
      by_cases hy : y = r
      · subst hy; simp
      · simp [Function.update_noteq hy]
    | true =>
      simp only [hm1r, Bool.true_eq_false, if_false]
      have hr1 : r ∈ m1.held := (hf1.held r).2 hr
      have hlinked : (m1.refs r).iRefFrom = true := hc1.linked r hr1
      have hold : (m.refs r).iOnline = false := by
        cases hx : (m.refs r).iOnline with
        | false => rfl
        | true => exact absurd hx hb
      simp only [HostileReference.fireStatusChanged, hlinked, if_true]
      obtain ⟨hc3, hf3⟩ := consistentWith_goOnline w r 0 hc1 hr1 hold hm1r
      refine ⟨hc3.congr ?_, hf1.frameTrans hf3⟩
      intro y
      rw [processThreatEvent_refs, hm1refs]
      by_cases hy : y = r
      · subst hy; simp
      · simp [Function.update_noteq hy]

theorem updateOnlineStatus_spec (w : World) {m : ThreatManager} (r : RefId)
    (h : m.Consistent) (hr : r ∈ m.held) :
    (HostileReference.updateOnlineStatus w m r).Consistent ∧
      Frame m (HostileReference.updateOnlineStatus w m r) := by
  unfold HostileReference.updateOnlineStatus
  have h1 : (if (m.refs r).iRefTo = false ∧ w.getUnit (m.refs r).iUnitGuid = true then
        m.setRef r { m.refs r with iRefTo := true } else m).Consistent ∧
      Frame m (if (m.refs r).iRefTo = false ∧ w.getUnit (m.refs r).iUnitGuid = true then
        m.setRef r { m.refs r with iRefTo := true } else m) := by
    split
    · exact ⟨ThreatManager.Consistent.writeRef h r { m.refs r with iRefTo := true } rfl rfl rfl,
        frame_setRef m r { m.refs r with iRefTo := true } rfl rfl rfl rfl⟩
    · exact ⟨h, Frame.frameRefl m⟩
  generalize (if (m.refs r).iRefTo = false ∧ w.getUnit (m.refs r).iUnitGuid = true then
        m.setRef r { m.refs r with iRefTo := true } else m) = m1 at *
  obtain ⟨hc1, hf1⟩ := h1
  simp only
  generalize HostileReference.computeStatus w m1 r = st
  have hc2 := setAccessibleState_consistent w r st.2 hc1
  have hf2 := setAccessibleState_frame w m1 r st.2
  generalize HostileReference.setAccessibleState w m1 r st.2 = m2 at *
  have hr2 : r ∈ m2.held := (hf2.held r).2 ((hf1.held r).2 hr)
  obtain ⟨hc3, hf3⟩ := setOnlineOfflineState_spec w r st.1 hc2 hr2
  exact ⟨hc3, (hf1.frameTrans hf2).frameTrans hf3⟩

/-- `HostileReference::addThreat` on a held reference: after the threat write the
manager stays consistent and nothing else about the references changes. -/
theorem refAddThreat_spec (w : World) {m : ThreatManager} (r : RefId) (a : ℚ)
    (h : m.Consistent) (hr : r ∈ m.held) :
    (HostileReference.addThreat w m r a).Consistent ∧
      Frame (m.setRef r { m.refs r with iThreat := (m.refs r).iThreat + a })
        (HostileReference.addThreat w m r a) := by
  unfold HostileReference.addThreat
  have hc1 : (m.setRef r { m.refs r with iThreat := (m.refs r).iThreat + a }).Consistent :=
    ThreatManager.Consistent.writeRef h r { m.refs r with iThreat := (m.refs r).iThreat + a }
      rfl rfl rfl
  have hr1 : r ∈ (m.setRef r { m.refs r with iThreat := (m.refs r).iThreat + a }).held := hr
  generalize m.setRef r { m.refs r with iThreat := (m.refs r).iThreat + a } = m1 at *
  simp only
  have h2 : (if (m1.refs r).iOnline = false then HostileReference.updateOnlineStatus w m1 r
        else m1).Consistent ∧
      Frame m1 (if (m1.refs r).iOnline = false then HostileReference.updateOnlineStatus w m1 r
        else m1) := by
    split
    · exact updateOnlineStatus_spec w r hc1 hr1
    · exact ⟨hc1, Frame.frameRefl m1⟩
  generalize (if (m1.refs r).iOnline = false then HostileReference.updateOnlineStatus w m1 r
        else m1) = m2 at *
  obtain ⟨hc2, hf2⟩ := h2
  by_cases ha : a = 0
  · simp only [ne_eq, ha, not_true_eq_false, if_false]
    exact ⟨hc2, hf2⟩
  · simp only [ne_eq, ha, not_false_eq_true, if_true, HostileReference.fireStatusChanged]
    split
    · have hs := shuffle_processThreatEvent_threatChange w m2 (some r) a
      exact ⟨hc2.shuffled hs, hf2.frameTrans hs.toFrame⟩
    · exact ⟨hc2, hf2⟩

theorem refAddThreatPercent_spec (w : World) {m : ThreatManager} (r : RefId) (p : ℤ)
    (h : m.Consistent) (hr : r ∈ m.held) :
    (HostileReference.addThreatPercent w m r p).Consistent ∧
      (∀ x, x ∈ (HostileReference.addThreatPercent w m r p).held ↔ x ∈ m.held) ∧
      (HostileReference.addThreatPercent w m r p).nextRef = m.nextRef := by
  unfold HostileReference.addThreatPercent
  obtain ⟨hc, hf⟩ := refAddThreat_spec w r (AddPct (m.refs r).iThreat p - (m.refs r).iThreat) h hr
  exact ⟨hc, hf.held, hf.nextRef⟩

/-! ## Lookup by GUID -/

theorem getReferenceByTarget_some {refs : RefId → HostileReference} {c : ThreatContainer}
    {g : Guid} {r : RefId} (h : c.getReferenceByTarget refs (some g) = some r) :
    r ∈ c.iThreatList ∧ (refs r).iUnitGuid = g := by
  simp only [ThreatContainer.getReferenceByTarget] at h
  refine ⟨List.mem_of_find?_eq_some h, ?_⟩
  have := List.find?_some h
  simpa using this

theorem getReferenceByTarget_none {refs : RefId → HostileReference} {c : ThreatContainer}
    {g : Guid} (h : c.getReferenceByTarget refs (some g) = none) :
    ∀ r, r ∈ c.iThreatList → (refs r).iUnitGuid ≠ g := by
  simp only [ThreatContainer.getReferenceByTarget, List.find?_eq_none] at h
  intro r hr
  simpa using h r hr

/-- In a list whose members have pairwise different GUIDs the scan finds the member
with the GUID looked for. -/
theorem find_guid_eq_some {refs : RefId → HostileReference} {l : List RefId} {g : Guid}
    {r : RefId}
    (hinj : ∀ r1 r2, r1 ∈ l → r2 ∈ l → (refs r1).iUnitGuid = (refs r2).iUnitGuid → r1 = r2)
    (hr : r ∈ l) (hg : (refs r).iUnitGuid = g) :
    l.find? (fun i => decide ((refs i).iUnitGuid = g)) = some r := by
  cases hfind : l.find? (fun i => decide ((refs i).iUnitGuid = g)) with
  | none =>
    rw [List.find?_eq_none] at hfind
    have := hfind r hr
    simp [hg] at this
  | some x =>
    have hx : x ∈ l := List.mem_of_find?_eq_some hfind
    have hxg : (refs x).iUnitGuid = g := by simpa using List.find?_some hfind
    rw [hinj x r hx hr (hxg.trans hg.symm)]

theorem getThreat_eq_findRef (m : ThreatManager) (g : Guid) :
    m.getThreat (some g) true =
      match m.findRef g with
      | some r => (m.refs r).iThreat
      | none => 0 := by
  simp only [ThreatManager.getThreat, ThreatManager.findRef, ThreatManager.held,
    ThreatContainer.getReferenceByTarget, List.find?_append, HostileReference.getThreat, if_true]
  cases h1 : m.iThreatContainer.iThreatList.find? (fun i => decide ((m.refs i).iUnitGuid = g)) with
  | some r => simp
  | none =>
    cases h2 : m.iThreatOfflineContainer.iThreatList.find?
        (fun i => decide ((m.refs i).iUnitGuid = g)) with
    | some r => simp
    | none => simp

theorem findRef_eq_some {m : ThreatManager} (h : m.Consistent) {r : RefId} {g : Guid}
    (hr : r ∈ m.held) (hg : (m.refs r).iUnitGuid = g) : m.findRef g = some r :=
  find_guid_eq_some h.guidInj hr hg

theorem findRef_eq_none {m : ThreatManager} {g : Guid}
    (h : ∀ r, r ∈ m.held → (m.refs r).iUnitGuid ≠ g) : m.findRef g = none := by
  simp only [ThreatManager.findRef, List.find?_eq_none]
  intro r hr
  simpa using h r hr

theorem findRef_some {m : ThreatManager} {r : RefId} {g : Guid} (h : m.findRef g = some r) :
    r ∈ m.held ∧ (m.refs r).iUnitGuid = g := by
  refine ⟨List.mem_of_find?_eq_some h, ?_⟩
  simpa using List.find?_some h

theorem findRef_none {m : ThreatManager} {g : Guid} (h : m.findRef g = none) :
    ∀ r, r ∈ m.held → (m.refs r).iUnitGuid ≠ g := by
  simp only [ThreatManager.findRef, List.find?_eq_none] at h
  intro r hr
  simpa using h r hr

/-! ## `_addThreat` -/

theorem addOutcome_existing (w : World) {m : ThreatManager} (r : RefId) (g : Guid) (a : ℚ)
    (h : m.Consistent) (hr : r ∈ m.held) (hg : (m.refs r).iUnitGuid = g) :
    AddOutcome g a m (HostileReference.addThreat w m r a) := by
  obtain ⟨hc, hf⟩ := refAddThreat_spec w r a h hr
  have href : ∀ x, ((m.setRef r { m.refs r with iThreat := (m.refs r).iThreat + a }).refs x)
      = if x = r then { m.refs r with iThreat := (m.refs r).iThreat + a } else m.refs x := by
    intro x
    by_cases hx : x = r
    · subst hx; simp [ThreatManager.setRef]
    · simp [ThreatManager.setRef, Function.update_noteq hx, hx]
  refine ⟨hc, hf.owner, hf.combat, fun x hx => (hf.held x).2 hx, ?_, ?_, ?_, ?_⟩
  · intro x hx
    rw [hf.guid, hf.threat, href]
    by_cases hxr : x = r
    · subst hxr; simp [hg]
    · have : (m.refs x).iUnitGuid ≠ g := by
        intro hxg
        exact hxr (h.guidInj x r hx hr (hxg.trans hg.symm))
      simp [hxr, this]
  · intro x hx hnx
    exact absurd ((hf.held x).1 hx) hnx
  · refine ⟨r, (hf.held r).2 hr, ?_⟩
    rw [hf.guid, href]; simp [hg]
  · refine ⟨le_of_eq hf.nextRef.symm, ?_⟩
    intro x hx
    left
    rw [hf.nextRef] at hx
    exact hx

theorem containerAddThreat_hit (w : World) {m : ThreatManager} (offline : Bool) (g : Guid)
    (a : ℚ) (r : RefId)
    (h : (m.container offline).getReferenceByTarget m.refs (some g) = some r) :
    ThreatContainer.addThreat w m offline (some g) a =
      (some r, HostileReference.addThreat w m r a) := by
  simp [ThreatContainer.addThreat, h]

theorem containerAddThreat_miss (w : World) {m : ThreatManager} (offline : Bool) (g : Guid)
    (a : ℚ) (h : (m.container offline).getReferenceByTarget m.refs (some g) = none) :
    ThreatContainer.addThreat w m offline (some g) a = (none, m) := by
  simp [ThreatContainer.addThreat, h]

/-- The manager right after `new HostileReference(victim, this, 0)` and
`addReference`, when neither container holds the victim. -/
theorem consistent_newReference {m : ThreatManager} (g : Guid) (h : m.Consistent)
    (hmiss : ∀ r, r ∈ m.held → (m.refs r).iUnitGuid ≠ g) : (m.newReference g).Consistent := by
  have hn : m.nextRef ∉ m.held := fun hx => Nat.lt_irrefl _ (h.fresh _ hx)
  have hnon : m.nextRef ∉ m.iThreatContainer.iThreatList :=
    fun hx => hn (mem_held.2 (Or.inl hx))
  have hrefs : ∀ x, x ∈ m.held →
      Function.update m.refs m.nextRef (HostileReference.new g 0) x = m.refs x := by
    intro x hx
    have : x ≠ m.nextRef := fun hxn => hn (hxn ▸ hx)
    exact Function.update_noteq this _ _
  have hmem : ∀ x, x ∈ m.iThreatContainer.iThreatList ++ [m.nextRef] ++
      m.iThreatOfflineContainer.iThreatList ↔ x ∈ m.held ∨ x = m.nextRef := by
    intro x
    simp only [List.mem_append, List.mem_singleton, mem_held]
    tauto
  refine ⟨?_, ?_, ?_, ?_, ?_, ?_, ?_, ?_⟩
  · intro x hx
    simp only [ThreatManager.held, ThreatManager.newReference, ThreatContainer.addReference] at hx ⊢
    rcases (hmem x).1 hx with hx | hx
    · exact Nat.lt_succ_of_lt (h.fresh x hx)
    · subst hx; exact Nat.lt_succ_self _
  · show (m.iThreatContainer.iThreatList ++ [m.nextRef]).Nodup
    exact List.Nodup.append h.nodupOnline (List.nodup_singleton _)
      (by intro a ha hb; rw [List.mem_singleton] at hb; subst hb; exact hnon ha)
  · exact h.nodupOffline
  · intro r1 r2 h1 h2 hg
    simp only [ThreatManager.held, ThreatManager.newReference, ThreatContainer.addReference] at h1 h2 hg
    rcases (hmem r1).1 h1 with h1 | h1 <;> rcases (hmem r2).1 h2 with h2 | h2
    · rw [hrefs r1 h1, hrefs r2 h2] at hg
      exact h.guidInj r1 r2 h1 h2 hg
    · subst h2
      rw [hrefs r1 h1] at hg
      simp [HostileReference.new] at hg
      exact absurd hg (hmiss r1 h1)
    · subst h1
      rw [hrefs r2 h2] at hg
      simp [HostileReference.new] at hg
      exact absurd hg.symm (hmiss r2 h2)
    · rw [h1, h2]
  · intro x hx
    simp only [ThreatManager.newReference, ThreatContainer.addReference, List.mem_append,
      List.mem_singleton] at hx ⊢
    rcases hx with hx | hx
    · rw [hrefs x (mem_held.2 (Or.inl hx))]; exact h.onlineFlag x hx
    · subst hx; simp [HostileReference.new]
  · intro x hx
    simp only [ThreatManager.newReference] at hx ⊢
    rw [hrefs x (mem_held.2 (Or.inr hx))]; exact h.offlineFlag x hx
  · intro x hx
    simp only [ThreatManager.held, ThreatManager.newReference, ThreatContainer.addReference] at hx ⊢
    rcases (hmem x).1 hx with hx | hx
    · rw [hrefs x hx]; exact h.linked x hx
    · subst hx; simp [HostileReference.new]
  · intro v hv
    simp only [ThreatManager.newReference, ThreatContainer.addReference] at hv ⊢
    exact List.mem_append_left _ (h.victim v hv)

theorem addOutcome_new {m : ThreatManager} (g : Guid) (a : ℚ) (h : m.Consistent)
    (hmiss : ∀ r, r ∈ m.held → (m.refs r).iUnitGuid ≠ g) (mF : ThreatManager)
    (hc : mF.Consistent)
    (hf : Frame ((m.newReference g).setRef m.nextRef { (m.newReference g).refs m.nextRef with
          iThreat := ((m.newReference g).refs m.nextRef).iThreat + a }) mF) :
    AddOutcome g a m mF := by
  have hn : m.nextRef ∉ m.held := fun hx => Nat.lt_irrefl _ (h.fresh _ hx)
  have hheld : ∀ x, x ∈ mF.held ↔ x ∈ m.held ∨ x = m.nextRef := by
    intro x
    rw [hf.held]
    simp only [ThreatManager.held, ThreatManager.setRef, ThreatManager.newReference,
      ThreatContainer.addReference, List.mem_append, List.mem_singleton]
    tauto
  have hne : ∀ x, x ∈ m.held → x ≠ m.nextRef := fun x hx hxn => hn (hxn ▸ hx)
  refine ⟨hc, hf.owner, hf.combat, fun x hx => (hheld x).2 (Or.inl hx), ?_, ?_, ?_, ?_⟩
  · intro x hx
    rw [hf.guid, hf.threat]
    simp [ThreatManager.setRef, ThreatManager.newReference, Function.update_noteq (hne x hx),
      hmiss x hx]
  · intro x hx hnx
    have hxn : x = m.nextRef := ((hheld x).1 hx).resolve_left hnx
    subst hxn
    rw [hf.guid, hf.threat]
    simp only [ThreatManager.setRef, ThreatManager.newReference, HostileReference.new,
      Function.update_same, zero_add, true_and]
    exact hmiss
  · refine ⟨m.nextRef, (hheld _).2 (Or.inr rfl), ?_⟩
    rw [hf.guid]
    simp [ThreatManager.setRef, ThreatManager.newReference, HostileReference.new]
  · have hnext : mF.nextRef = m.nextRef + 1 := by
      rw [hf.nextRef]; rfl
    refine ⟨hnext ▸ Nat.le_succ _, ?_⟩
    intro x hx
    rw [hnext] at hx
    by_cases hxn : x = m.nextRef
    · right; exact (hheld x).2 (Or.inr hxn)
    · left; exact lt_of_le_of_ne (Nat.lt_succ_iff.1 hx) hxn

/-- `_addThreat` keeps a consistent manager consistent and changes exactly the
victim's threat, creating the victim's reference if it has none. -/
theorem addThreatDirect_outcome (w : World) {m : ThreatManager} (g : Guid) (a : ℚ)
    (h : m.Consistent) : AddOutcome g a m (m._addThreat w (some g) a) := by
  unfold ThreatManager._addThreat
  simp only
  cases hon : (m.container false).getReferenceByTarget m.refs (some g) with
  | some r =>
    rw [containerAddThreat_hit w false g a r hon]
    simp only
    obtain ⟨hr, hg⟩ := getReferenceByTarget_some hon
    exact addOutcome_existing w r g a h (mem_held.2 (Or.inl hr)) hg
  | none =>
    rw [containerAddThreat_miss w false g a hon]
    simp only
    cases hoff : (m.container true).getReferenceByTarget m.refs (some g) with
    | some r =>
      rw [containerAddThreat_hit w true g a r hoff]
      simp only
      obtain ⟨hr, hg⟩ := getReferenceByTarget_some hoff
      exact addOutcome_existing w r g a h (mem_held.2 (Or.inr hr)) hg
    | none =>
      rw [containerAddThreat_miss w true g a hoff]
      simp only
      have hmiss : ∀ r, r ∈ m.held → (m.refs r).iUnitGuid ≠ g := by
        intro r hr
        rcases mem_held.1 hr with hr | hr
        · exact getReferenceByTarget_none hon r hr
        · exact getReferenceByTarget_none hoff r hr
      have hc4 : (m.newReference g).Consistent := consistent_newReference g h hmiss
      have hn4 : m.nextRef ∈ (m.newReference g).iThreatContainer.iThreatList := by
        simp [ThreatManager.newReference, ThreatContainer.addReference]
      have hg4 : ((m.newReference g).refs m.nextRef).iUnitGuid = g := by
        simp [ThreatManager.newReference, HostileReference.new]
      have hfind : ((m.newReference g).container false).getReferenceByTarget
          (m.newReference g).refs (some g) = some m.nextRef := by
        simp only [ThreatManager.container, ThreatContainer.getReferenceByTarget,
          Bool.false_eq_true, if_false]
        refine find_guid_eq_some ?_ hn4 hg4
        intro r1 r2 h1 h2
        exact hc4.guidInj r1 r2 (mem_held.2 (Or.inl h1)) (mem_held.2 (Or.inl h2))
      rw [containerAddThreat_hit w false g a _ hfind]
      simp only
      have hheld4 : m.nextRef ∈ (m.newReference g).held := mem_held.2 (Or.inl hn4)
      obtain ⟨hc5, hf5⟩ := refAddThreat_spec w m.nextRef a hc4 hheld4
      split
      · have hr5 : m.nextRef ∈ (HostileReference.addThreat w (m.newReference g) m.nextRef a).held :=
          (hf5.held _).2 hheld4
        obtain ⟨hc6, hf6⟩ := setOnlineOfflineState_spec w m.nextRef false hc5 hr5
        exact addOutcome_new g a h hmiss _ hc6 (hf5.frameTrans hf6)
      · exact addOutcome_new g a h hmiss _ hc5 hf5

theorem AddOutcome.getThreat_self {g : Guid} {a : ℚ} {m m' : ThreatManager}
    (ho : AddOutcome g a m m') (h : m.Consistent) :
    m'.getThreat (some g) true = m.getThreat (some g) true + a := by
  obtain ⟨x, hx, hxg⟩ := ho.found
  rw [getThreat_eq_findRef, getThreat_eq_findRef, findRef_eq_some ho.consistent hx hxg]
  simp only
  by_cases hxm : x ∈ m.held
  · obtain ⟨hguid, hthreat⟩ := ho.old x hxm
    rw [hguid] at hxg
    rw [findRef_eq_some h hxm hxg, hthreat]
    simp [hxg]
  · obtain ⟨_, hthreat, hmiss⟩ := ho.added x hx hxm
    rw [findRef_eq_none hmiss, hthreat]
    simp

theorem AddOutcome.getThreat_other {g : Guid} {a : ℚ} {m m' : ThreatManager}
    (ho : AddOutcome g a m m') (g' : Guid) (hne : g' ≠ g) :
    m'.getThreat (some g') true = m.getThreat (some g') true := by
  rw [getThreat_eq_findRef, getThreat_eq_findRef]
  cases hfind : m.findRef g' with
  | some x =>
    obtain ⟨hx, hxg⟩ := findRef_some hfind
    obtain ⟨hguid, hthreat⟩ := ho.old x hx
    rw [findRef_eq_some ho.consistent (ho.heldMono x hx) (hguid.trans hxg)]
    simp only
    rw [hthreat]
    have : (m.refs x).iUnitGuid ≠ g := fun hh => hne (hxg.symm.trans hh)
    simp [this]
  | none =>
    have hmiss := findRef_none hfind
    rw [findRef_eq_none]
    intro r hr
    by_cases hrm : r ∈ m.held
    · rw [(ho.old r hrm).1]; exact hmiss r hrm
    · rw [(ho.added r hr hrm).1]; exact fun hh => hne hh.symm

theorem consistent_setCombat {m : ThreatManager} (h : m.Consistent) (l : List Guid) :
    ({ m with inCombatWith := l } : ThreatManager).Consistent :=
  ⟨h.fresh, h.nodupOnline, h.nodupOffline, h.guidInj, h.onlineFlag, h.offlineFlag, h.linked,
    h.victim⟩

/-! ## Facts about the selection scan -/

theorem compareWithVictim_result {w : World} {refs : RefId → HostileReference} {r x : RefId}
    {cv : Option RefId} (h : compareWithVictim w refs r cv = some x) : x = r ∨ cv = some x := by
  unfold compareWithVictim at h
  cases cv with
  | none => simp at h; exact Or.inl h.symm
  | some v =>
    simp only at h
    split at h
    · split at h
      · simp at h; right; rw [h]
      · simp at h; exact Or.inl h.symm
    · split at h
      · simp at h; exact Or.inl h.symm
      · simp at h

theorem scanNoPriority_result {w : World} {refs : RefId → HostileReference} {cv : Option RefId}
    {x : RefId} (l : List RefId) (h : scanNoPriority w refs cv l = some x) :
    x ∈ l ∨ cv = some x := by
  induction l with
  | nil => simp [scanNoPriority] at h
  | cons r rest ih =>
    unfold scanNoPriority at h
    split at h
    · split at h
      · rename_i y hy
        simp at h; subst h
        rcases compareWithVictim_result hy with h1 | h1
        · left; rw [h1]; exact List.mem_cons_self _ _
        · right; exact h1
      · rcases ih h with h1 | h1
        · left; exact List.mem_cons_of_mem _ h1
        · right; exact h1
    · rcases ih h with h1 | h1
      · left; exact List.mem_cons_of_mem _ h1
      · right; exact h1

theorem scanPriority_result {w : World} {refs : RefId → HostileReference} {all : List RefId}
    {x : RefId} (l : List RefId) :
    ∀ cv : Option RefId, scanPriority w refs all cv l = some x →
      x ∈ l ∨ x ∈ all ∨ cv = some x := by
  induction l with
  | nil => intro cv h; simp [scanPriority] at h
  | cons r rest ih =>
    intro cv h
    unfold scanPriority at h
    split at h
    · split at h
      · rcases ih _ h with h1 | h1 | h1
        · left; exact List.mem_cons_of_mem _ h1
        · right; left; exact h1
        · right; right
          split at h1
          · cases h1
          · exact h1
      · rcases scanNoPriority_result all h with h1 | h1
        · right; left; exact h1
        · right; right; exact h1
    · split at h
      · split at h
        · rename_i y hy
          simp at h; subst h
          rcases compareWithVictim_result hy with h1 | h1
          · left; rw [h1]; exact List.mem_cons_self _ _
          · right; right; exact h1
        · rcases ih _ h with h1 | h1 | h1
          · left; exact List.mem_cons_of_mem _ h1
          · right; left; exact h1
          · right; right; exact h1
      · rcases ih _ h with h1 | h1 | h1
        · left; exact List.mem_cons_of_mem _ h1
        · right; left; exact h1
        · right; right; exact h1

/-- A reference returned by `selectNextVictim` is in the list or is the current
victim passed in. -/
theorem selectNextVictim_result {w : World} {refs : RefId → HostileReference}
    {c : ThreatContainer} {cv : Option RefId} {x : RefId}
    (h : c.selectNextVictim w refs cv = some x) : x ∈ c.iThreatList ∨ cv = some x := by
  rcases scanPriority_result c.iThreatList cv h with h1 | h1 | h1
  · exact Or.inl h1
  · exact Or.inl h1
  · exact Or.inr h1

/-! ### Hysteresis against an attackable first-choice victim -/

theorem compareWithVictim_anchor {w : World} {refs : RefId → HostileReference} {r x a : RefId}
    (hatt : w.canCreatureAttack (refs a).iUnitGuid = true)
    (h : compareWithVictim w refs r (some a) = some x) :
    x = a ∨ ¬ ((refs x).getThreat ≤ 1.1 * (refs a).getThreat) := by
  unfold compareWithVictim at h
  simp only at h
  split at h
  · split at h
    · simp at h; exact Or.inl h.symm
    · rename_i hc hn
      simp at h; subst h
      left
      by_contra hne
      exact hn ⟨fun hh => hne hh.symm, hatt⟩
  · rename_i hc
    split at h
    · simp at h; subst h
      right
      exact fun hle => hc (Or.inr hle)
    · simp at h

theorem scanNoPriority_anchor {w : World} {refs : RefId → HostileReference} {x a : RefId}
    (hatt : w.canCreatureAttack (refs a).iUnitGuid = true) (l : List RefId)
    (h : scanNoPriority w refs (some a) l = some x) :
    x = a ∨ ¬ ((refs x).getThreat ≤ 1.1 * (refs a).getThreat) := by
  induction l with
  | nil => simp [scanNoPriority] at h
  | cons r rest ih =>
    unfold scanNoPriority at h
    split at h
    · split at h
      · rename_i y hy
        simp at h; subst h
        exact compareWithVictim_anchor hatt hy
      · exact ih h
    · exact ih h

theorem scanPriority_anchor {w : World} {refs : RefId → HostileReference} {all : List RefId}
    {x a : RefId} (hatt : w.canCreatureAttack (refs a).iUnitGuid = true)
    (hlow : isSecondChoice w refs a = false) (l : List RefId)
    (h : scanPriority w refs all (some a) l = some x) :
    x = a ∨ ¬ ((refs x).getThreat ≤ 1.1 * (refs a).getThreat) := by
  induction l with
  | nil => simp [scanPriority] at h
  | cons r rest ih =>
    unfold scanPriority at h
    split at h
    · rename_i hr
      have hra : ¬ (some r = some a) := by
        intro hh
        simp at hh
        rw [hh, hlow] at hr
        cases hr
      split at h
      · exact ih h
      · exact scanNoPriority_anchor hatt all h
    · split at h
      · split at h
        · rename_i y hy
          simp at h; subst h
          exact compareWithVictim_anchor hatt hy
        · exact ih h
      · exact ih h

/-- With an attackable first-choice current victim `a`, `getHostilTarget` leaves as
current victim either `a` or a reference whose threat exceeds `1.1 * a.threat`. -/
theorem getHostilTarget_anchor (w : World) (m : ThreatManager) (a : RefId)
    (hcv : m.iCurrentVictim = some a)
    (hatt : w.canCreatureAttack (m.refs a).iUnitGuid = true)
    (hlow : isSecondChoice w m.refs a = false) (x : RefId)
    (hx : (m.getHostilTarget w).2.iCurrentVictim = some x) :
    x = a ∨ ¬ ((m.refs x).getThreat ≤ 1.1 * (m.refs a).getThreat) := by
  unfold ThreatManager.getHostilTarget at hx
  simp only [ThreatManager.getCurrentVictim, ThreatManager.updateContainer, hcv] at hx
  split at hx
  · split at hx
    · split at hx
      · rename_i nv hnv
        simp [ThreatManager.setCurrentVictim] at hx
        subst hx
        exact scanPriority_anchor hatt hlow _ hnv
      · simp [hcv] at hx; exact Or.inl hx.symm
    · simp [hcv] at hx; exact Or.inl hx.symm
  · simp [hcv] at hx; exact Or.inl hx.symm

/-! ## Taunt -/

/-- C10 (counterexample): A (threat 500) is the current victim, B (threat 100) is
online, attackable, first-choice and in melee range, with no taunt active. After
`tauntApply(B)` the effective threat of B is 500, yet the next `getHostilTarget`
leaves A as current victim: B is not selected. -/
theorem tauntApply_does_not_switch_victim :
    (managerOf 500 100 [0, 1] (some 0)).iThreatContainer.getReferenceByTarget
        (managerOf 500 100 [0, 1] (some 0)).refs (some 11) = some 1 ∧
    (((managerOf 500 100 [0, 1] (some 0)).tauntApply (some 11)).refs 1).effectiveThreat = 500 ∧
    (((managerOf 500 100 [0, 1] (some 0)).tauntApply (some 11)).getHostilTarget
        plainWorld).2.getCurrentVictim = some 0 ∧
    (((managerOf 500 100 [0, 1] (some 0)).tauntApply (some 11)).getHostilTarget
        plainWorld).2.getCurrentVictim ≠ some 1 := by
  have htaunt : (managerOf 500 100 [0, 1] (some 0)).tauntApply (some 11) =
      (managerOf 500 100 [0, 1] (some 0)).setRef 1
        ((twoRefs 500 100 1).setTempThreat 500) := by
    norm_num [ThreatManager.tauntApply, managerOf, ThreatContainer.getReferenceByTarget,
      twoRefs, HostileReference.new, ThreatManager.getCurrentVictim, HostileReference.getThreat,
      HostileReference.getTempThreatModifier, List.find?]
  have hsel : (((managerOf 500 100 [0, 1] (some 0)).tauntApply (some 11)).getHostilTarget
        plainWorld).2.getCurrentVictim = some 0 := by
    rw [htaunt]
    norm_num [ThreatManager.getHostilTarget, ThreatManager.updateContainer, ThreatContainer.update,
      managerOf, ThreatManager.setRef, ThreatManager.getCurrentVictim, plainWorld,
      ThreatContainer.selectNextVictim, scanPriority, isSecondChoice, compareWithVictim,
      ThreatManager.setCurrentVictim]
  refine ⟨by decide, ?_, hsel, ?_⟩
  · rw [htaunt]
    norm_num [ThreatManager.setRef, HostileReference.setTempThreat,
      HostileReference.effectiveThreat]
  · rw [hsel]; decide

/-- C10 (amended): let A be the current victim, attackable and first-choice, with
non-negative threat, and let B be the taunter's online reference, `B ≠ A`, with
`B.threat < A.threat` and no taunt active. After `tauntApply(B)` the taunt modifier
of B equals `A.threat` (so B's effective threat is `A.threat` when that is not 0),
and the next `getHostilTarget` does not make B the current victim: the victim
afterwards is A or a reference whose threat exceeds `1.1 * A.threat`. -/
theorem tauntApply_then_getHostilTarget (w : World) (m : ThreatManager) (taunter : Option Guid)
    (a b : RefId) (hcv : m.getCurrentVictim = some a)
    (hb : m.iThreatContainer.getReferenceByTarget m.refs taunter = some b) (hab : b ≠ a)
    (hatt : w.canCreatureAttack (m.refs a).iUnitGuid = true)
    (hlow : isSecondChoice w m.refs a = false)
    (hlt : (m.refs b).getThreat < (m.refs a).getThreat)
    (htemp : (m.refs b).getTempThreatModifier = 0)
    (hpos : 0 ≤ (m.refs a).getThreat) :
    ((m.tauntApply taunter).refs b).iTempThreatModifier = (m.refs a).getThreat ∧
    ((m.refs a).getThreat ≠ 0 →
      ((m.tauntApply taunter).refs b).effectiveThreat = (m.refs a).getThreat) ∧
    ((m.tauntApply taunter).getHostilTarget w).2.getCurrentVictim ≠ some b ∧
    (∀ x, ((m.tauntApply taunter).getHostilTarget w).2.getCurrentVictim = some x →
      x = a ∨ (m.refs x).getThreat > 1.1 * (m.refs a).getThreat) := by
  have htaunt : m.tauntApply taunter =
      m.setRef b ((m.refs b).setTempThreat (m.refs a).getThreat) := by
    simp only [ThreatManager.tauntApply, hb, hcv, hlt, htemp, if_true]
  have hrefa : (m.tauntApply taunter).refs a = m.refs a := by
    rw [htaunt]; simp [ThreatManager.setRef, Function.update_noteq (Ne.symm hab)]
  have hthreat : ∀ x, ((m.tauntApply taunter).refs x).getThreat = (m.refs x).getThreat := by
    intro x
    rw [htaunt]
    by_cases hx : x = b
    · subst hx
      simp [ThreatManager.setRef, HostileReference.setTempThreat, HostileReference.getThreat]
    · simp [ThreatManager.setRef, Function.update_noteq hx]
  have hcv' : (m.tauntApply taunter).iCurrentVictim = some a := by
    rw [htaunt]; exact hcv
  have hanchor : ∀ x, ((m.tauntApply taunter).getHostilTarget w).2.getCurrentVictim = some x →
      x = a ∨ ¬ ((m.refs x).getThreat ≤ 1.1 * (m.refs a).getThreat) := by
    intro x hx
    have := getHostilTarget_anchor w (m.tauntApply taunter) a hcv'
      (by rw [hrefa]; exact hatt)
      (by simpa [isSecondChoice, hrefa] using hlow) x hx
    rw [hthreat x, hthreat a] at this
    exact this
  refine ⟨?_, ?_, ?_, ?_⟩
  · rw [htaunt]; simp [ThreatManager.setRef, HostileReference.setTempThreat]
  · intro hne
    rw [htaunt]
    simp [ThreatManager.setRef, HostileReference.setTempThreat,
      HostileReference.effectiveThreat, hne]
  · intro hx
    rcases hanchor b hx with h1 | h1
    · exact hab h1
    · apply h1
      norm_num at hpos ⊢
      linarith
  · intro x hx
    rcases hanchor x hx with h1 | h1
    · exact Or.inl h1
    · exact Or.inr (not_le.1 h1)

/-! ## Every operation keeps the manager consistent -/

theorem Grows.growsRefl (m : ThreatManager) : Grows m m := ⟨fun _ h => h, fun _ h => Or.inl h⟩

theorem Grows.growsTrans {m1 m2 m3 : ThreatManager} (h1 : Grows m1 m2) (h2 : Grows m2 m3) :
    Grows m1 m3 := by
  refine ⟨fun x hx => h2.heldMono x (h1.heldMono x hx), ?_⟩
  intro x hx
  rcases h2.alloc x hx with h | h
  · rcases h1.alloc x h with h' | h'
    · exact Or.inl h'
    · exact Or.inr (h2.heldMono x h')
  · exact Or.inr h

theorem Frame.toGrows {m m' : ThreatManager} (h : Frame m m') : Grows m m' :=
  ⟨fun x hx => (h.held x).2 hx, fun _ hx => Or.inl (h.nextRef ▸ hx)⟩

theorem AddOutcome.outcomeGrows {g : Guid} {a : ℚ} {m m' : ThreatManager} (h : AddOutcome g a m m') :
    Grows m m' :=
  ⟨h.heldMono, h.alloc.2⟩

theorem ThreatManager.AllHeld.ofGrows {m m' : ThreatManager} (h : m.AllHeld) (hg : Grows m m') :
    m'.AllHeld := by
  intro x hx
  rcases hg.alloc x hx with h1 | h1
  · exact hg.heldMono x (h x h1)
  · exact h1

theorem addThreatDirect_step (w : World) {m : ThreatManager} (victim : Option Guid) (a : ℚ)
    (h : m.Consistent) :
    (m._addThreat w victim a).Consistent ∧ Grows m (m._addThreat w victim a) := by
  cases victim with
  | none => exact ⟨h, Grows.growsRefl m⟩
  | some g =>
    have ho := addThreatDirect_outcome w g a h
    exact ⟨ho.consistent, ho.outcomeGrows⟩

theorem doAddThreat_step (w : World) {m : ThreatManager} (victim : Guid) (t : ℚ)
    (h : m.Consistent) :
    (m.doAddThreat w victim t).Consistent ∧ Grows m (m.doAddThreat w victim t) := by
  unfold ThreatManager.doAddThreat
  split
  · split
    · rename_i R hR
      have h1 : (if R ∉ m.inCombatWith then
          ({ m with inCombatWith := R :: m.inCombatWith } : ThreatManager) else m).Consistent ∧
          Grows m (if R ∉ m.inCombatWith then
            ({ m with inCombatWith := R :: m.inCombatWith } : ThreatManager) else m) := by
        split
        · exact ⟨consistent_setCombat h _, ⟨fun _ hx => hx, fun _ hx => Or.inl hx⟩⟩
        · exact ⟨h, Grows.growsRefl m⟩
      simp only
      generalize (if R ∉ m.inCombatWith then
          ({ m with inCombatWith := R :: m.inCombatWith } : ThreatManager) else m) = m1 at *
      obtain ⟨hc1, hg1⟩ := h1
      obtain ⟨hc2, hg2⟩ := addThreatDirect_step w (some R)
        (CalculatePct t (w.GetRedirectThreatPercent victim)) hc1
      obtain ⟨hc3, hg3⟩ := addThreatDirect_step w (some victim)
        (t - CalculatePct t (w.GetRedirectThreatPercent victim)) hc2
      exact ⟨hc3, (hg1.growsTrans hg2).growsTrans hg3⟩
    · exact addThreatDirect_step w (some victim) t h
  · exact addThreatDirect_step w (some victim) t h

theorem addThreat_step (w : World) {m : ThreatManager} (victim : Option Guid) (t : ℚ)
    (schoolMask : Nat) (spell : Option SpellInfo) (h : m.Consistent) :
    (m.addThreat w victim t schoolMask spell).Consistent ∧
      Grows m (m.addThreat w victim t schoolMask spell) := by
  unfold ThreatManager.addThreat
  split
  · exact ⟨h, Grows.growsRefl m⟩
  · split
    · exact doAddThreat_step w _ _ h
    · exact ⟨h, Grows.growsRefl m⟩

theorem modifyThreatPercent_step (w : World) {m : ThreatManager} (victim : Option Guid)
    (p : ℤ) (h : m.Consistent) :
    (m.modifyThreatPercent w victim p).Consistent ∧ Grows m (m.modifyThreatPercent w victim p) := by
  unfold ThreatManager.modifyThreatPercent ThreatContainer.modifyThreatPercent
  split
  · rename_i r hr
    cases victim with
    | none => simp [ThreatContainer.getReferenceByTarget] at hr
    | some g =>
      obtain ⟨hmem, _⟩ := getReferenceByTarget_some hr
      have hheld : r ∈ m.held := mem_held.2 (Or.inl (by simpa [ThreatManager.container] using hmem))
      obtain ⟨hc, hh, hn⟩ := refAddThreatPercent_spec w r p h hheld
      exact ⟨hc, ⟨fun x hx => (hh x).2 hx, fun x hx => Or.inl (hn ▸ hx)⟩⟩
  · exact ⟨h, Grows.growsRefl m⟩

theorem tauntApply_step {m : ThreatManager} (taunter : Option Guid) (h : m.Consistent) :
    (m.tauntApply taunter).Consistent ∧ Grows m (m.tauntApply taunter) := by
  unfold ThreatManager.tauntApply
  split
  · split
    · split
      · split
        · exact ⟨ThreatManager.Consistent.writeRef h _ _ rfl rfl rfl,
            ⟨fun _ hx => hx, fun _ hx => Or.inl hx⟩⟩
        · exact ⟨h, Grows.growsRefl m⟩
      · exact ⟨h, Grows.growsRefl m⟩
    · exact ⟨h, Grows.growsRefl m⟩
  · exact ⟨h, Grows.growsRefl m⟩

theorem tauntFadeOut_step {m : ThreatManager} (taunter : Option Guid) (h : m.Consistent) :
    (m.tauntFadeOut taunter).Consistent ∧ Grows m (m.tauntFadeOut taunter) := by
  unfold ThreatManager.tauntFadeOut
  split
  · exact ⟨ThreatManager.Consistent.writeRef h _ _ rfl rfl rfl,
      ⟨fun _ hx => hx, fun _ hx => Or.inl hx⟩⟩
  · exact ⟨h, Grows.growsRefl m⟩

theorem resetLoop_step (l : List RefId) :
    ∀ m : ThreatManager, m.Consistent →
      (l.foldl (fun acc itr => acc.setRef itr ((acc.refs itr).setThreat 0)) m).Consistent ∧
      Grows m (l.foldl (fun acc itr => acc.setRef itr ((acc.refs itr).setThreat 0)) m) := by
  induction l with
  | nil => intro m h; exact ⟨h, Grows.growsRefl m⟩
  | cons r rest ih =>
    intro m h
    simp only [List.foldl_cons]
    have h1 : (m.setRef r ((m.refs r).setThreat 0)).Consistent :=
      ThreatManager.Consistent.writeRef h _ _ rfl rfl rfl
    obtain ⟨hc, hg⟩ := ih _ h1
    refine ⟨hc, Grows.growsTrans ?_ hg⟩
    exact ⟨fun _ hx => hx, fun _ hx => Or.inl hx⟩

theorem resetAllAggro_step {m : ThreatManager} (h : m.Consistent) :
    m.resetAllAggro.Consistent ∧ Grows m m.resetAllAggro := by
  unfold ThreatManager.resetAllAggro
  split
  · exact ⟨h, Grows.growsRefl m⟩
  · obtain ⟨hc, hg⟩ := resetLoop_step m.iThreatContainer.iThreatList m h
    exact ⟨hc.shuffled (shuffle_setDirty _ true),
      hg.growsTrans (shuffle_setDirty _ true).toFrame.toGrows⟩

theorem setCurrentVictim_fields (m : ThreatManager) (v : Option RefId) :
    (m.setCurrentVictim v).refs = m.refs ∧ (m.setCurrentVictim v).nextRef = m.nextRef ∧
    (m.setCurrentVictim v).iThreatContainer = m.iThreatContainer ∧
    (m.setCurrentVictim v).iThreatOfflineContainer = m.iThreatOfflineContainer ∧
    (m.setCurrentVictim v).iCurrentVictim = v ∧ (m.setCurrentVictim v).iOwner = m.iOwner ∧
    (m.setCurrentVictim v).inCombatWith = m.inCombatWith := by
  unfold ThreatManager.setCurrentVictim
  cases v with
  | none => simp
  | some r =>
    simp only
    split <;> simp

theorem consistent_setCurrentVictim {m : ThreatManager} (v : Option RefId) (h : m.Consistent)
    (hv : ∀ x, v = some x → x ∈ m.iThreatContainer.iThreatList) :
    (m.setCurrentVictim v).Consistent ∧ Grows m (m.setCurrentVictim v) := by
  obtain ⟨hrefs, hnext, hon, hoff, hcv, _, _⟩ := setCurrentVictim_fields m v
  have hheld : (m.setCurrentVictim v).held = m.held := by
    simp only [ThreatManager.held, hon, hoff]
  refine ⟨⟨?_, ?_, ?_, ?_, ?_, ?_, ?_, ?_⟩, ⟨?_, ?_⟩⟩
  · intro r hr; rw [hnext]; rw [hheld] at hr; exact h.fresh r hr
  · rw [hon]; exact h.nodupOnline
  · rw [hoff]; exact h.nodupOffline
  · intro r1 r2 h1 h2 hg
    rw [hheld] at h1 h2
    rw [hrefs] at hg
    exact h.guidInj r1 r2 h1 h2 hg
  · intro r hr; rw [hon] at hr; rw [hrefs]; exact h.onlineFlag r hr
  · intro r hr; rw [hoff] at hr; rw [hrefs]; exact h.offlineFlag r hr
  · intro r hr; rw [hheld] at hr; rw [hrefs]; exact h.linked r hr
  · intro x hx; rw [hcv] at hx; rw [hon]; exact hv x hx
  · intro x hx; rw [hheld]; exact hx
  · intro x hx; rw [hnext] at hx; exact Or.inl hx

theorem getHostilTarget_step (w : World) {m : ThreatManager} (h : m.Consistent) :
    (m.getHostilTarget w).2.Consistent ∧ Grows m (m.getHostilTarget w).2 := by
  have hs := shuffle_updateContainer m
  have hc1 : m.updateContainer.Consistent := h.shuffled hs
  have hg1 : Grows m m.updateContainer := hs.toFrame.toGrows
  unfold ThreatManager.getHostilTarget
  simp only
  generalize m.updateContainer = m1 at *
  split
  · split
    · split
      · rename_i nv hnv
        have hmem : nv ∈ m1.iThreatContainer.iThreatList := by
          rcases selectNextVictim_result hnv with h1 | h1
          · exact h1
          · exact hc1.victim nv h1
        obtain ⟨hc2, hg2⟩ := consistent_setCurrentVictim (some nv) hc1
          (fun x hx => by cases hx; exact hmem)
        exact ⟨hc2, hg1.growsTrans hg2⟩
      · exact ⟨hc1, hg1⟩
    · exact ⟨hc1, hg1⟩
  · exact ⟨hc1, hg1⟩

/-- Consistency survives dropping references from the containers. -/
theorem ThreatManager.ConsistentWith.shrink {f : RefId → Bool} {m m' : ThreatManager}
    (h : m.ConsistentWith f) (hrefs : m'.refs = m.refs) (hnext : m'.nextRef = m.nextRef)
    (hon : m'.iThreatContainer.iThreatList.Sublist m.iThreatContainer.iThreatList)
    (hoff : m'.iThreatOfflineContainer.iThreatList.Sublist m.iThreatOfflineContainer.iThreatList)
    (hv : ∀ v, m'.iCurrentVictim = some v → v ∈ m'.iThreatContainer.iThreatList) :
    m'.ConsistentWith f := by
  have hheld : ∀ x, x ∈ m'.held → x ∈ m.held := by
    intro x hx
    rcases mem_held.1 hx with h1 | h1
    · exact mem_held.2 (Or.inl (hon.subset h1))
    · exact mem_held.2 (Or.inr (hoff.subset h1))
  refine ⟨?_, hon.nodup h.nodupOnline, hoff.nodup h.nodupOffline, ?_, ?_, ?_, ?_, hv⟩
  · intro r hr; rw [hnext]; exact h.fresh r (hheld r hr)
  · intro r1 r2 h1 h2 hg
    rw [hrefs] at hg
    exact h.guidInj r1 r2 (hheld r1 h1) (hheld r2 h2) hg
  · intro r hr; exact h.onlineFlag r (hon.subset hr)
  · intro r hr; exact h.offlineFlag r (hoff.subset hr)
  · intro r hr; rw [hrefs]; exact h.linked r (hheld r hr)

theorem removeReference_step (w : World) {m : ThreatManager} (r : RefId) (h : m.Consistent)
    (hr : r ∈ m.held) : (HostileReference.removeReference w m r).Consistent := by
  unfold HostileReference.removeReference HostileReference.invalidate
  have hc1 : (m.setRef r { m.refs r with iRefTo := false }).Consistent :=
    ThreatManager.Consistent.writeRef h r { m.refs r with iRefTo := false } rfl rfl rfl
  have hr1 : r ∈ (m.setRef r { m.refs r with iRefTo := false }).held := hr
  generalize m.setRef r { m.refs r with iRefTo := false } = m1 at *
  simp only [HostileReference.fireStatusChanged, hc1.linked r hr1, if_true]
  rw [processThreatEvent_eq]
  refine ThreatManager.Consistent.shuffled ?_ (shuffle_updateContainer _)
  obtain ⟨hrefs, hnext, _, _, hon, hoff, hv⟩ := handleEvent_remove m1 r 0
  generalize m1.handleEvent ⟨.UEV_THREAT_REF_REMOVE_FROM_LIST, some r, 0⟩ = m2 at *
  have hc2 : m2.ConsistentWith (fun x => (m1.refs x).iOnline) := by
    refine ThreatManager.ConsistentWith.shrink hc1 hrefs hnext ?_ ?_ ?_
    · rw [hon]; split
      · exact List.filter_sublist _
      · exact List.Sublist.refl _
    · rw [hoff]; split
      · exact List.Sublist.refl _
      · exact List.filter_sublist _
    · intro v hv1
      rw [hv] at hv1
      by_cases hcv : m1.iCurrentVictim = some r
      · simp [hcv] at hv1
      · simp only [hcv, if_false] at hv1
        have hvon := hc1.victim v hv1
        have hvr : v ≠ r := by
          intro hvr; subst hvr; exact hcv hv1
        rw [hon]; split
        · simp only [List.mem_filter, decide_eq_true_eq, ne_eq]
          exact ⟨hvon, hvr⟩
        · exact hvon
  exact hc2.congr (fun x => by rw [hrefs])

theorem clearReferences_step (w : World) (m : ThreatManager) : (m.clearReferences w).Consistent := by
  refine ⟨?_, ?_, ?_, ?_, ?_, ?_, ?_, ?_⟩ <;>
    simp [ThreatManager.clearReferences, ThreatContainer.clearReferences, ThreatManager.held]

theorem consistent_new (w : World) (owner : Option Guid) : (ThreatManager.new w owner).Consistent := by
  refine ⟨?_, ?_, ?_, ?_, ?_, ?_, ?_, ?_⟩ <;> simp [ThreatManager.new, ThreatManager.held]

/-- Every enabled operation keeps the manager consistent. -/
theorem apply_consistent (w : World) {m : ThreatManager} (op : Op) (h : m.Consistent)
    (hen : op.enabled m = true) : (m.apply w op).Consistent := by
  cases op with
  | addThreat victim threat schoolMask threatSpell =>
    exact (addThreat_step w victim threat schoolMask threatSpell h).1
  | addThreatDirect victim threat => exact (addThreatDirect_step w victim threat h).1
  | modifyThreatPercent victim percent => exact (modifyThreatPercent_step w victim percent h).1
  | updateOnlineStatus r =>
    exact (updateOnlineStatus_spec w r h (by simpa [Op.enabled] using hen)).1
  | setOnlineOfflineState r b =>
    exact (setOnlineOfflineState_spec w r b h (by simpa [Op.enabled] using hen)).1
  | tauntApply taunter => exact (tauntApply_step taunter h).1
  | tauntFadeOut taunter => exact (tauntFadeOut_step taunter h).1
  | resetAllAggro => exact (resetAllAggro_step h).1
  | getHostilTarget => exact (getHostilTarget_step w h).1
  | removeReference r => exact removeReference_step w r h (by simpa [Op.enabled] using hen)
  | clearReferences => exact clearReferences_step w m

/-- An enabled operation that destroys no reference keeps every reference held. -/
theorem apply_grows (w : World) {m : ThreatManager} (op : Op) (h : m.Consistent)
    (hen : op.enabled m = true) (hrm : op.removes = false) : Grows m (m.apply w op) := by
  cases op with
  | addThreat victim threat schoolMask threatSpell =>
    exact (addThreat_step w victim threat schoolMask threatSpell h).2
  | addThreatDirect victim threat => exact (addThreatDirect_step w victim threat h).2
  | modifyThreatPercent victim percent => exact (modifyThreatPercent_step w victim percent h).2
  | updateOnlineStatus r =>
    exact (updateOnlineStatus_spec w r h (by simpa [Op.enabled] using hen)).2.toGrows
  | setOnlineOfflineState r b =>
    exact (setOnlineOfflineState_spec w r b h (by simpa [Op.enabled] using hen)).2.toGrows
  | tauntApply taunter => exact (tauntApply_step taunter h).2
  | tauntFadeOut taunter => exact (tauntFadeOut_step taunter h).2
  | resetAllAggro => exact (resetAllAggro_step h).2
  | getHostilTarget => exact (getHostilTarget_step w h).2
  | removeReference r => simp [Op.removes] at hrm
  | clearReferences => simp [Op.removes] at hrm

theorem reachable_consistent {b : Bool} {m : ThreatManager} (h : Reachable b m) :
    m.Consistent := by
  induction h with
  | new w owner => exact consistent_new w owner
  | step w op _ hen _ ih => exact apply_consistent w op ih hen

theorem reachable_allHeld {m : ThreatManager} (h : Reachable false m) : m.AllHeld := by
  induction h with
  | new w owner => intro x hx; simp [ThreatManager.new] at hx
  | step w op hreach hen hrm ih =>
    have hnr : op.removes = false := by
      cases hop : op.removes with
      | false => rfl
      | true => exact absurd (hrm hop) (by decide)
    exact ih.ofGrows (apply_grows w op (reachable_consistent hreach) hen hnr)

/-! ## Invariants of reachable states -/

theorem managerOf_consistent (t0 t1 : ℚ) (v : Option RefId) (hv : v = none ∨ v = some 0) :
    (managerOf t0 t1 [0, 1] v).Consistent := by
  refine ⟨?_, ?_, ?_, ?_, ?_, ?_, ?_, ?_⟩
  · intro r hr
    simp [ThreatManager.held, managerOf] at hr ⊢
    rcases hr with h | h <;> simp [h]
  · simp [managerOf]
  · simp [managerOf]
  · intro r1 r2 _ _ hg
    simpa [managerOf, twoRefs, HostileReference.new] using hg
  · intro r _; simp [managerOf, twoRefs, HostileReference.new]
  · intro r hr; simp [managerOf] at hr
  · intro r _; simp [managerOf, twoRefs, HostileReference.new]
  · intro x hx
    rcases hv with h | h
    · subst h; simp [managerOf] at hx
    · subst h; simp [managerOf] at hx ⊢; simp [← hx]

theorem reachable_oneTargetManager (b : Bool) : Reachable b oneTargetManager :=
  Reachable.step plainWorld (.addThreatDirect (some 10) 100)
    (Reachable.new plainWorld (some 1)) rfl (fun h => by simp [Op.removes] at h)

/-- C6: in every state reachable from an empty manager through `addThreat`,
`_addThreat`, `modifyThreatPercent`, `updateOnlineStatus` and `setOnlineOfflineState`
of held references, `tauntApply`, `tauntFadeOut`, `resetAllAggro` and
`getHostilTarget`, every reference created so far is in exactly one of the two
containers, it is in the online container exactly when its online flag is set,
neither container lists a reference twice, and no target GUID occurs twice across
the two containers. -/
theorem reachable_exactly_one_container (m : ThreatManager) (h : Reachable false m) :
    (∀ r, r < m.nextRef →
      ((r ∈ m.iThreatContainer.iThreatList ∧ r ∉ m.iThreatOfflineContainer.iThreatList) ∨
        (r ∉ m.iThreatContainer.iThreatList ∧ r ∈ m.iThreatOfflineContainer.iThreatList)) ∧
      (r ∈ m.iThreatContainer.iThreatList ↔ (m.refs r).iOnline = true)) ∧
    m.iThreatContainer.iThreatList.Nodup ∧
    m.iThreatOfflineContainer.iThreatList.Nodup ∧
    ((m.iThreatContainer.iThreatList ++ m.iThreatOfflineContainer.iThreatList).map
      (fun r => (m.refs r).iUnitGuid)).Nodup := by
  have hc := reachable_consistent h
  have ha := reachable_allHeld h
  have hdisj : ∀ r, r ∈ m.iThreatContainer.iThreatList →
      r ∉ m.iThreatOfflineContainer.iThreatList := by
    intro r h1 h2
    have := hc.onlineFlag r h1
    rw [hc.offlineFlag r h2] at this
    cases this
  refine ⟨?_, hc.nodupOnline, hc.nodupOffline, ?_⟩
  · intro r hr
    rcases mem_held.1 (ha r hr) with h1 | h1
    · exact ⟨Or.inl ⟨h1, hdisj r h1⟩, fun _ => hc.onlineFlag r h1, fun _ => h1⟩
    · have hoff := hc.offlineFlag r h1
      simp only at hoff
      refine ⟨Or.inr ⟨fun h2 => hdisj r h2 h1, h1⟩, fun h2 => absurd h1 (hdisj r h2), ?_⟩
      intro h2; rw [hoff] at h2; cases h2
  · refine List.Nodup.map_on ?_ ?_
    · intro x hx y hy hg
      exact hc.guidInj x y hx hy hg
    · exact List.nodup_append.2 ⟨hc.nodupOnline, hc.nodupOffline, fun x hx hy => hdisj x hx hy⟩

/-- C7: in every reachable state (removal of references and `clearReferences`
included) the current victim is none or a reference of the online container whose
online flag is set; and in any state, when the event handler processes the
online-status event of a current victim that went offline, or the remove-from-list
event of the current victim, the current victim is none when it returns. -/
theorem reachable_currentVictim (m : ThreatManager) (h : Reachable true m) :
    (∀ v, m.getCurrentVictim = some v →
      v ∈ m.iThreatContainer.iThreatList ∧ (m.refs v).iOnline = true) ∧
    (∀ (w : World) (m0 : ThreatManager) (r : RefId) (d : ℚ), m0.getCurrentVictim = some r →
      ((m0.refs r).iOnline = false →
        (m0.processThreatEvent w ⟨.UEV_THREAT_REF_ONLINE_STATUS, some r, d⟩).getCurrentVictim
          = none) ∧
      (m0.processThreatEvent w ⟨.UEV_THREAT_REF_REMOVE_FROM_LIST, some r, d⟩).getCurrentVictim
        = none) := by
  have hc := reachable_consistent h
  refine ⟨fun v hv => ⟨hc.victim v hv, hc.onlineFlag v (hc.victim v hv)⟩, ?_⟩
  intro w m0 r d hcv
  have hcv' : m0.iCurrentVictim = some r := hcv
  refine ⟨?_, ?_⟩
  · intro hoff
    rw [processThreatEvent_eq]
    have := (handleEvent_offline m0 r d hoff).2.2.2.2.2.2
    simp only [ThreatManager.getCurrentVictim, ThreatManager.updateContainer]
    rw [this, if_pos hcv']
  · rw [processThreatEvent_eq]
    have := (handleEvent_remove m0 r d).2.2.2.2.2.2
    simp only [ThreatManager.getCurrentVictim, ThreatManager.updateContainer]
    rw [this, if_pos hcv']

/-- C10 witness: the scenario of the counterexample (A at 500, B at 100). -/
theorem tauntApply_then_getHostilTarget_witness :
    (((managerOf 500 100 [0, 1] (some 0)).tauntApply (some 11)).refs 1).iTempThreatModifier
      = ((managerOf 500 100 [0, 1] (some 0)).refs 0).getThreat ∧
    (((managerOf 500 100 [0, 1] (some 0)).refs 0).getThreat ≠ 0 →
      (((managerOf 500 100 [0, 1] (some 0)).tauntApply (some 11)).refs 1).effectiveThreat
        = ((managerOf 500 100 [0, 1] (some 0)).refs 0).getThreat) ∧
    (((managerOf 500 100 [0, 1] (some 0)).tauntApply (some 11)).getHostilTarget
        plainWorld).2.getCurrentVictim ≠ some 1 ∧
    (∀ x, (((managerOf 500 100 [0, 1] (some 0)).tauntApply (some 11)).getHostilTarget
        plainWorld).2.getCurrentVictim = some x →
      x = 0 ∨ ((managerOf 500 100 [0, 1] (some 0)).refs x).getThreat
        > 1.1 * ((managerOf 500 100 [0, 1] (some 0)).refs 0).getThreat) :=
  tauntApply_then_getHostilTarget plainWorld (managerOf 500 100 [0, 1] (some 0)) (some 11) 0 1
    rfl (by decide) (by decide) (by decide) (by decide)
    (by norm_num [managerOf, twoRefs, HostileReference.new, HostileReference.getThreat])
    (by norm_num [managerOf, twoRefs, HostileReference.new,
      HostileReference.getTempThreatModifier])
    (by norm_num [managerOf, twoRefs, HostileReference.new, HostileReference.getThreat])

/-! ## Ordering of the online container -/

theorem reachable_scenarioOne : Reachable false scenarioOne :=
  Reachable.step plainWorld (.addThreat (some 11) 90 0 none)
    (Reachable.step plainWorld (.addThreat (some 10) 100 0 none)
      (Reachable.new plainWorld (some 1)) rfl (fun h => by simp [Op.removes] at h))
    rfl (fun h => by simp [Op.removes] at h)

/-- C11 (counterexample): after `addThreat(A, 100)`, `addThreat(B, 90)` and
`addThreat(A, -50)` with no current victim, the threat-change event of the last call
marks nothing dirty, so `update()` does not sort: the online list stays `[A, B]` with
effective threats 50 and 90, and the adjacent pair is out of order. -/
theorem update_leaves_clean_list_unsorted :
    Reachable false threatDropScenario ∧
    threatDropScenario.iThreatContainer.iDirty = false ∧
    threatDropScenario.updateContainer.iThreatContainer.iThreatList = [0, 1] ∧
    (threatDropScenario.refs 0).effectiveThreat = 50 ∧
    (threatDropScenario.refs 1).effectiveThreat = 90 ∧
    ¬ List.Chain' (fun a b => (threatDropScenario.updateContainer.refs a).effectiveThreat ≥
        (threatDropScenario.updateContainer.refs b).effectiveThreat)
      threatDropScenario.updateContainer.iThreatContainer.iThreatList := by
  have hreach : Reachable false threatDropScenario :=
    Reachable.step plainWorld (.addThreat (some 10) (-50) 0 none) reachable_scenarioOne rfl
      (fun h => by simp [Op.removes] at h)
  refine ⟨hreach, ?_⟩
  norm_num [threatDropScenario, scenarioOne, freshManager, ThreatManager.new,
    ThreatManager.addThreat,
    ThreatCalcHelper.isValidProcess, ThreatManager.getOwner, plainWorld,
    ThreatCalcHelper.calcThreat, ThreatManager.doAddThreat, ThreatManager._addThreat,
    ThreatContainer.addThreat, ThreatManager.container, ThreatContainer.getReferenceByTarget,
    ThreatManager.newReference, ThreatContainer.addReference, HostileReference.addThreat,
    ThreatManager.setRef, HostileReference.new, HostileReference.fireStatusChanged,
    ThreatManager.processThreatEvent, ThreatManager.handleEvent, ThreatManager.afterEvent,
    ThreatManager.updateContainer, ThreatContainer.update, ThreatManager.getCurrentVictim,
    ThreatManager.setDirty, Function.update, List.insertionSort, List.orderedInsert,
    ThreatOrderPred, HostileReference.effectiveThreat]
  simp [Function.update, ThreatManager.afterEvent, ThreatManager.updateContainer,
    ThreatContainer.update, ThreatManager.getCurrentVictim]
  norm_num

/-- C11 (amended): immediately after `update()` runs on an online container that was
dirty (or holds at most one reference), every pair of adjacent references satisfies
`effectiveThreat(R_i) ≥ effectiveThreat(R_(i+1))`; the list is then even sorted
pairwise. In every case the list is a permutation of the list before and the dirty
flag is clear afterwards, and a container that was not marked dirty is left in the
order it had. -/
theorem update_sorts_dirty_container (m : ThreatManager) :
    ((m.iThreatContainer.iDirty = true ∨ m.iThreatContainer.iThreatList.length ≤ 1) →
      List.Chain' (fun a b => (m.updateContainer.refs a).effectiveThreat ≥
          (m.updateContainer.refs b).effectiveThreat)
        m.updateContainer.iThreatContainer.iThreatList ∧
      List.Pairwise (fun a b => (m.refs a).effectiveThreat ≥ (m.refs b).effectiveThreat)
        m.updateContainer.iThreatContainer.iThreatList) ∧
    m.updateContainer.iThreatContainer.iThreatList.Perm m.iThreatContainer.iThreatList ∧
    m.updateContainer.iThreatContainer.iDirty = false ∧
    (m.iThreatContainer.iDirty = false →
      m.updateContainer.iThreatContainer.iThreatList = m.iThreatContainer.iThreatList) := by
  refine ⟨fun h => ?_, update_perm _ _, rfl, fun hclean => ?_⟩
  · have hpair : List.Pairwise
        (fun a b => (m.refs a).effectiveThreat ≥ (m.refs b).effectiveThreat)
        m.updateContainer.iThreatContainer.iThreatList := by
      simp only [ThreatManager.updateContainer, ThreatContainer.update]
      by_cases hlen : m.iThreatContainer.iThreatList.length ≤ 1
      · have hnot : ¬ (m.iThreatContainer.iDirty = true ∧
            m.iThreatContainer.iThreatList.length > 1) :=
          fun hh => absurd hlen (not_le.2 hh.2)
        rw [if_neg hnot]
        match hl : m.iThreatContainer.iThreatList, hlen with
        | [], _ => exact List.Pairwise.nil
        | [a], _ => exact List.pairwise_singleton _ a
        | a :: b :: rest, hlen' => simp at hlen'
      · have hd : m.iThreatContainer.iDirty = true := h.resolve_right hlen
        rw [if_pos ⟨hd, not_le.1 hlen⟩]
        haveI : IsTotal RefId (ThreatOrderPred m.refs) :=
          ⟨fun a b => le_total (m.refs b).effectiveThreat (m.refs a).effectiveThreat⟩
        haveI : IsTrans RefId (ThreatOrderPred m.refs) :=
          ⟨fun a b c hab hbc => le_trans hbc hab⟩
        exact List.sorted_insertionSort (ThreatOrderPred m.refs) _
    exact ⟨hpair.chain', hpair⟩
  · simp only [ThreatManager.updateContainer, ThreatContainer.update]
    rw [if_neg (fun hh => by rw [hclean] at hh; exact Bool.false_ne_true hh.1)]

/-- C11 witness: the online container of the scenario, marked dirty, is sorted to
`[B, A]` by `update()`; a clean container holding A at 50 before B at 90 keeps the
order `[A, B]`. -/
theorem update_sorts_dirty_container_witness :
    (List.Chain' (fun a b =>
        ((threatDropScenario.setDirty true).updateContainer.refs a).effectiveThreat ≥
          ((threatDropScenario.setDirty true).updateContainer.refs b).effectiveThreat)
      (threatDropScenario.setDirty true).updateContainer.iThreatContainer.iThreatList ∧
    List.Pairwise (fun a b => ((threatDropScenario.setDirty true).refs a).effectiveThreat ≥
        ((threatDropScenario.setDirty true).refs b).effectiveThreat)
      (threatDropScenario.setDirty true).updateContainer.iThreatContainer.iThreatList) ∧
    (threatDropScenario.setDirty true).updateContainer.iThreatContainer.iThreatList.Perm
      (threatDropScenario.setDirty true).iThreatContainer.iThreatList ∧
    (managerOf 50 90 [0, 1] none).iThreatContainer.iDirty = false ∧
    (managerOf 50 90 [0, 1] none).updateContainer.iThreatContainer.iThreatList = [0, 1] :=
  ⟨(update_sorts_dirty_container (threatDropScenario.setDirty true)).1 (Or.inl rfl),
    (update_sorts_dirty_container (threatDropScenario.setDirty true)).2.1,
    rfl, (update_sorts_dirty_container (managerOf 50 90 [0, 1] none)).2.2.2 rfl⟩

/-! ## The online and accessible flags of a reference -/

theorem fireStatusChanged_refs (w : World) (m : ThreatManager) (r : RefId)
    (ev : ThreatRefStatusChangeEvent) :
    (HostileReference.fireStatusChanged w m r ev).refs = m.refs := by
  unfold HostileReference.fireStatusChanged
  split
  · exact processThreatEvent_refs w m ev
  · rfl

/-- The store after `setOnlineOfflineState`: only the two flags of the reference can
change. -/
theorem setOnlineOfflineState_refs (w : World) (m : ThreatManager) (r : RefId) (b : Bool) :
    (HostileReference.setOnlineOfflineState w m r b).refs =
      Function.update m.refs r
        { m.refs r with
          iOnline := b,
          iAccessible := if (m.refs r).iOnline = true ∧ b = false then false
            else (m.refs r).iAccessible } := by
  unfold HostileReference.setOnlineOfflineState
  by_cases hb : (m.refs r).iOnline = b
  · rw [if_neg (not_not_intro hb)]
    have : ({ m.refs r with
          iOnline := b,
          iAccessible := if (m.refs r).iOnline = true ∧ b = false then false
            else (m.refs r).iAccessible } : HostileReference) = m.refs r := by
      rcases hm : m.refs r with ⟨g, t, tm, o, a, rt, rf⟩
      rw [hm] at hb
      simp only at hb
      subst hb
      cases o <;> simp
    rw [this, Function.update_eq_self]
  · simp only [ne_eq, hb, not_false_eq_true, if_true]
    rw [fireStatusChanged_refs]
    cases b with
    | false =>
      have hold : (m.refs r).iOnline = true := by
        cases hx : (m.refs r).iOnline with
        | true => rfl
        | false => exact absurd hx hb
      simp [ThreatManager.setRef, setAccessibleState_refs, hold]
    | true =>
      have hold : (m.refs r).iOnline = false := by
        cases hx : (m.refs r).iOnline with
        | false => rfl
        | true => exact absurd hx hb
      simp [ThreatManager.setRef, hold]

/-- The manager after the relink attempt of `updateOnlineStatus` (lines 173-175). -/
theorem updateOnlineStatus_eq (w : World) (m : ThreatManager) (r : RefId) :
    HostileReference.updateOnlineStatus w m r =
      HostileReference.setOnlineOfflineState w
        (HostileReference.setAccessibleState w
          (if (m.refs r).iRefTo = false ∧ w.getUnit (m.refs r).iUnitGuid = true then
            m.setRef r { m.refs r with iRefTo := true } else m) r
          (HostileReference.computeStatus w
            (if (m.refs r).iRefTo = false ∧ w.getUnit (m.refs r).iUnitGuid = true then
              m.setRef r { m.refs r with iRefTo := true } else m) r).2) r
        (HostileReference.computeStatus w
          (if (m.refs r).iRefTo = false ∧ w.getUnit (m.refs r).iUnitGuid = true then
            m.setRef r { m.refs r with iRefTo := true } else m) r).1 := rfl

/-- In the pair computed by `updateOnlineStatus`, accessible implies online. -/
theorem computeStatus_ok (w : World) (m : ThreatManager) (r : RefId) :
    (HostileReference.computeStatus w m r).2 = true →
      (HostileReference.computeStatus w m r).1 = true := by
  unfold HostileReference.computeStatus
  simp only
  split
  · split
    · simp
    · split <;> simp
  · simp

/-- The store after `updateOnlineStatus`: the link may be refreshed, and the two
flags are the computed pair. -/
theorem updateOnlineStatus_refs (w : World) (m : ThreatManager) (r : RefId) :
    (HostileReference.updateOnlineStatus w m r).refs =
      Function.update m.refs r
        { m.refs r with
          iRefTo := (m.refs r).iRefTo || w.getUnit (m.refs r).iUnitGuid,
          iOnline := (HostileReference.computeStatus w
            (if (m.refs r).iRefTo = false ∧ w.getUnit (m.refs r).iUnitGuid = true then
              m.setRef r { m.refs r with iRefTo := true } else m) r).1,
          iAccessible := (HostileReference.computeStatus w
            (if (m.refs r).iRefTo = false ∧ w.getUnit (m.refs r).iUnitGuid = true then
              m.setRef r { m.refs r with iRefTo := true } else m) r).2 } := by
  rw [updateOnlineStatus_eq, setOnlineOfflineState_refs, setAccessibleState_refs]
  have hok := computeStatus_ok w
    (if (m.refs r).iRefTo = false ∧ w.getUnit (m.refs r).iUnitGuid = true then
      m.setRef r { m.refs r with iRefTo := true } else m) r
  generalize HostileReference.computeStatus w
    (if (m.refs r).iRefTo = false ∧ w.getUnit (m.refs r).iUnitGuid = true then
      m.setRef r { m.refs r with iRefTo := true } else m) r = st at *
  obtain ⟨o1, a1⟩ := st
  simp only at hok ⊢
  by_cases hlink : (m.refs r).iRefTo = false ∧ w.getUnit (m.refs r).iUnitGuid = true
  · simp only [hlink, and_self, if_true, ThreatManager.setRef, Function.update_same,
      Function.update_idem, Bool.false_or]
    cases o1 <;> cases a1 <;> simp at hok ⊢
  · simp only [hlink, if_false, Function.update_same, Function.update_idem]
    have hrt : ((m.refs r).iRefTo || w.getUnit (m.refs r).iUnitGuid) = (m.refs r).iRefTo := by
      cases h1 : (m.refs r).iRefTo <;> cases h2 : w.getUnit (m.refs r).iUnitGuid <;>
        simp [h1, h2] at hlink ⊢
    rw [hrt]
    cases o1 <;> cases a1 <;> simp at hok ⊢

theorem refAddThreat_refs (w : World) (m : ThreatManager) (r : RefId) (a : ℚ) :
    (HostileReference.addThreat w m r a).refs =
      if (m.refs r).iOnline = true then
        Function.update m.refs r { m.refs r with iThreat := (m.refs r).iThreat + a }
      else
        (HostileReference.updateOnlineStatus w
          (m.setRef r { m.refs r with iThreat := (m.refs r).iThreat + a }) r).refs := by
  unfold HostileReference.addThreat
  simp only
  have hon : ((m.setRef r { m.refs r with iThreat := (m.refs r).iThreat + a }).refs r).iOnline
      = (m.refs r).iOnline := by
    simp [ThreatManager.setRef]
  rw [hon]
  by_cases ho : (m.refs r).iOnline = true
  · have ho' : ¬ ((m.refs r).iOnline = false) := by simp [ho]
    rw [if_neg ho', if_pos ho]
    split
    · rw [fireStatusChanged_refs]; rfl
    · rfl
  · have ho' : (m.refs r).iOnline = false := by simpa using ho
    rw [if_pos ho', if_neg ho]
    split
    · rw [fireStatusChanged_refs]
    · rfl

theorem flagsOk_setOnlineOfflineState (w : World) (m : ThreatManager) (r : RefId) (b : Bool)
    (x : RefId) (h : (m.refs x).flagsOk) :
    ((HostileReference.setOnlineOfflineState w m r b).refs x).flagsOk := by
  rw [setOnlineOfflineState_refs]
  by_cases hx : x = r
  · subst hx
    simp only [Function.update_same, HostileReference.flagsOk] at h ⊢
    cases b with
    | true => intro _; rfl
    | false =>
      cases ho : (m.refs x).iOnline with
      | true => simp
      | false =>
        intro hacc
        simp only [ho, Bool.false_eq_true, false_and, if_false] at hacc
        have := h hacc
        rw [ho] at this
        exact this
  · rw [Function.update_noteq hx]; exact h

theorem flagsOk_updateOnlineStatus (w : World) (m : ThreatManager) (r : RefId)
    (x : RefId) (h : (m.refs x).flagsOk) :
    ((HostileReference.updateOnlineStatus w m r).refs x).flagsOk := by
  rw [updateOnlineStatus_refs]
  by_cases hx : x = r
  · subst hx
    simp only [Function.update_same, HostileReference.flagsOk]
    exact computeStatus_ok w _ x
  · rw [Function.update_noteq hx]; exact h

theorem flagsOk_refAddThreat (w : World) (m : ThreatManager) (r : RefId) (a : ℚ)
    (x : RefId) (h : (m.refs x).flagsOk) :
    ((HostileReference.addThreat w m r a).refs x).flagsOk := by
  rw [refAddThreat_refs]
  have h1 : ((m.setRef r { m.refs r with iThreat := (m.refs r).iThreat + a }).refs x).flagsOk := by
    by_cases hx : x = r
    · subst hx; simpa [ThreatManager.setRef, HostileReference.flagsOk] using h
    · simpa [ThreatManager.setRef, Function.update_noteq hx] using h
  split
  · exact h1
  · exact flagsOk_updateOnlineStatus w _ r x h1

theorem flagsOk_removeReference (w : World) (m : ThreatManager) (r : RefId)
    (x : RefId) (h : (m.refs x).flagsOk) :
    ((HostileReference.removeReference w m r).refs x).flagsOk := by
  unfold HostileReference.removeReference
  rw [fireStatusChanged_refs]
  by_cases hx : x = r
  · subst hx
    simpa [HostileReference.invalidate, ThreatManager.setRef, HostileReference.flagsOk] using h
  · simpa [HostileReference.invalidate, ThreatManager.setRef, Function.update_noteq hx] using h

/-- C12: accessible implies online after construction, and each of `addThreat`,
`addThreatPercent`, `updateOnlineStatus`, `setOnlineOfflineState` and
`removeReference` of a reference keeps the implication on every reference of the
store; a call that changes the online flag of its reference from true to false
leaves the accessible flag false. -/
theorem accessible_implies_online (w : World) (m : ThreatManager) (self : RefId)
    (refUnit : Guid) (threat modThreat : ℚ) (percent : ℤ) (isOnline : Bool) :
    (HostileReference.new refUnit threat).flagsOk ∧
    (∀ m' : ThreatManager,
      (m' = HostileReference.addThreat w m self modThreat ∨
        m' = HostileReference.addThreatPercent w m self percent ∨
        m' = HostileReference.updateOnlineStatus w m self ∨
        m' = HostileReference.setOnlineOfflineState w m self isOnline ∨
        m' = HostileReference.removeReference w m self) →
      (∀ x, (m.refs x).flagsOk → (m'.refs x).flagsOk) ∧
      ((m.refs self).iOnline = true → (m'.refs self).iOnline = false →
        (m'.refs self).iAccessible = false)) := by
  refine ⟨fun _ => rfl, ?_⟩
  intro m' hm'
  have hpres : ∀ x, (m.refs x).flagsOk → (m'.refs x).flagsOk := by
    intro x hx
    rcases hm' with h | h | h | h | h <;> subst h
    · exact flagsOk_refAddThreat w m self modThreat x hx
    · exact flagsOk_refAddThreat w m self _ x hx
    · exact flagsOk_updateOnlineStatus w m self x hx
    · exact flagsOk_setOnlineOfflineState w m self isOnline x hx
    · exact flagsOk_removeReference w m self x hx
  refine ⟨hpres, ?_⟩
  intro hon hoff
  have hok := hpres self (fun _ => hon)
  cases hacc : (m'.refs self).iAccessible with
  | false => rfl
  | true =>
    have := hok hacc
    rw [hoff] at this
    cases this

/-- C13: after `updateOnlineStatus` the `(online, accessible)` pair of the reference
is the one of the state-machine table, read against the owner of the manager:
`(false, false)` if the target is unresolvable (not linked and not found by the
object accessor), is a game-master player, is in flight, or is not in the map and
phase of the owner; otherwise `(true, true)` in a place accessible to the owner,
`(true, false)` within the owner's combat range, and `(false, false)` else. A
reference that is not attached to its manager, or a manager without owner, counts as
not in the owner's map and phase. -/
theorem updateOnlineStatus_table (w : World) (m : ThreatManager) (self : RefId) :
    (((HostileReference.updateOnlineStatus w m self).refs self).iOnline,
      ((HostileReference.updateOnlineStatus w m self).refs self).iAccessible) =
    statusTable ((m.refs self).iRefTo || w.getUnit (m.refs self).iUnitGuid)
      (w.isPlayer (m.refs self).iUnitGuid && w.isGameMaster (m.refs self).iUnitGuid)
      (w.inFlight (m.refs self).iUnitGuid)
      (match m.iOwner with
       | some o => (m.refs self).iRefFrom &&
          (w.IsInMap (m.refs self).iUnitGuid o && w.InSamePhase (m.refs self).iUnitGuid o)
       | none => false)
      (w.isInAccessiblePlaceFor (m.refs self).iUnitGuid)
      (w.IsWithinCombatRange (m.refs self).iUnitGuid) ∧
    (∀ o, (m.refs self).iRefFrom = true → m.iOwner = some o →
      (((HostileReference.updateOnlineStatus w m self).refs self).iOnline,
        ((HostileReference.updateOnlineStatus w m self).refs self).iAccessible) =
      statusTable ((m.refs self).iRefTo || w.getUnit (m.refs self).iUnitGuid)
        (w.isPlayer (m.refs self).iUnitGuid && w.isGameMaster (m.refs self).iUnitGuid)
        (w.inFlight (m.refs self).iUnitGuid)
        (w.IsInMap (m.refs self).iUnitGuid o && w.InSamePhase (m.refs self).iUnitGuid o)
        (w.isInAccessiblePlaceFor (m.refs self).iUnitGuid)
        (w.IsWithinCombatRange (m.refs self).iUnitGuid)) := by
  have hmain : (((HostileReference.updateOnlineStatus w m self).refs self).iOnline,
      ((HostileReference.updateOnlineStatus w m self).refs self).iAccessible) =
    statusTable ((m.refs self).iRefTo || w.getUnit (m.refs self).iUnitGuid)
      (w.isPlayer (m.refs self).iUnitGuid && w.isGameMaster (m.refs self).iUnitGuid)
      (w.inFlight (m.refs self).iUnitGuid)
      (match m.iOwner with
       | some o => (m.refs self).iRefFrom &&
          (w.IsInMap (m.refs self).iUnitGuid o && w.InSamePhase (m.refs self).iUnitGuid o)
       | none => false)
      (w.isInAccessiblePlaceFor (m.refs self).iUnitGuid)
      (w.IsWithinCombatRange (m.refs self).iUnitGuid) := by
    rw [updateOnlineStatus_refs]
    simp only [Function.update_same]
    by_cases hlink : (m.refs self).iRefTo = false ∧ w.getUnit (m.refs self).iUnitGuid = true
    · obtain ⟨h1, h2⟩ := hlink
      simp only [h1, h2, and_self, if_true, HostileReference.computeStatus,
        HostileReference.getSourceUnit, ThreatManager.setRef, Function.update_same, statusTable,
        Bool.or_true]
      cases hf : (m.refs self).iRefFrom <;> cases m.iOwner <;>
        cases w.isPlayer (m.refs self).iUnitGuid <;>
        cases w.isGameMaster (m.refs self).iUnitGuid <;>
        cases w.inFlight (m.refs self).iUnitGuid <;>
        cases w.isInAccessiblePlaceFor (m.refs self).iUnitGuid <;>
        cases w.IsWithinCombatRange (m.refs self).iUnitGuid <;> simp
      all_goals
        rename_i o
        cases w.IsInMap (m.refs self).iUnitGuid o <;>
          cases w.InSamePhase (m.refs self).iUnitGuid o <;> simp
    · simp only [hlink, if_false, HostileReference.computeStatus,
        HostileReference.getSourceUnit, statusTable]
      cases h1 : (m.refs self).iRefTo <;> cases h2 : w.getUnit (m.refs self).iUnitGuid <;>
        simp [h1, h2] at hlink ⊢ <;>
        cases hf : (m.refs self).iRefFrom <;> cases m.iOwner <;>
        cases w.isPlayer (m.refs self).iUnitGuid <;>
        cases w.isGameMaster (m.refs self).iUnitGuid <;>
        cases w.inFlight (m.refs self).iUnitGuid <;>
        cases w.isInAccessiblePlaceFor (m.refs self).iUnitGuid <;>
        cases w.IsWithinCombatRange (m.refs self).iUnitGuid <;> simp
      all_goals
        rename_i o
        cases w.IsInMap (m.refs self).iUnitGuid o <;>
          cases w.InSamePhase (m.refs self).iUnitGuid o <;> simp
  refine ⟨hmain, fun o hfrom ho => ?_⟩
  rw [hmain, ho, hfrom]
  simp

/-! ## Threat across the online and offline containers -/

theorem getThreat_online_only (m : ThreatManager) (g : Guid) :
    m.getThreat (some g) false =
      match m.iThreatContainer.iThreatList.find? (fun i => decide ((m.refs i).iUnitGuid = g)) with
      | some r => (m.refs r).iThreat
      | none => 0 := by
  simp only [ThreatManager.getThreat, ThreatContainer.getReferenceByTarget,
    HostileReference.getThreat]
  cases m.iThreatContainer.iThreatList.find? (fun i => decide ((m.refs i).iUnitGuid = g)) with
  | some r => simp
  | none => simp

/-- Where a held reference is after `setOnlineOfflineState`, and what `getThreat`
reads for its target. -/
theorem setOnlineOfflineState_moves (w : World) {m : ThreatManager} (r : RefId) (b : Bool)
    (h : m.Consistent) (hr : r ∈ m.held) :
    (r ∈ (HostileReference.setOnlineOfflineState w m r b).iThreatContainer.iThreatList ↔
      b = true) ∧
    (r ∈ (HostileReference.setOnlineOfflineState w m r b).iThreatOfflineContainer.iThreatList ↔
      b = false) ∧
    (∀ x, ((HostileReference.setOnlineOfflineState w m r b).refs x).iThreat
      = (m.refs x).iThreat) ∧
    (HostileReference.setOnlineOfflineState w m r b).getThreat (some (m.refs r).iUnitGuid) true
      = (m.refs r).iThreat ∧
    (HostileReference.setOnlineOfflineState w m r b).getThreat (some (m.refs r).iUnitGuid) false
      = (if b = true then (m.refs r).iThreat else 0) := by
  obtain ⟨hc, hf⟩ := setOnlineOfflineState_spec w r b h hr
  have hflag : ((HostileReference.setOnlineOfflineState w m r b).refs r).iOnline = b := by
    rw [setOnlineOfflineState_refs]; simp
  generalize HostileReference.setOnlineOfflineState w m r b = m' at *
  have hr' : r ∈ m'.held := (hf.held r).2 hr
  have hon : r ∈ m'.iThreatContainer.iThreatList ↔ b = true := by
    constructor
    · intro hx
      have := hc.onlineFlag r hx
      simp only at this
      rw [hflag] at this
      exact this
    · intro hb
      rcases mem_held.1 hr' with h1 | h1
      · exact h1
      · have := hc.offlineFlag r h1
        simp only at this
        rw [hflag, hb] at this
        cases this
  have hoff : r ∈ m'.iThreatOfflineContainer.iThreatList ↔ b = false := by
    constructor
    · intro hx
      have := hc.offlineFlag r hx
      simp only at this
      rw [hflag] at this
      exact this
    · intro hb
      rcases mem_held.1 hr' with h1 | h1
      · have := hon.1 h1
        rw [hb] at this
        cases this
      · exact h1
  refine ⟨hon, hoff, hf.threat, ?_, ?_⟩
  · rw [getThreat_eq_findRef, findRef_eq_some hc hr' (hf.guid r)]
    exact hf.threat r
  · rw [getThreat_online_only]
    cases b with
    | true =>
      have hfind : m'.iThreatContainer.iThreatList.find?
          (fun i => decide ((m'.refs i).iUnitGuid = (m.refs r).iUnitGuid)) = some r :=
        find_guid_eq_some
          (fun r1 r2 h1 h2 => hc.guidInj r1 r2 (mem_held.2 (Or.inl h1)) (mem_held.2 (Or.inl h2)))
          (hon.2 rfl) (hf.guid r)
      rw [hfind]
      simp only [if_true]
      exact hf.threat r
    | false =>
      have hfind : m'.iThreatContainer.iThreatList.find?
          (fun i => decide ((m'.refs i).iUnitGuid = (m.refs r).iUnitGuid)) = none := by
        rw [List.find?_eq_none]
        intro x hx hg
        simp only [decide_eq_true_eq] at hg
        have hxr : x = r :=
          hc.guidInj x r (mem_held.2 (Or.inl hx)) hr' (hg.trans (hf.guid r).symm)
        subst hxr
        have := hon.1 hx
        cases this
      rw [hfind]
      simp

/-- C14: on a consistent manager, when the online reference of target `t` with
threat `x` goes offline it leaves the online container and enters the offline one
with threat `x`, so `getThreat(t, true) = x` and `getThreat(t, false) = 0`; when an
offline reference comes back online its threat is unchanged and
`getThreat(t, false)` reads it; going offline and back online gives
`getThreat(t, false) = x` again. No move changes the threat of any reference. -/
theorem threat_survives_offline (w1 w2 : World) (m : ThreatManager) (r : RefId)
    (h : m.Consistent) (hr : r ∈ m.held) :
    (r ∈ m.iThreatContainer.iThreatList →
      r ∉ (HostileReference.setOnlineOfflineState w1 m r false).iThreatContainer.iThreatList ∧
      r ∈ (HostileReference.setOnlineOfflineState w1 m r false).iThreatOfflineContainer.iThreatList ∧
      (HostileReference.setOnlineOfflineState w1 m r false).getThreat
        (some (m.refs r).iUnitGuid) true = (m.refs r).iThreat ∧
      (HostileReference.setOnlineOfflineState w1 m r false).getThreat
        (some (m.refs r).iUnitGuid) false = 0 ∧
      (∀ x, ((HostileReference.setOnlineOfflineState w1 m r false).refs x).iThreat
        = (m.refs x).iThreat) ∧
      (HostileReference.setOnlineOfflineState w2
        (HostileReference.setOnlineOfflineState w1 m r false) r true).getThreat
        (some (m.refs r).iUnitGuid) false = (m.refs r).iThreat) ∧
    (r ∈ m.iThreatOfflineContainer.iThreatList →
      r ∈ (HostileReference.setOnlineOfflineState w2 m r true).iThreatContainer.iThreatList ∧
      r ∉ (HostileReference.setOnlineOfflineState w2 m r true).iThreatOfflineContainer.iThreatList ∧
      (HostileReference.setOnlineOfflineState w2 m r true).getThreat
        (some (m.refs r).iUnitGuid) false = (m.refs r).iThreat ∧
      (∀ x, ((HostileReference.setOnlineOfflineState w2 m r true).refs x).iThreat
        = (m.refs x).iThreat)) := by
  constructor
  · intro _
    obtain ⟨hon, hoff, hthr, htrue, hfalse⟩ := setOnlineOfflineState_moves w1 r false h hr
    obtain ⟨hc1, hf1⟩ := setOnlineOfflineState_spec w1 r false h hr
    have hr1 : r ∈ (HostileReference.setOnlineOfflineState w1 m r false).held :=
      (hf1.held r).2 hr
    obtain ⟨_, _, _, _, hback⟩ := setOnlineOfflineState_moves w2 r true hc1 hr1
    refine ⟨fun hx => ?_, hoff.2 rfl, htrue, by simpa using hfalse, hthr, ?_⟩
    · have := hon.1 hx
      cases this
    · rw [hf1.guid r, hthr r] at hback
      simpa using hback
  · intro _
    obtain ⟨hon, hoff, hthr, _, hfalse⟩ := setOnlineOfflineState_moves w2 r true h hr
    refine ⟨hon.2 rfl, fun hx => ?_, by simpa using hfalse, hthr⟩
    have := hoff.1 hx
    cases this

/-- C14 witness: A (unit 10, threat 100) and B online; A goes offline and comes
back. -/
theorem threat_survives_offline_witness :
    (managerOf 100 90 [0, 1] none).Consistent ∧
    (HostileReference.setOnlineOfflineState plainWorld (managerOf 100 90 [0, 1] none) 0
      false).getThreat (some 10) false = 0 ∧
    (HostileReference.setOnlineOfflineState plainWorld (managerOf 100 90 [0, 1] none) 0
      false).getThreat (some 10) true = 100 ∧
    (HostileReference.setOnlineOfflineState plainWorld
      (HostileReference.setOnlineOfflineState plainWorld (managerOf 100 90 [0, 1] none) 0 false)
      0 true).getThreat (some 10) false = 100 := by
  have h := (threat_survives_offline plainWorld plainWorld (managerOf 100 90 [0, 1] none) 0
    (managerOf_consistent 100 90 none (Or.inl rfl))
    (by simp [ThreatManager.held, managerOf])).1 (by simp [managerOf])
  obtain ⟨_, _, h1, h0, _, hb⟩ := h
  refine ⟨managerOf_consistent 100 90 none (Or.inl rfl), ?_, ?_, ?_⟩
  · simpa [managerOf, twoRefs] using h0
  · simpa [managerOf, twoRefs] using h1
  · simpa [managerOf, twoRefs] using hb

/-! ## `calcThreat` -/

theorem scanNoPriority_none_eq_find (w : World) (refs : RefId → HostileReference)
    (l : List RefId) :
    scanNoPriority w refs none l = l.find? (fun r => w.canCreatureAttack (refs r).iUnitGuid) := by
  induction l with
  | nil => rfl
  | cons r rest ih =>
    unfold scanNoPriority
    by_cases hatt : w.canCreatureAttack (refs r).iUnitGuid = true
    · simp [hatt, compareWithVictim]
    · simp only [hatt, if_false, ih]
      simp [hatt]

theorem scanPriority_all_second_choice (w : World) (refs : RefId → HostileReference)
    (all : List RefId) (l : List RefId) (hl : ∀ r, r ∈ l → isSecondChoice w refs r = true)
    (hne : l ≠ []) :
    scanPriority w refs all none l = scanNoPriority w refs none all := by
  induction l with
  | nil => exact absurd rfl hne
  | cons r rest ih =>
    unfold scanPriority
    rw [if_pos (hl r (List.mem_cons_self _ _))]
    by_cases hrest : rest = []
    · simp [hrest]
    · rw [if_pos hrest]
      simp only [reduceCtorEq, if_false]
      exact ih (fun x hx => hl x (List.mem_cons_of_mem _ hx)) hrest

theorem find_in_sorted_is_greatest (R : RefId → RefId → Prop) {p : RefId → Bool}
    (hrefl : ∀ a, R a a) (l : List RefId) (hs : l.Pairwise R) (x : RefId)
    (hx : l.find? p = some x) : ∀ y, y ∈ l → p y = true → R x y := by
  induction l with
  | nil => simp at hx
  | cons a t ih =>
    intro y hy hp
    rw [List.pairwise_cons] at hs
    by_cases hpa : p a = true
    · rw [List.find?_cons_of_pos _ hpa] at hx
      cases hx
      rcases List.mem_cons.1 hy with h1 | h1
      · rw [h1]; exact hrefl _
      · exact hs.1 y h1
    · rw [List.find?_cons_of_neg _ hpa] at hx
      rcases List.mem_cons.1 hy with h1 | h1
      · rw [h1] at hp; exact absurd hp hpa
      · exact ih hs.2 hx y h1 hp

/-- C16: on a list in which every reference is second-choice (low-priority), with no
current victim, `selectNextVictim` returns the first reference of the list that the
owner can attack; it returns none exactly when no reference is attackable; and on a
list sorted by effective threat the reference returned has the highest effective
threat among the attackable ones. -/
theorem selectNextVictim_all_second_choice (w : World) (refs : RefId → HostileReference)
    (c : ThreatContainer) (h : ∀ r, r ∈ c.iThreatList → isSecondChoice w refs r = true) :
    c.selectNextVictim w refs none =
      c.iThreatList.find? (fun r => w.canCreatureAttack (refs r).iUnitGuid) ∧
    (c.selectNextVictim w refs none = none ↔
      ∀ r, r ∈ c.iThreatList → w.canCreatureAttack (refs r).iUnitGuid = false) ∧
    (c.iThreatList.Pairwise (fun a b => (refs a).effectiveThreat ≥ (refs b).effectiveThreat) →
      ∀ x, c.selectNextVictim w refs none = some x →
        ∀ y, y ∈ c.iThreatList → w.canCreatureAttack (refs y).iUnitGuid = true →
          (refs x).effectiveThreat ≥ (refs y).effectiveThreat) := by
  have hfind : c.selectNextVictim w refs none =
      c.iThreatList.find? (fun r => w.canCreatureAttack (refs r).iUnitGuid) := by
    unfold ThreatContainer.selectNextVictim
    by_cases hne : c.iThreatList = []
    · rw [hne]; rfl
    · rw [scanPriority_all_second_choice w refs _ _ h hne, scanNoPriority_none_eq_find]
  refine ⟨hfind, ?_, ?_⟩
  · rw [hfind, List.find?_eq_none]
    constructor
    · intro hh r hr
      simpa using hh r hr
    · intro hh r hr
      simp [hh r hr]
  · intro hs x hx y hy hatt
    rw [hfind] at hx
    exact find_in_sorted_is_greatest
      (fun a b => (refs a).effectiveThreat ≥ (refs b).effectiveThreat)
      (fun a => le_refl _) c.iThreatList hs x hx y hy hatt

/-- C16 witness: A (200) and B (50) are both immune to the owner's melee school; the
fallback picks A. -/
theorem selectNextVictim_all_second_choice_witness :
    ThreatContainer.selectNextVictim allImmuneWorld (twoRefs 200 50) ⟨[0, 1], false⟩ none =
      [0, 1].find? (fun r => allImmuneWorld.canCreatureAttack (twoRefs 200 50 r).iUnitGuid) ∧
    (ThreatContainer.selectNextVictim allImmuneWorld (twoRefs 200 50) ⟨[0, 1], false⟩ none = none ↔
      ∀ r, r ∈ [0, 1] → allImmuneWorld.canCreatureAttack (twoRefs 200 50 r).iUnitGuid = false) ∧
    (([0, 1] : List RefId).Pairwise (fun a b => (twoRefs 200 50 a).effectiveThreat ≥
        (twoRefs 200 50 b).effectiveThreat) →
      ∀ x, ThreatContainer.selectNextVictim allImmuneWorld (twoRefs 200 50) ⟨[0, 1], false⟩ none
          = some x →
        ∀ y, y ∈ [0, 1] → allImmuneWorld.canCreatureAttack (twoRefs 200 50 y).iUnitGuid = true →
          (twoRefs 200 50 x).effectiveThreat ≥ (twoRefs 200 50 y).effectiveThreat) :=
  selectNextVictim_all_second_choice allImmuneWorld (twoRefs 200 50) ⟨[0, 1], false⟩
    (fun _ _ => rfl)

/-! ## `isNeedUpdateToClient` -/

/-- C17: with `e` and `updateTimer` in the `uint32` range: if the online list is
empty and the online container is not dirty, `isNeedUpdateToClient(e)` returns false
and leaves the manager as it is; otherwise it returns true exactly when
`e ≥ updateTimer`, the timer is then reset to the configured interval, and when it
returns false the timer has decreased by exactly `e`, without wrap-around, and is
strictly positive. -/
theorem isNeedUpdateToClient_spec (w : World) (m : ThreatManager) (e : Nat)
    (he : e < 2 ^ 32) (ht : m.iUpdateTimer < 2 ^ 32) :
    ((m.iThreatContainer.iThreatList = [] ∧ m.iThreatContainer.iDirty = false) →
      m.isNeedUpdateToClient w e = (false, m)) ∧
    (¬ (m.iThreatContainer.iThreatList = [] ∧ m.iThreatContainer.iDirty = false) →
      ((m.isNeedUpdateToClient w e).1 = true ↔ e ≥ m.iUpdateTimer) ∧
      ((m.isNeedUpdateToClient w e).1 = true →
        (m.isNeedUpdateToClient w e).2.iUpdateTimer = w.THREAT_UPDATE_INTERVAL) ∧
      ((m.isNeedUpdateToClient w e).1 = false →
        (m.isNeedUpdateToClient w e).2.iUpdateTimer + e = m.iUpdateTimer ∧
        0 < (m.isNeedUpdateToClient w e).2.iUpdateTimer)) := by
  have hempty : (m.isThreatListEmpty = true ∧ m.iThreatContainer.isDirty = false) ↔
      (m.iThreatContainer.iThreatList = [] ∧ m.iThreatContainer.iDirty = false) := by
    simp [ThreatManager.isThreatListEmpty, ThreatContainer.isDirty, List.isEmpty_iff]
  constructor
  · intro h
    unfold ThreatManager.isNeedUpdateToClient
    rw [if_pos (hempty.2 h)]
  · intro h
    unfold ThreatManager.isNeedUpdateToClient
    rw [if_neg (fun hh => h (hempty.1 hh))]
    by_cases hge : e ≥ m.iUpdateTimer
    · rw [if_pos hge]
      simp [hge]
    · rw [if_neg hge]
      have hlt : e < m.iUpdateTimer := not_le.1 hge
      have hmod : (m.iUpdateTimer + 2 ^ 32 - e) % 2 ^ 32 = m.iUpdateTimer - e := by
        omega
      simp only [hmod, Bool.false_eq_true, false_iff, not_le, hlt, false_implies, true_and,
        forall_const, ge_iff_le]
      omega

/-- C17 witness: one online reference, timer at 1000, 400 milliseconds elapsed. -/
theorem isNeedUpdateToClient_spec_witness :
    (((managerOf 100 90 [0] none).iThreatContainer.iThreatList = [] ∧
        (managerOf 100 90 [0] none).iThreatContainer.iDirty = false) →
      (managerOf 100 90 [0] none).isNeedUpdateToClient plainWorld 400
        = (false, managerOf 100 90 [0] none)) ∧
    (¬ ((managerOf 100 90 [0] none).iThreatContainer.iThreatList = [] ∧
        (managerOf 100 90 [0] none).iThreatContainer.iDirty = false) →
      (((managerOf 100 90 [0] none).isNeedUpdateToClient plainWorld 400).1 = true ↔
        400 ≥ (managerOf 100 90 [0] none).iUpdateTimer) ∧
      (((managerOf 100 90 [0] none).isNeedUpdateToClient plainWorld 400).1 = true →
        ((managerOf 100 90 [0] none).isNeedUpdateToClient plainWorld 400).2.iUpdateTimer
          = plainWorld.THREAT_UPDATE_INTERVAL) ∧
      (((managerOf 100 90 [0] none).isNeedUpdateToClient plainWorld 400).1 = false →
        ((managerOf 100 90 [0] none).isNeedUpdateToClient plainWorld 400).2.iUpdateTimer + 400
          = (managerOf 100 90 [0] none).iUpdateTimer ∧
        0 < ((managerOf 100 90 [0] none).isNeedUpdateToClient plainWorld 400).2.iUpdateTimer)) :=
  isNeedUpdateToClient_spec plainWorld (managerOf 100 90 [0] none) 400 (by norm_num)
    (by norm_num [managerOf])

/-! ## `resetAllAggro` -/

/-- The loop of `resetAllAggro` writes threat 0 into the references of the list and
touches nothing else. -/
theorem resetLoop_effect (l : List RefId) :
    ∀ m : ThreatManager,
      (∀ x, ((l.foldl (fun acc itr => acc.setRef itr ((acc.refs itr).setThreat 0)) m).refs x) =
        if x ∈ l then (m.refs x).setThreat 0 else m.refs x) ∧
      (l.foldl (fun acc itr => acc.setRef itr ((acc.refs itr).setThreat 0)) m).iThreatContainer
        = m.iThreatContainer ∧
      (l.foldl (fun acc itr => acc.setRef itr ((acc.refs itr).setThreat 0)) m).iThreatOfflineContainer
        = m.iThreatOfflineContainer ∧
      (l.foldl (fun acc itr => acc.setRef itr ((acc.refs itr).setThreat 0)) m).iCurrentVictim
        = m.iCurrentVictim := by
  induction l with
  | nil => intro m; simp
  | cons r rest ih =>
    intro m
    simp only [List.foldl_cons]
    obtain ⟨h1, h2, h3, h4⟩ := ih (m.setRef r ((m.refs r).setThreat 0))
    refine ⟨?_, h2, h3, h4⟩
    intro x
    rw [h1 x]
    by_cases hxr : x = r
    · subst hxr
      simp [ThreatManager.setRef, HostileReference.setThreat]
    · by_cases hx : x ∈ rest
      · simp [ThreatManager.setRef, Function.update_noteq hxr, hx]
      · simp [ThreatManager.setRef, Function.update_noteq hxr, hx, hxr]

/-- C18 (counterexample): on a fresh manager, whose online container is empty and
clean, `resetAllAggro` returns at once: the online container is not marked dirty. -/
theorem resetAllAggro_empty_not_dirty :
    freshManager.iThreatContainer.iThreatList = [] ∧
    freshManager.resetAllAggro.iThreatContainer.iDirty = false := by
  decide

/-- C18 (amended): after `resetAllAggro` every reference of the online container has
threat 0 and `getThreat(t, false) = 0` for every target `t`; the online container
is marked dirty when it is not empty, and an empty online container leaves the
manager as it is; both lists and the current victim are unchanged, and so is every
reference outside the online list (the offline references in particular). -/
theorem resetAllAggro_spec (m : ThreatManager) :
    (∀ r, r ∈ m.iThreatContainer.iThreatList → (m.resetAllAggro.refs r).iThreat = 0) ∧
    (∀ t : Option Guid, m.resetAllAggro.getThreat t false = 0) ∧
    (m.iThreatContainer.iThreatList ≠ [] → m.resetAllAggro.iThreatContainer.iDirty = true) ∧
    (m.iThreatContainer.iThreatList = [] → m.resetAllAggro = m) ∧
    m.resetAllAggro.iThreatContainer.iThreatList = m.iThreatContainer.iThreatList ∧
    m.resetAllAggro.iThreatOfflineContainer = m.iThreatOfflineContainer ∧
    m.resetAllAggro.iCurrentVictim = m.iCurrentVictim ∧
    (∀ r, r ∉ m.iThreatContainer.iThreatList → m.resetAllAggro.refs r = m.refs r) := by
  by_cases hl : m.iThreatContainer.iThreatList = []
  · have hm : m.resetAllAggro = m := by
      unfold ThreatManager.resetAllAggro
      rw [if_pos hl]
    rw [hm]
    refine ⟨?_, ?_, fun h => absurd hl h, fun _ => rfl, rfl, rfl, rfl, fun _ _ => rfl⟩
    · intro r hr; rw [hl] at hr; simp at hr
    · intro t
      cases t with
      | none => rfl
      | some g => simp [ThreatManager.getThreat, ThreatContainer.getReferenceByTarget, hl]
  · obtain ⟨h1, h2, h3, h4⟩ := resetLoop_effect m.iThreatContainer.iThreatList m
    have hm : m.resetAllAggro =
        (m.iThreatContainer.iThreatList.foldl
          (fun acc itr => acc.setRef itr ((acc.refs itr).setThreat 0)) m).setDirty true := by
      unfold ThreatManager.resetAllAggro
      rw [if_neg hl]
    generalize m.iThreatContainer.iThreatList.foldl
      (fun acc itr => acc.setRef itr ((acc.refs itr).setThreat 0)) m = m1 at *
    rw [hm]
    have hrefs : ∀ x, ((m1.setDirty true).refs x) =
        if x ∈ m.iThreatContainer.iThreatList then (m.refs x).setThreat 0 else m.refs x := h1
    have hlist : (m1.setDirty true).iThreatContainer.iThreatList
        = m.iThreatContainer.iThreatList := by
      simp [ThreatManager.setDirty, h2]
    refine ⟨?_, ?_, fun _ => rfl, fun h => absurd h hl, hlist, h3, h4, ?_⟩
    · intro r hr
      rw [hrefs r, if_pos hr]; rfl
    · intro t
      cases t with
      | none => rfl
      | some g =>
        rw [getThreat_online_only]
        cases hfind : (m1.setDirty true).iThreatContainer.iThreatList.find?
            (fun i => decide (((m1.setDirty true).refs i).iUnitGuid = g)) with
        | none => rfl
        | some r =>
          have hr : r ∈ (m1.setDirty true).iThreatContainer.iThreatList :=
            List.mem_of_find?_eq_some hfind
          rw [hlist] at hr
          simp only
          rw [hrefs r, if_pos hr]; rfl
    · intro r hr
      rw [hrefs r, if_neg hr]

/-! ## `addThreatPercent(0)` -/

theorem addPct_zero (t : ℚ) : AddPct t 0 - t = 0 := by
  simp [AddPct, CalculatePct]

theorem setRef_add_zero (m : ThreatManager) (r : RefId) :
    m.setRef r { m.refs r with iThreat := (m.refs r).iThreat + 0 } = m := by
  have : ({ m.refs r with iThreat := (m.refs r).iThreat + 0 } : HostileReference) = m.refs r := by
    rcases hm : m.refs r with ⟨g, t, tm, o, a, rt, rf⟩
    simp
  rw [this, setRef_self]

theorem refAddThreatPercent_zero (w : World) (m : ThreatManager) (r : RefId) :
    HostileReference.addThreatPercent w m r 0 =
      if (m.refs r).iOnline = false then HostileReference.updateOnlineStatus w m r else m := by
  unfold HostileReference.addThreatPercent
  simp only
  rw [addPct_zero]
  unfold HostileReference.addThreat
  simp only [setRef_add_zero, ne_eq, not_true_eq_false, if_false]

/-- C19 (counterexample): the only reference is offline and held by the offline
container; its target is reachable again. `addThreatPercent(0)` sets the reference
online and accessible and moves it to the online container. -/
theorem zero_percent_brings_reference_online :
    (offlineScenario.refs 0).iOnline = false ∧
    offlineScenario.iThreatContainer.iThreatList = [] ∧
    offlineScenario.iThreatOfflineContainer.iThreatList = [0] ∧
    ((HostileReference.addThreatPercent plainWorld offlineScenario 0 0).refs 0).iOnline = true ∧
    ((HostileReference.addThreatPercent plainWorld offlineScenario 0 0).refs 0).iAccessible
      = true ∧
    (HostileReference.addThreatPercent plainWorld offlineScenario 0 0).iThreatContainer.iThreatList
      = [0] ∧
    (HostileReference.addThreatPercent plainWorld offlineScenario 0
      0).iThreatOfflineContainer.iThreatList = [] := by
  rw [refAddThreatPercent_zero]
  norm_num [offlineScenario, oneTargetManager, freshManager, ThreatManager.new,
    ThreatManager.apply, ThreatManager._addThreat, plainWorld,
    ThreatContainer.addThreat, ThreatManager.container, ThreatContainer.getReferenceByTarget,
    ThreatManager.newReference, ThreatContainer.addReference, HostileReference.addThreat,
    ThreatManager.setRef, HostileReference.new, HostileReference.fireStatusChanged,
    ThreatManager.processThreatEvent, ThreatManager.handleEvent,
    ThreatManager.setDirty, HostileReference.setOnlineOfflineState,
    HostileReference.setAccessibleState, ThreatContainer.remove,
    ThreatManager.SendRemoveFromThreatListOpcode, ThreatManager.setCurrentVictim,
    HostileReference.updateOnlineStatus, HostileReference.computeStatus,
    HostileReference.getSourceUnit, HostileReference.getThreat]
  simp [Function.update, ThreatManager.afterEvent, ThreatManager.updateContainer,
    ThreatContainer.update, ThreatManager.getCurrentVictim, ThreatContainer.remove,
    ThreatContainer.addReference]

/-- C19 (amended): `addThreatPercent(0)` never changes the threat of any reference.
On an online reference it changes nothing and delivers no event: the manager is
returned as it was. On an offline reference it is exactly `updateOnlineStatus()`,
which may set the reference online and deliver status events. The last part
records that a delivered event always leaves the online container clean, so a
dirty container that is returned dirty has seen no event. -/
theorem addThreatPercent_zero (w : World) (m : ThreatManager) (r : RefId) :
    (∀ x, ((HostileReference.addThreatPercent w m r 0).refs x).iThreat = (m.refs x).iThreat) ∧
    ((m.refs r).iOnline = true → HostileReference.addThreatPercent w m r 0 = m) ∧
    ((m.refs r).iOnline = false →
      HostileReference.addThreatPercent w m r 0 = HostileReference.updateOnlineStatus w m r) ∧
    (∀ ev, (m.processThreatEvent w ev).iThreatContainer.iDirty = false) := by
  refine ⟨fun x => ?_, fun h => ?_, fun h => ?_, fun ev => ?_⟩
  · rw [refAddThreatPercent_zero]
    split
    · rw [updateOnlineStatus_refs]
      by_cases hx : x = r
      · subst hx
        simp
      · simp [Function.update, hx]
    · rfl
  · rw [refAddThreatPercent_zero, if_neg (by simp [h])]
  · rw [refAddThreatPercent_zero, if_pos h]
  · rw [processThreatEvent_eq]
    rfl

/-! ## The victim goes offline -/

/-- C20 (counterexample): A (unit 10, threat 100) is the current victim and the
online list is `[A, B]` with B (unit 11, threat 90) attackable. A enters flight and
`updateOnlineStatus` runs on its reference. When the handler returns A is offline
in the offline container, B is alone in the online list and attackable, the current
victim is none and the only packet sent is the removal of A: no victim was
re-selected, although the next `getHostilTarget` selects B. -/
theorem victim_offline_no_reselection :
    (managerOf 100 90 [0, 1] (some 0)).getCurrentVictim = some 0 ∧
    ((HostileReference.updateOnlineStatus flightWorld (managerOf 100 90 [0, 1] (some 0))
      0).refs 0).iOnline = false ∧
    (HostileReference.updateOnlineStatus flightWorld (managerOf 100 90 [0, 1] (some 0))
      0).iThreatContainer.iThreatList = [1] ∧
    (HostileReference.updateOnlineStatus flightWorld (managerOf 100 90 [0, 1] (some 0))
      0).iThreatOfflineContainer.iThreatList = [0] ∧
    flightWorld.canCreatureAttack
      ((HostileReference.updateOnlineStatus flightWorld (managerOf 100 90 [0, 1] (some 0))
        0).refs 1).iUnitGuid = true ∧
    (HostileReference.updateOnlineStatus flightWorld (managerOf 100 90 [0, 1] (some 0))
      0).getCurrentVictim = none ∧
    (HostileReference.updateOnlineStatus flightWorld (managerOf 100 90 [0, 1] (some 0))
      0).sent = [Opcode.removeFromThreatList 0] ∧
    ((HostileReference.updateOnlineStatus flightWorld (managerOf 100 90 [0, 1] (some 0))
      0).getHostilTarget flightWorld).2.getCurrentVictim = some 1 := by
  decide

theorem scanPriority_none_finds (w : World) (refs : RefId → HostileReference)
    (all : List RefId) (l : List RefId)
    (h : ∃ x, x ∈ l ∧ w.canCreatureAttack (refs x).iUnitGuid = true ∧
      isSecondChoice w refs x = false) :
    ∃ y, scanPriority w refs all none l = some y := by
  induction l with
  | nil =>
    obtain ⟨x, hx, _⟩ := h
    cases hx
  | cons r rest ih =>
    obtain ⟨x, hx, hatt, hfirst⟩ := h
    unfold scanPriority
    by_cases hsc : isSecondChoice w refs r = true
    · have hne : x ≠ r := fun hxr => by rw [hxr, hsc] at hfirst; cases hfirst
      have hxrest : x ∈ rest := (List.mem_cons.1 hx).resolve_left hne
      rw [if_pos hsc, if_pos (List.ne_nil_of_mem hxrest)]
      simp only [reduceCtorEq, if_false]
      exact ih ⟨x, hxrest, hatt, hfirst⟩
    · rw [if_neg hsc]
      by_cases hr : w.canCreatureAttack (refs r).iUnitGuid = true
      · rw [if_pos hr]
        exact ⟨r, by simp [compareWithVictim]⟩
      · rw [if_neg hr]
        have hne : x ≠ r := fun hxr => by rw [hxr] at hatt; exact hr hatt
        exact ih ⟨x, (List.mem_cons.1 hx).resolve_left hne, hatt, hfirst⟩

theorem getHostilTarget_from_none (w : World) (m : ThreatManager)
    (hv : m.getCurrentVictim = none) (hclean : m.iThreatContainer.iDirty = false) :
    (m.getHostilTarget w).2.getCurrentVictim =
      match m.iOwner with
      | some o =>
        if w.isCreature o = true then m.iThreatContainer.selectNextVictim w m.refs none
        else none
      | none => none := by
  have hv' : m.iCurrentVictim = none := hv
  have hupd : m.updateContainer = m := by
    unfold ThreatManager.updateContainer ThreatContainer.update
    rw [if_neg (fun hh => by rw [hclean] at hh; exact Bool.false_ne_true hh.1)]
    cases m with
    | mk refs nextRef c off v o t cmb sent =>
      cases c
      simp only at hclean
      subst hclean
      rfl
  unfold ThreatManager.getHostilTarget
  simp only [hupd, ThreatManager.getCurrentVictim, hv']
  cases ho : m.iOwner with
  | none => simp [hv']
  | some o =>
    by_cases hc : w.isCreature o = true
    · simp only [hc, if_true]
      cases hsel : m.iThreatContainer.selectNextVictim w m.refs none with
      | none => simp [hv']
      | some x => simp [ThreatManager.setCurrentVictim]
    · simp [hc, hv']

/-- C20 (amended): when the event handler processes the online-status event of the
current victim that went offline, or the remove-from-list event of the current
victim, it clears the current victim, sends the remove-from-threat-list packet and
nothing else, takes the reference out of its container, re-runs the update of the
online container (now dirty) and returns: the current victim is none on return,
whatever the online container still holds. Whenever the handler returns with no
current victim, the next `getHostilTarget` of a creature owner sets the current
victim to the result of `selectNextVictim(owner, none)` on the online container as
the handler left it; that result is a reference whenever the container holds an
attackable reference that is not low-priority. -/
theorem processThreatEvent_victim_lost (w : World) (m : ThreatManager) (r : RefId) (d : ℚ)
    (hv : m.getCurrentVictim = some r) :
    ((m.refs r).iOnline = false →
      (m.processThreatEvent w ⟨.UEV_THREAT_REF_ONLINE_STATUS, some r, d⟩).getCurrentVictim
        = none ∧
      (m.processThreatEvent w ⟨.UEV_THREAT_REF_ONLINE_STATUS, some r, d⟩).sent
        = m.sent ++ [Opcode.removeFromThreatList r] ∧
      (m.processThreatEvent w ⟨.UEV_THREAT_REF_ONLINE_STATUS, some r, d⟩).iThreatContainer
        = ThreatContainer.update m.refs
            ⟨m.iThreatContainer.iThreatList.filter (fun x => x ≠ r), true⟩ ∧
      (m.processThreatEvent w
        ⟨.UEV_THREAT_REF_ONLINE_STATUS, some r, d⟩).iThreatOfflineContainer.iThreatList
        = m.iThreatOfflineContainer.iThreatList ++ [r]) ∧
    ((m.processThreatEvent w ⟨.UEV_THREAT_REF_REMOVE_FROM_LIST, some r, d⟩).getCurrentVictim
        = none ∧
      (m.processThreatEvent w ⟨.UEV_THREAT_REF_REMOVE_FROM_LIST, some r, d⟩).sent
        = m.sent ++ [Opcode.removeFromThreatList r] ∧
      (m.processThreatEvent w ⟨.UEV_THREAT_REF_REMOVE_FROM_LIST, some r, d⟩).iThreatContainer
        = ThreatContainer.update m.refs
            ⟨if (m.refs r).iOnline = true then
                m.iThreatContainer.iThreatList.filter (fun x => x ≠ r)
              else m.iThreatContainer.iThreatList, true⟩) ∧
    (∀ (ev : ThreatRefStatusChangeEvent) (w2 : World),
      (m.processThreatEvent w ev).getCurrentVictim = none →
      ((m.processThreatEvent w ev).getHostilTarget w2).2.getCurrentVictim =
        match (m.processThreatEvent w ev).iOwner with
        | some o =>
          if w2.isCreature o = true then
            (m.processThreatEvent w ev).iThreatContainer.selectNextVictim w2
              (m.processThreatEvent w ev).refs none
          else none
        | none => none) ∧
    (∀ (w2 : World) (refs : RefId → HostileReference) (c : ThreatContainer),
      (∃ x, x ∈ c.iThreatList ∧ w2.canCreatureAttack (refs x).iUnitGuid = true ∧
        isSecondChoice w2 refs x = false) →
      ∃ y, c.selectNextVictim w2 refs none = some y) := by
  have hv' : m.iCurrentVictim = some r := hv
  refine ⟨fun hoff => ?_, ?_, fun ev w2 hnone => ?_, fun w2 refs c hx => ?_⟩
  · rw [processThreatEvent_eq]
    simp [ThreatManager.handleEvent, hoff, hv', ThreatManager.getCurrentVictim,
      ThreatManager.setDirty, ThreatManager.setCurrentVictim,
      ThreatManager.SendRemoveFromThreatListOpcode, ThreatContainer.remove,
      ThreatContainer.addReference, ThreatManager.updateContainer]
  · rw [processThreatEvent_eq]
    by_cases hon : (m.refs r).iOnline = true
    · simp [ThreatManager.handleEvent, hon, hv', ThreatManager.getCurrentVictim,
        ThreatManager.setDirty, ThreatManager.setCurrentVictim,
        ThreatManager.SendRemoveFromThreatListOpcode, ThreatContainer.remove,
        ThreatManager.updateContainer]
    · simp [ThreatManager.handleEvent, hon, hv', ThreatManager.getCurrentVictim,
        ThreatManager.setDirty, ThreatManager.setCurrentVictim,
        ThreatManager.SendRemoveFromThreatListOpcode, ThreatContainer.remove,
        ThreatManager.updateContainer]
  · exact getHostilTarget_from_none w2 _ hnone (by rw [processThreatEvent_eq]; rfl)
  · exact scanPriority_none_finds w2 refs c.iThreatList c.iThreatList hx

/-- C20 witness: A is the current victim of the list `[A, B]` and is removed from
the list; B stays alone, no victim is selected. The next `getHostilTarget` selects
B for an owner that can attack it, and leaves the victim none for an owner that can
attack nobody. -/
theorem processThreatEvent_victim_lost_witness :
    (managerOf 100 90 [0, 1] (some 0)).getCurrentVictim = some 0 ∧
    ((managerOf 100 90 [0, 1] (some 0)).processThreatEvent plainWorld
      ⟨.UEV_THREAT_REF_REMOVE_FROM_LIST, some 0, 0⟩).getCurrentVictim = none ∧
    ((managerOf 100 90 [0, 1] (some 0)).processThreatEvent plainWorld
      ⟨.UEV_THREAT_REF_REMOVE_FROM_LIST, some 0, 0⟩).sent = [Opcode.removeFromThreatList 0] ∧
    ((managerOf 100 90 [0, 1] (some 0)).processThreatEvent plainWorld
      ⟨.UEV_THREAT_REF_REMOVE_FROM_LIST, some 0, 0⟩).iThreatContainer = ⟨[1], false⟩ ∧
    (((managerOf 100 90 [0, 1] (some 0)).processThreatEvent plainWorld
      ⟨.UEV_THREAT_REF_REMOVE_FROM_LIST, some 0, 0⟩).getHostilTarget
        plainWorld).2.getCurrentVictim = some 1 ∧
    (((managerOf 100 90 [0, 1] (some 0)).processThreatEvent plainWorld
      ⟨.UEV_THREAT_REF_REMOVE_FROM_LIST, some 0, 0⟩).getHostilTarget
        pacifiedWorld).2.getCurrentVictim = none := by
  have h := processThreatEvent_victim_lost plainWorld (managerOf 100 90 [0, 1] (some 0)) 0 0
    rfl
  refine ⟨rfl, h.2.1.1, ?_, ?_, ?_, ?_⟩
  · simpa [managerOf] using h.2.1.2.1
  · rw [h.2.1.2.2]
    decide
  · rw [h.2.2.1 ⟨.UEV_THREAT_REF_REMOVE_FROM_LIST, some 0, 0⟩ plainWorld h.2.1.1]
    decide
  · rw [h.2.2.1 ⟨.UEV_THREAT_REF_REMOVE_FROM_LIST, some 0, 0⟩ pacifiedWorld h.2.1.1]
    decide

/-! ## Only attackable references are selected -/

theorem compareWithVictim_attackable {w : World} {refs : RefId → HostileReference}
    {r x : RefId} {cv : Option RefId} (hr : w.canCreatureAttack (refs r).iUnitGuid = true)
    (h : compareWithVictim w refs r cv = some x) :
    w.canCreatureAttack (refs x).iUnitGuid = true := by
  unfold compareWithVictim at h
  cases cv with
  | none =>
    simp at h
    rw [← h]; exact hr
  | some v =>
    simp only at h
    split at h
    · split at h
      · rename_i hv
        simp at h
        rw [← h]; exact hv.2
      · simp at h
        rw [← h]; exact hr
    · split at h
      · simp at h
        rw [← h]; exact hr
      · simp at h

theorem scanNoPriority_attackable {w : World} {refs : RefId → HostileReference}
    {cv : Option RefId} {x : RefId} (l : List RefId)
    (h : scanNoPriority w refs cv l = some x) :
    w.canCreatureAttack (refs x).iUnitGuid = true ∧
      ∃ r, r ∈ l ∧ w.canCreatureAttack (refs r).iUnitGuid = true := by
  induction l with
  | nil => simp [scanNoPriority] at h
  | cons r rest ih =>
    unfold scanNoPriority at h
    split at h
    · rename_i hr
      split at h
      · rename_i y hy
        simp at h
        subst h
        exact ⟨compareWithVictim_attackable hr hy, r, List.mem_cons_self _ _, hr⟩
      · obtain ⟨h1, q, hq, hq'⟩ := ih h
        exact ⟨h1, q, List.mem_cons_of_mem _ hq, hq'⟩
    · obtain ⟨h1, q, hq, hq'⟩ := ih h
      exact ⟨h1, q, List.mem_cons_of_mem _ hq, hq'⟩

theorem scanPriority_attackable {w : World} {refs : RefId → HostileReference}
    {all : List RefId} {x : RefId} (l : List RefId) :
    ∀ cv : Option RefId, scanPriority w refs all cv l = some x →
      w.canCreatureAttack (refs x).iUnitGuid = true ∧
        ∃ r, (r ∈ l ∨ r ∈ all) ∧ w.canCreatureAttack (refs r).iUnitGuid = true := by
  induction l with
  | nil => intro cv h; simp [scanPriority] at h
  | cons r rest ih =>
    intro cv h
    unfold scanPriority at h
    split at h
    · split at h
      · obtain ⟨h1, q, hq, hq'⟩ := ih _ h
        exact ⟨h1, q, hq.imp (List.mem_cons_of_mem _) id, hq'⟩
      · obtain ⟨h1, q, hq, hq'⟩ := scanNoPriority_attackable all h
        exact ⟨h1, q, Or.inr hq, hq'⟩
    · split at h
      · rename_i hr
        split at h
        · rename_i y hy
          simp at h
          subst h
          exact ⟨compareWithVictim_attackable hr hy, r, Or.inl (List.mem_cons_self _ _), hr⟩
        · obtain ⟨h1, q, hq, hq'⟩ := ih _ h
          exact ⟨h1, q, hq.imp (List.mem_cons_of_mem _) id, hq'⟩
      · obtain ⟨h1, q, hq, hq'⟩ := ih _ h
        exact ⟨h1, q, hq.imp (List.mem_cons_of_mem _) id, hq'⟩

/-- C21: for every online list and every current victim, `selectNextVictim` returns
none on the empty list and whenever no reference of the list is attackable by the
owner, and every reference it returns satisfies the owner's `canCreatureAttack`. -/
theorem selectNextVictim_only_attackable (w : World) (refs : RefId → HostileReference)
    (c : ThreatContainer) (currentVictim : Option RefId) :
    (c.iThreatList = [] → c.selectNextVictim w refs currentVictim = none) ∧
    ((∀ r, r ∈ c.iThreatList → w.canCreatureAttack (refs r).iUnitGuid = false) →
      c.selectNextVictim w refs currentVictim = none) ∧
    (∀ x, c.selectNextVictim w refs currentVictim = some x →
      w.canCreatureAttack (refs x).iUnitGuid = true) := by
  have hnone : (∀ r, r ∈ c.iThreatList → w.canCreatureAttack (refs r).iUnitGuid = false) →
      c.selectNextVictim w refs currentVictim = none := by
    intro hall
    cases hsel : c.selectNextVictim w refs currentVictim with
    | none => rfl
    | some x =>
      obtain ⟨_, q, hq, hq'⟩ := scanPriority_attackable c.iThreatList currentVictim hsel
      have := hall q (hq.elim id id)
      rw [this] at hq'
      cases hq'
  refine ⟨fun he => hnone (fun r hr => ?_), hnone, fun x hx => ?_⟩
  · rw [he] at hr
    cases hr
  · exact (scanPriority_attackable c.iThreatList currentVictim hx).1

/-- C21 witness: with A and B in the list, an owner that can attack nobody gets
none, and an owner that can attack everybody gets A, which is attackable. -/
theorem selectNextVictim_only_attackable_witness :
    ThreatContainer.selectNextVictim pacifiedWorld (twoRefs 100 90) ⟨[0, 1], false⟩ (some 0)
      = none ∧
    ThreatContainer.selectNextVictim plainWorld (twoRefs 100 90) ⟨[0, 1], false⟩ none
      = some 0 ∧
    plainWorld.canCreatureAttack (twoRefs 100 90 0).iUnitGuid = true :=
  ⟨(selectNextVictim_only_attackable pacifiedWorld (twoRefs 100 90) ⟨[0, 1], false⟩
      (some 0)).2.1 (fun _ _ => rfl),
    by decide,
    (selectNextVictim_only_attackable plainWorld (twoRefs 100 90) ⟨[0, 1], false⟩ none).2.2 0
      (by decide)⟩

/-! ## Termination of the scan loop -/

theorem loopCondition_at (pre : List RefId) (r : RefId) (rest : List RefId) (s : ScanState)
    (hi : s.iter = pre.length) (hf : s.found = false) :
    loopCondition (pre ++ r :: rest) s = true := by
  simp [loopCondition, hi, hf]

theorem loopCondition_found (l : List RefId) (s : ScanState) (hf : s.found = true) :
    loopCondition l s = false := by
  simp [loopCondition, hf]

theorem loopCondition_end (l : List RefId) (s : ScanState) (hi : s.iter = l.length) :
    loopCondition l s = false := by
  simp [loopCondition, hi]

theorem runLoop_exit (w : World) (refs : RefId → HostileReference) (l : List RefId)
    (fuel : Nat) (s : ScanState) (h : loopCondition l s = false) :
    runLoop w refs l fuel s = some s := by
  cases fuel <;> simp [runLoop, h]

theorem runLoop_iterate (w : World) (refs : RefId → HostileReference) (l : List RefId)
    (fuel : Nat) (s : ScanState) (h : loopCondition l s = true) :
    runLoop w refs l (fuel + 1) s = runLoop w refs l fuel (loopBody w refs l s) := by
  simp [runLoop, h]

theorem getElem_at_prefix (pre : List RefId) (r : RefId) (rest : List RefId) :
    (pre ++ r :: rest)[pre.length]? = some r := by
  rw [List.getElem?_append_right (le_refl _)]
  simp

/-- Second pass: with `noPriorityTargetFound` set the loop runs to its end in at
most one iteration per remaining element, examines consecutive positions, does
not restart, and its result is `scanNoPriority` on the remaining elements. -/
theorem runLoop_noPriority (w : World) (refs : RefId → HostileReference) (suf : List RefId) :
    ∀ (pre : List RefId) (s : ScanState) (fuel : Nat), s.iter = pre.length →
      s.found = false → s.noPriorityTargetFound = true → suf.length ≤ fuel →
      ∃ s1 m, runLoop w refs (pre ++ suf) fuel s = some s1 ∧ s1.restarts = s.restarts ∧
        m ≤ suf.length ∧
        s1.examined = (List.range' pre.length m).reverse ++ s.examined ∧
        s1.result = scanNoPriority w refs s.currentVictim suf := by
  induction suf with
  | nil =>
    intro pre s fuel hi hf _ _
    refine ⟨s, 0, runLoop_exit w refs _ fuel s (loopCondition_end _ s (by simpa using hi)),
      rfl, le_refl _, by simp, ?_⟩
    simp [ScanState.result, hf, scanNoPriority]
  | cons r rest ih =>
    intro pre s fuel hi hf hnp hfuel
    obtain ⟨f, rfl⟩ : ∃ f, fuel = f + 1 := ⟨fuel - 1, by simp at hfuel; omega⟩
    have hf' : rest.length ≤ f := by simp at hfuel; omega
    rw [runLoop_iterate w refs _ f s (loopCondition_at pre r rest s hi hf)]
    have hlist : pre ++ r :: rest = (pre ++ [r]) ++ rest := by simp
    have hbody : loopBody w refs (pre ++ r :: rest) s =
        if w.canCreatureAttack (refs r).iUnitGuid = true then
          match compareWithVictim w refs r s.currentVictim with
          | some x => { s with currentRef := some x, examined := s.iter :: s.examined,
                               found := true }
          | none => { s with currentRef := some r, examined := s.iter :: s.examined,
                             iter := s.iter + 1 }
        else { s with currentRef := some r, examined := s.iter :: s.examined,
                      iter := s.iter + 1 } := by
      unfold loopBody
      rw [hi, getElem_at_prefix]
      simp only [hnp, Bool.true_eq_false, false_and, if_false]
    rw [hbody]
    unfold scanNoPriority
    by_cases hatt : w.canCreatureAttack (refs r).iUnitGuid = true
    · rw [if_pos hatt, if_pos hatt]
      cases hcmp : compareWithVictim w refs r s.currentVictim with
      | some x =>
        refine ⟨_, 1, runLoop_exit w refs _ f _ (loopCondition_found _ _ rfl), rfl,
          by simp, by simp [List.range', hi], ?_⟩
        simp [ScanState.result]
      | none =>
        obtain ⟨s1, m, hrun, hres, hm, hex, hr⟩ := ih (pre ++ [r])
          { s with currentRef := some r, examined := s.iter :: s.examined, iter := s.iter + 1 }
          f (by simp [hi]) hf hnp hf'
        refine ⟨s1, m + 1, ?_, hres, by simp; omega, ?_, hr⟩
        · simp only []
          rw [hlist]
          exact hrun
        · rw [hex]
          simp [List.range'_succ, hi]
    · rw [if_neg hatt, if_neg hatt]
      obtain ⟨s1, m, hrun, hres, hm, hex, hr⟩ := ih (pre ++ [r])
        { s with currentRef := some r, examined := s.iter :: s.examined, iter := s.iter + 1 }
        f (by simp [hi]) hf hnp hf'
      refine ⟨s1, m + 1, ?_, hres, by simp; omega, ?_, hr⟩
      · rw [hlist]
        exact hrun
      · rw [hex]
        simp [List.range'_succ, hi]

theorem last_position_iff (pre : List RefId) (r : RefId) (rest : List RefId) :
    pre.length ≠ (pre ++ r :: rest).length - 1 ↔ rest ≠ [] := by
  cases rest with
  | nil => simp
  | cons a t => simp

/-- First pass: from position `pre.length` with `noPriorityTargetFound` clear the
loop runs to its end within one iteration per remaining element plus one per
element of the list, restarts at most once, and its result is `scanPriority` on the
remaining elements. Without restart it examined consecutive positions; with the
restart it examined the remaining positions and then consecutive positions from the
head. -/
theorem runLoop_priority (w : World) (refs : RefId → HostileReference) (suf : List RefId) :
    ∀ (pre : List RefId) (s : ScanState) (fuel : Nat), s.iter = pre.length →
      s.found = false → s.noPriorityTargetFound = false →
      suf.length + (pre ++ suf).length ≤ fuel →
      ∃ s1, runLoop w refs (pre ++ suf) fuel s = some s1 ∧
        s1.result = scanPriority w refs (pre ++ suf) s.currentVictim suf ∧
        ((s1.restarts = s.restarts ∧ ∃ m, m ≤ suf.length ∧
            s1.examined = (List.range' pre.length m).reverse ++ s.examined) ∨
         (s1.restarts = s.restarts + 1 ∧ ∃ m, m ≤ (pre ++ suf).length ∧
            s1.examined = (List.range' 0 m).reverse ++
              ((List.range' pre.length suf.length).reverse ++ s.examined))) := by
  induction suf with
  | nil =>
    intro pre s fuel hi hf _ _
    refine ⟨s, runLoop_exit w refs _ fuel s (loopCondition_end _ s (by simpa using hi)), ?_,
      Or.inl ⟨rfl, 0, le_refl _, by simp⟩⟩
    simp [ScanState.result, hf, scanPriority]
  | cons r rest ih =>
    intro pre s fuel hi hf hnp hfuel
    obtain ⟨f, rfl⟩ : ∃ f, fuel = f + 1 := ⟨fuel - 1, by simp at hfuel; omega⟩
    have hf' : rest.length + ((pre ++ [r]) ++ rest).length ≤ f := by simp at hfuel ⊢; omega
    have hfall : (pre ++ r :: rest).length ≤ f := by simp at hfuel ⊢; omega
    rw [runLoop_iterate w refs _ f s (loopCondition_at pre r rest s hi hf)]
    have hlist : pre ++ r :: rest = (pre ++ [r]) ++ rest := by simp
    have hadvance : ∀ cv : Option RefId,
        ∃ s1, runLoop w refs (pre ++ r :: rest) f
            { s with currentRef := some r, examined := s.iter :: s.examined,
                     currentVictim := cv, iter := s.iter + 1 } = some s1 ∧
          s1.result = scanPriority w refs (pre ++ r :: rest) cv rest ∧
          ((s1.restarts = s.restarts ∧ ∃ m, m ≤ (r :: rest).length ∧
              s1.examined = (List.range' pre.length m).reverse ++ s.examined) ∨
           (s1.restarts = s.restarts + 1 ∧ ∃ m, m ≤ (pre ++ r :: rest).length ∧
              s1.examined = (List.range' 0 m).reverse ++
                ((List.range' pre.length (r :: rest).length).reverse ++ s.examined))) := by
      intro cv
      obtain ⟨s1, hrun, hr, hex⟩ := ih (pre ++ [r])
        { s with currentRef := some r, examined := s.iter :: s.examined,
                 currentVictim := cv, iter := s.iter + 1 }
        f (by simp [hi]) hf hnp hf'
      rw [← hlist] at hrun hr hex
      refine ⟨s1, hrun, hr, ?_⟩
      rcases hex with ⟨h1, m, hm, he⟩ | ⟨h1, m, hm, he⟩
      · refine Or.inl ⟨h1, m + 1, by simp; omega, ?_⟩
        rw [he]
        simp [List.range'_succ, hi]
      · refine Or.inr ⟨h1, m, hm, ?_⟩
        rw [he]
        simp [List.range'_succ, hi]
    unfold scanPriority
    by_cases hsc : isSecondChoice w refs r = true
    · rw [if_pos hsc]
      by_cases hrest : rest ≠ []
      · rw [if_pos hrest]
        have hbody : loopBody w refs (pre ++ r :: rest) s =
            { s with currentRef := some r, examined := s.iter :: s.examined,
                     currentVictim := if some r = s.currentVictim then none else s.currentVictim,
                     iter := s.iter + 1 } := by
          unfold loopBody
          rw [hi, getElem_at_prefix]
          simp only [hnp, hsc, and_self, if_true, hi, last_position_iff, hrest, ne_eq,
            not_false_eq_true]
        rw [hbody]
        exact hadvance _
      · rw [if_neg hrest]
        have hbody : loopBody w refs (pre ++ r :: rest) s =
            { s with currentRef := some r, examined := s.iter :: s.examined,
                     noPriorityTargetFound := true, iter := 0,
                     restarts := s.restarts + 1 } := by
          unfold loopBody
          rw [hi, getElem_at_prefix]
          simp only [hnp, hsc, and_self, if_true, hi, last_position_iff, hrest, if_false]
        rw [hbody]
        obtain ⟨s1, m, hrun, hres, hm, hex, hr⟩ := runLoop_noPriority w refs (pre ++ r :: rest) []
          { s with currentRef := some r, examined := s.iter :: s.examined,
                   noPriorityTargetFound := true, iter := 0, restarts := s.restarts + 1 }
          f rfl hf rfl hfall
        rw [List.nil_append] at hrun
        refine ⟨s1, hrun, hr, Or.inr ⟨hres, m, hm, ?_⟩⟩
        rw [hex]
        have : rest = [] := not_not.mp hrest
        subst this
        simp [List.range', hi]
    · rw [if_neg hsc]
      have hbody : loopBody w refs (pre ++ r :: rest) s =
          if w.canCreatureAttack (refs r).iUnitGuid = true then
            match compareWithVictim w refs r s.currentVictim with
            | some x => { s with currentRef := some x, examined := s.iter :: s.examined,
                                 found := true }
            | none => { s with currentRef := some r, examined := s.iter :: s.examined,
                               iter := s.iter + 1 }
          else { s with currentRef := some r, examined := s.iter :: s.examined,
                        iter := s.iter + 1 } := by
        unfold loopBody
        rw [hi, getElem_at_prefix]
        simp only [hsc, Bool.false_eq_true, and_false, if_false]
      rw [hbody]
      by_cases hatt : w.canCreatureAttack (refs r).iUnitGuid = true
      · rw [if_pos hatt, if_pos hatt]
        cases hcmp : compareWithVictim w refs r s.currentVictim with
        | some x =>
          refine ⟨_, runLoop_exit w refs _ f _ (loopCondition_found _ _ rfl), ?_,
            Or.inl ⟨rfl, 1, by simp, by simp [List.range', hi]⟩⟩
          simp [ScanState.result]
        | none => exact hadvance _
      · rw [if_neg hatt, if_neg hatt]
        exact hadvance _

theorem runLoop_some_exit (w : World) (refs : RefId → HostileReference) (l : List RefId) :
    ∀ (fuel : Nat) (s s1 : ScanState), runLoop w refs l fuel s = some s1 →
      loopCondition l s1 = false := by
  intro fuel
  induction fuel with
  | zero =>
    intro s s1 h
    unfold runLoop at h
    split at h
    · cases h
    · rename_i hc
      cases h
      simpa using hc
  | succ f ih =>
    intro s s1 h
    unfold runLoop at h
    split at h
    · exact ih _ _ h
    · rename_i hc
      cases h
      simpa using hc

theorem count_range_reverse_le_one (a m i : Nat) : (List.range' a m).reverse.count i ≤ 1 := by
  rw [List.count_reverse]
  exact List.nodup_iff_count_le_one.mp (List.nodup_range' a m) i

/-- C22: for every list, every assignment of the predicates of the world and every
current victim, the scan loop of `selectNextVictim` leaves through its loop
condition within twice the length of the list iterations (any larger allowance
gives the same final variables). The restart to the head happens at most once, no
position is examined more than twice, every examined position is inside the list,
and the value returned is the one computed by `ThreatContainer.selectNextVictim`. -/
theorem selectNextVictim_loop_terminates (w : World) (refs : RefId → HostileReference)
    (c : ThreatContainer) (currentVictim : Option RefId) (fuel : Nat)
    (hfuel : 2 * c.iThreatList.length ≤ fuel) :
    ∃ s, runLoop w refs c.iThreatList fuel (ScanState.start currentVictim) = some s ∧
      loopCondition c.iThreatList s = false ∧
      s.restarts ≤ 1 ∧
      (∀ i, s.examined.count i ≤ 2) ∧
      (∀ i, i ∈ s.examined → i < c.iThreatList.length) ∧
      s.examined.length ≤ 2 * c.iThreatList.length ∧
      s.result = c.selectNextVictim w refs currentVictim := by
  obtain ⟨s, hrun, hres, hex⟩ := runLoop_priority w refs c.iThreatList []
    (ScanState.start currentVictim) fuel rfl rfl rfl (by simp; omega)
  rw [List.nil_append] at hrun hres hex
  refine ⟨s, hrun, runLoop_some_exit w refs _ fuel _ s hrun, ?_, ?_, ?_, ?_, hres⟩
  · rcases hex with ⟨h1, _⟩ | ⟨h1, _⟩
    · rw [h1]; simp [ScanState.start]
    · rw [h1]; simp [ScanState.start]
  · intro i
    rcases hex with ⟨_, m, _, he⟩ | ⟨_, m, _, he⟩
    · rw [he]
      simp only [ScanState.start, List.append_nil]
      exact le_trans (count_range_reverse_le_one _ _ i) (by decide)
    · rw [he]
      simp only [ScanState.start, List.append_nil, List.count_append]
      have h1 := count_range_reverse_le_one 0 m i
      have h2 := count_range_reverse_le_one ([] : List RefId).length c.iThreatList.length i
      omega
  · intro i hi
    rcases hex with ⟨_, m, hm, he⟩ | ⟨_, m, hm, he⟩
    · rw [he] at hi
      simp [ScanState.start, List.mem_range'_1] at hi
      omega
    · rw [he] at hi
      simp [ScanState.start, List.mem_range'_1] at hi
      omega
  · rcases hex with ⟨_, m, hm, he⟩ | ⟨_, m, hm, he⟩
    · rw [he]
      simp [ScanState.start]
      omega
    · rw [he]
      simp [ScanState.start]
      omega

/-- C22 witness: the all-immune scenario (A = 200, B = 50, no current victim). The
first pass examines both positions and restarts, the second pass stops at the head:
positions 0, 1, 0 were examined, one restart. Two iterations are not enough. -/
theorem selectNextVictim_loop_terminates_witness :
    runLoop allImmuneWorld (twoRefs 200 50) [0, 1] 4 (ScanState.start none) =
      some { iter := 0, currentRef := some 0, currentVictim := none, found := true,
             noPriorityTargetFound := true, examined := [0, 1, 0], restarts := 1 } ∧
    runLoop allImmuneWorld (twoRefs 200 50) [0, 1] 2 (ScanState.start none) = none ∧
    ∃ s, runLoop allImmuneWorld (twoRefs 200 50) [0, 1] 4 (ScanState.start none) = some s ∧
      loopCondition [0, 1] s = false ∧
      s.restarts ≤ 1 ∧
      (∀ i, s.examined.count i ≤ 2) ∧
      (∀ i, i ∈ s.examined → i < 2) ∧
      s.examined.length ≤ 2 * 2 ∧
      s.result = ThreatContainer.selectNextVictim allImmuneWorld (twoRefs 200 50)
        ⟨[0, 1], false⟩ none :=
  ⟨by decide, by decide,
    selectNextVictim_loop_terminates allImmuneWorld (twoRefs 200 50) ⟨[0, 1], false⟩ none 4
      (by decide)⟩

/-! ## Concrete reachable states -/

theorem scenarioOne_eq :
    scenarioOne =
      { refs := Function.update (Function.update (fun _ => HostileReference.new 0 0) 0
          (HostileReference.new 10 100)) 1 (HostileReference.new 11 90),
        nextRef := 2, iThreatContainer := ⟨[0, 1], false⟩,
        iThreatOfflineContainer := ⟨[], false⟩, iCurrentVictim := none, iOwner := some 1,
        iUpdateTimer := 1000, inCombatWith := [], sent := [] } := by
  norm_num [scenarioOne, freshManager, ThreatManager.new, ThreatManager.addThreat,
    ThreatCalcHelper.isValidProcess, ThreatManager.getOwner, plainWorld,
    ThreatCalcHelper.calcThreat, ThreatManager.doAddThreat, ThreatManager._addThreat,
    ThreatContainer.addThreat, ThreatManager.container, ThreatContainer.getReferenceByTarget,
    ThreatManager.newReference, ThreatContainer.addReference, HostileReference.addThreat,
    ThreatManager.setRef, HostileReference.new, HostileReference.fireStatusChanged,
    ThreatManager.processThreatEvent, ThreatManager.handleEvent, ThreatManager.afterEvent,
    ThreatManager.updateContainer, ThreatContainer.update, ThreatManager.getCurrentVictim,
    ThreatManager.setDirty, List.insertionSort, List.orderedInsert,
    ThreatOrderPred, HostileReference.effectiveThreat]

theorem victimScenario_eq :
    victimScenario =
      { refs := Function.update (Function.update (fun _ => HostileReference.new 0 0) 0
          (HostileReference.new 10 100)) 1 (HostileReference.new 11 90),
        nextRef := 2, iThreatContainer := ⟨[0, 1], false⟩,
        iThreatOfflineContainer := ⟨[], false⟩, iCurrentVictim := some 0, iOwner := some 1,
        iUpdateTimer := 1000, inCombatWith := [],
        sent := [Opcode.changeCurrentVictim 0] } := by
  unfold victimScenario
  rw [scenarioOne_eq]
  norm_num [ThreatManager.apply, plainWorld, HostileReference.new,
    ThreatManager.updateContainer, ThreatContainer.update, ThreatManager.getCurrentVictim,
    HostileReference.getThreat, ThreatManager.getHostilTarget, ThreatContainer.selectNextVictim,
    scanPriority, isSecondChoice, compareWithVictim, ThreatManager.setCurrentVictim]
  simp

theorem flightStep_eq :
    scenarioOne.apply flightWorld (.updateOnlineStatus 0) =
      { refs := Function.update (Function.update (Function.update
            (fun _ => HostileReference.new 0 0) 0 (HostileReference.new 10 100)) 1
            (HostileReference.new 11 90)) 0
          { HostileReference.new 10 100 with iOnline := false, iAccessible := false },
        nextRef := 2, iThreatContainer := ⟨[1], false⟩,
        iThreatOfflineContainer := ⟨[0], true⟩, iCurrentVictim := none, iOwner := some 1,
        iUpdateTimer := 1000, inCombatWith := [],
        sent := [Opcode.removeFromThreatList 0] } := by
  rw [scenarioOne_eq]
  norm_num [ThreatManager.apply, flightWorld, plainWorld, HostileReference.new,
    ThreatManager.setRef, HostileReference.fireStatusChanged,
    ThreatManager.processThreatEvent, ThreatManager.handleEvent,
    ThreatManager.setDirty, HostileReference.setOnlineOfflineState,
    HostileReference.setAccessibleState, ThreatContainer.remove, ThreatContainer.addReference,
    ThreatManager.SendRemoveFromThreatListOpcode, ThreatManager.setCurrentVictim,
    HostileReference.updateOnlineStatus, HostileReference.computeStatus,
    HostileReference.getSourceUnit]
  simp [ThreatManager.afterEvent, ThreatManager.updateContainer,
    ThreatContainer.update, ThreatManager.getCurrentVictim, ThreatContainer.remove,
    ThreatContainer.addReference]

theorem mixedScenario_eq :
    mixedScenario =
      { refs := Function.update (Function.update (Function.update (Function.update
            (fun _ => HostileReference.new 0 0) 0 (HostileReference.new 10 100)) 1
            (HostileReference.new 11 90)) 0
          { HostileReference.new 10 100 with iOnline := false, iAccessible := false }) 2
          (HostileReference.new 12 50),
        nextRef := 3, iThreatContainer := ⟨[1, 2], false⟩,
        iThreatOfflineContainer := ⟨[0], true⟩, iCurrentVictim := none, iOwner := some 1,
        iUpdateTimer := 1000, inCombatWith := [],
        sent := [Opcode.removeFromThreatList 0] } := by
  unfold mixedScenario
  rw [flightStep_eq]
  norm_num [ThreatManager.apply, plainWorld, HostileReference.new, ThreatManager._addThreat,
    ThreatContainer.addThreat, ThreatManager.container, ThreatContainer.getReferenceByTarget,
    ThreatManager.newReference, ThreatContainer.addReference, HostileReference.addThreat,
    ThreatManager.setRef, HostileReference.fireStatusChanged,
    ThreatManager.processThreatEvent, ThreatManager.handleEvent,
    ThreatManager.setDirty, List.insertionSort, List.orderedInsert,
    ThreatOrderPred, HostileReference.effectiveThreat]
  simp [ThreatManager.afterEvent, ThreatManager.updateContainer,
    ThreatContainer.update, ThreatManager.getCurrentVictim, List.insertionSort,
    List.orderedInsert, ThreatOrderPred, HostileReference.effectiveThreat]
  norm_num

theorem reachable_victimScenario : Reachable true victimScenario :=
  Reachable.step plainWorld .getHostilTarget
    (Reachable.step plainWorld (.addThreat (some 11) 90 0 none)
      (Reachable.step plainWorld (.addThreat (some 10) 100 0 none)
        (Reachable.new plainWorld (some 1)) rfl (fun h => by simp [Op.removes] at h))
      rfl (fun h => by simp [Op.removes] at h))
    rfl (fun h => by simp [Op.removes] at h)

theorem reachable_mixedScenario : Reachable false mixedScenario :=
  Reachable.step plainWorld (.addThreatDirect (some 12) 50)
    (Reachable.step flightWorld (.updateOnlineStatus 0) reachable_scenarioOne
      (by rw [scenarioOne_eq]; decide)
      (fun h => by simp [Op.removes] at h))
    rfl (fun h => by simp [Op.removes] at h)

/-- C6 witness: Scenario 1, then A (unit 10) goes offline in flight, then a third
unit C (unit 12) is added. The three references created are A at address 0, held by
the offline container only with its online flag clear, and B, C at addresses 1, 2,
held by the online container only with their flags set; the GUIDs across the two
containers are 11, 12, 10. -/
theorem reachable_exactly_one_container_witness :
    Reachable false mixedScenario ∧
    mixedScenario.nextRef = 3 ∧
    mixedScenario.iThreatContainer.iThreatList = [1, 2] ∧
    mixedScenario.iThreatOfflineContainer.iThreatList = [0] ∧
    (mixedScenario.refs 0).iOnline = false ∧
    (mixedScenario.refs 1).iOnline = true ∧
    (mixedScenario.refs 2).iOnline = true ∧
    (mixedScenario.iThreatContainer.iThreatList ++
        mixedScenario.iThreatOfflineContainer.iThreatList).map
      (fun r => (mixedScenario.refs r).iUnitGuid) = [11, 12, 10] ∧
    ((∀ r, r < mixedScenario.nextRef →
      ((r ∈ mixedScenario.iThreatContainer.iThreatList ∧
          r ∉ mixedScenario.iThreatOfflineContainer.iThreatList) ∨
        (r ∉ mixedScenario.iThreatContainer.iThreatList ∧
          r ∈ mixedScenario.iThreatOfflineContainer.iThreatList)) ∧
      (r ∈ mixedScenario.iThreatContainer.iThreatList ↔
        (mixedScenario.refs r).iOnline = true)) ∧
    mixedScenario.iThreatContainer.iThreatList.Nodup ∧
    mixedScenario.iThreatOfflineContainer.iThreatList.Nodup ∧
    ((mixedScenario.iThreatContainer.iThreatList ++
        mixedScenario.iThreatOfflineContainer.iThreatList).map
      (fun r => (mixedScenario.refs r).iUnitGuid)).Nodup) := by
  refine ⟨reachable_mixedScenario, ?_, ?_, ?_, ?_, ?_, ?_, ?_,
    reachable_exactly_one_container mixedScenario reachable_mixedScenario⟩ <;>
  first
  | (rw [mixedScenario_eq]; done)
  | (rw [mixedScenario_eq]; decide)

/-- C7 witness: Scenario 1 after the first `getHostilTarget`. The current victim is
A at address 0, which is in the online list `[A, B]` with its online flag set. When
A is removed from the list, or its online flag is cleared and the online-status event
is processed, the current victim is none on return. -/
theorem reachable_currentVictim_witness :
    Reachable true victimScenario ∧
    victimScenario.getCurrentVictim = some 0 ∧
    victimScenario.iThreatContainer.iThreatList = [0, 1] ∧
    (0 ∈ victimScenario.iThreatContainer.iThreatList ∧
      (victimScenario.refs 0).iOnline = true) ∧
    ((victimScenario.setRef 0 { victimScenario.refs 0 with iOnline := false }).processThreatEvent
      flightWorld ⟨.UEV_THREAT_REF_ONLINE_STATUS, some 0, 0⟩).getCurrentVictim = none ∧
    (victimScenario.processThreatEvent plainWorld
      ⟨.UEV_THREAT_REF_REMOVE_FROM_LIST, some 0, 0⟩).getCurrentVictim = none := by
  have hv : victimScenario.getCurrentVictim = some 0 := by
    rw [victimScenario_eq]
    rfl
  have hl : victimScenario.iThreatContainer.iThreatList = [0, 1] := by
    rw [victimScenario_eq]
  have h := reachable_currentVictim victimScenario reachable_victimScenario
  refine ⟨reachable_victimScenario, hv, hl, h.1 0 hv, ?_, ?_⟩
  · exact (h.2 flightWorld
      (victimScenario.setRef 0 { victimScenario.refs 0 with iOnline := false }) 0 0 hv).1
      (by simp [ThreatManager.setRef])
  · exact (h.2 plainWorld victimScenario 0 0 hv).2

/-- C13 witness: the reference of unit 10 in the manager of owner 1. With everything
in reach it ends `(true, true)`; with the unit in flight, or on another map than the
owner, `(false, false)`; with no accessible place but within combat range
`(true, false)`. -/
theorem updateOnlineStatus_table_witness :
    (managerOf 100 90 [0, 1] none).iOwner = some 1 ∧
    (((HostileReference.updateOnlineStatus plainWorld (managerOf 100 90 [0, 1] none) 0).refs
        0).iOnline,
      ((HostileReference.updateOnlineStatus plainWorld (managerOf 100 90 [0, 1] none) 0).refs
        0).iAccessible) = (true, true) ∧
    (((HostileReference.updateOnlineStatus flightWorld (managerOf 100 90 [0, 1] none) 0).refs
        0).iOnline,
      ((HostileReference.updateOnlineStatus flightWorld (managerOf 100 90 [0, 1] none) 0).refs
        0).iAccessible) = (false, false) ∧
    (((HostileReference.updateOnlineStatus otherMapWorld (managerOf 100 90 [0, 1] none) 0).refs
        0).iOnline,
      ((HostileReference.updateOnlineStatus otherMapWorld (managerOf 100 90 [0, 1] none) 0).refs
        0).iAccessible) = (false, false) ∧
    (((HostileReference.updateOnlineStatus walledWorld (managerOf 100 90 [0, 1] none) 0).refs
        0).iOnline,
      ((HostileReference.updateOnlineStatus walledWorld (managerOf 100 90 [0, 1] none) 0).refs
        0).iAccessible) = (true, false) :=
  ⟨rfl,
    ((updateOnlineStatus_table plainWorld (managerOf 100 90 [0, 1] none) 0).2 1 rfl rfl).trans
      (by decide),
    ((updateOnlineStatus_table flightWorld (managerOf 100 90 [0, 1] none) 0).2 1 rfl rfl).trans
      (by decide),
    ((updateOnlineStatus_table otherMapWorld (managerOf 100 90 [0, 1] none) 0).2 1 rfl rfl).trans
      (by decide),
    ((updateOnlineStatus_table walledWorld (managerOf 100 90 [0, 1] none) 0).2 1 rfl rfl).trans
      (by decide)⟩

end Neltharion
